import Mathlib

/-!
# Kart racing demo: vehicle motion, camera and race state

A shallow embedding of `Src/Camera.h` and of the frame loop of `Src/main.cpp`.

Modelling conventions.

* `float` is an ordered field `K` with exact arithmetic (rounding, infinities and NaN are
  not modelled).  Every definition is generic in `K` and computable; it can be run at `ℚ`
  and reasoned about at `ℝ`.
* The player speed update is given a second time with the rounding of `float` arithmetic
  explicit (`accelStepFl`, `brakeStepFl`, `decayStepFl`): a function `rnd` is applied to
  the result of each operation.  `binary32` is the rounding of IEEE 754 single precision
  on `ℚ`; `rnd = id` gives the exact definitions back.
* The library functions the program calls (`sin`, `cos`, `sqrt`, `glm::radians`) are the
  fields of a parameter `MathFns K`; the `glm` helpers built from them (`normalize`,
  `cross`, `clamp`, `distance`, `translate`, `rotate`, `scale`) are written out.
* The global variables of `main.cpp` are the fields of `Game`; one iteration of the
  `while` loop is `frame`, a function of the keys polled and the clock values read.
-/

set_option linter.unusedSectionVars false

namespace KartRace

/-! ## Vectors and library functions -/

/-- A `glm::vec3`. -/
structure Vec3 (K : Type) where
  x : K
  y : K
  z : K
deriving DecidableEq

/-- Library functions used by the program: `sin`, `cos`, `sqrt` and `glm::radians`. -/
structure MathFns (K : Type) where
  sin : K → K
  cos : K → K
  sqrt : K → K
  radians : K → K

section Defs

variable {K : Type} [LinearOrderedField K]

/-- Component-wise `a + b` of `glm::vec3`. -/
def Vec3.add (a b : Vec3 K) : Vec3 K := ⟨a.x + b.x, a.y + b.y, a.z + b.z⟩

/-- Component-wise `a - b` of `glm::vec3`. -/
def Vec3.sub (a b : Vec3 K) : Vec3 K := ⟨a.x - b.x, a.y - b.y, a.z - b.z⟩

/-- The product `v * k` of a `glm::vec3` and a scalar. -/
def Vec3.smul (v : Vec3 K) (k : K) : Vec3 K := ⟨v.x * k, v.y * k, v.z * k⟩

/-- The scalar product `glm::dot`. -/
def Vec3.dot (a b : Vec3 K) : K := a.x * b.x + a.y * b.y + a.z * b.z

/-- The vector product `glm::cross`. -/
def Vec3.cross (a b : Vec3 K) : Vec3 K :=
  ⟨a.y * b.z - b.y * a.z, a.z * b.x - b.z * a.x, a.x * b.y - b.x * a.y⟩

/-- The function `glm::normalize`: `v * inversesqrt(dot(v, v))`. -/
def Vec3.normalize (M : MathFns K) (v : Vec3 K) : Vec3 K :=
  v.smul (1 / M.sqrt (v.dot v))

/-- The function `glm::distance`: the length of `b - a`. -/
def Vec3.distance (M : MathFns K) (a b : Vec3 K) : K :=
  M.sqrt ((b.sub a).dot (b.sub a))

/-- The function `glm::clamp`: `min(max(x, lo), hi)`. -/
def clamp (x lo hi : K) : K := min (max x lo) hi

/-! ## Constants of `main.cpp` -/

/-- Z position of the finish line. -/
def FINISH_LINE_Z : K := 40.0

/-- Maximum forward speed of the player kart. -/
def MAX_SPEED : K := 9.0

/-- Forward acceleration rate. -/
def ACCELERATION : K := 4.5

/-- Max speed of ghost kart 1. -/
def SIDE_KART_MAX_SPEED : K := 15.0

/-- Max speed of ghost kart 2. -/
def SIDE_KART2_MAX_SPEED : K := 6.0

/-- Horizontal distance of a ghost kart from the player kart. -/
def SIDE_KART_DISTANCE : K := 3.0

/-- Loop-local constant `BASE_TURN_RATE`. -/
def BASE_TURN_RATE : K := 100.0

/-- Loop-local constant `REVERSE_TURN_MODIFIER`. -/
def REVERSE_TURN_MODIFIER : K := 0.7

/-- Loop-local constant `MIN_TURN_SPEED`. -/
def MIN_TURN_SPEED : K := 1.0

/-! ## Player speed and heading (main.cpp, lines 457-491) -/

/-- Lines 457-460: the `W` branch. -/
def accelStep (keyW : Bool) (dt kartSpeed : K) : K :=
  if keyW then
    let kartSpeed := kartSpeed + ACCELERATION * dt
    if kartSpeed > MAX_SPEED then MAX_SPEED else kartSpeed
  else kartSpeed

/-- Lines 461-464: the `S` branch. -/
def brakeStep (keyS : Bool) (dt kartSpeed : K) : K :=
  if keyS then
    let kartSpeed := kartSpeed - ACCELERATION * dt
    if kartSpeed < -MAX_SPEED / 2 then -MAX_SPEED / 2 else kartSpeed
  else kartSpeed

/-- Lines 467-473 (and 477-483): the local `turnModifier`. -/
def turnModifier (kartSpeed : K) : K :=
  let turnModifier : K := 1.0
  let turnModifier := if |kartSpeed| < MIN_TURN_SPEED then |kartSpeed| / MIN_TURN_SPEED
    else turnModifier
  if kartSpeed < 0 then turnModifier * REVERSE_TURN_MODIFIER else turnModifier

/-- Lines 466-485: the `A` branch followed by the `D` branch. -/
def turnStep (keyA keyD : Bool) (dt kartSpeed kartRotation : K) : K :=
  let kartRotation :=
    if keyA then kartRotation + BASE_TURN_RATE * turnModifier kartSpeed * dt else kartRotation
  if keyD then kartRotation - BASE_TURN_RATE * turnModifier kartSpeed * dt else kartRotation

/-- Lines 487-491: decay when both `W` and `S` are released. -/
def decayStep (keyW keyS : Bool) (kartSpeed : K) : K :=
  if !keyW && !keyS then
    let kartSpeed := kartSpeed * 0.65
    if |kartSpeed| < 0.1 then 0.0 else kartSpeed
  else kartSpeed

/-- The speed at the end of the speed update of a frame: lines 457-464 then 487-491
(the turning code in between reads the speed and does not write it). -/
def speedUpdate (keyW keyS : Bool) (dt kartSpeed : K) : K :=
  decayStep keyW keyS (brakeStep keyS dt (accelStep keyW dt kartSpeed))

/-! ## Camera (Camera.h) -/

/-- The enum `CameraMode`. -/
inductive CameraMode where
  | THIRD_PERSON
  | FIRST_PERSON
deriving DecidableEq, Repr

/-- The data members of `class Camera`. -/
structure Camera (K : Type) where
  currentMode : CameraMode
  Position : Vec3 K
  Front : Vec3 K
  Up : Vec3 K
  Right : Vec3 K
  WorldUp : Vec3 K
  Yaw : K
  Pitch : K
  MovementSpeed : K
  MouseSensitivity : K
  Zoom : K

/-- The keys polled with `glfwGetKey` during a frame (`true` is `GLFW_PRESS`,
`false` is `GLFW_RELEASE`). -/
structure Keys where
  keyW : Bool
  keyS : Bool
  keyA : Bool
  keyD : Bool
  keyZ : Bool
  keySpace : Bool
  keyLeftShift : Bool

/-- Private method `updateCameraVectors` (Camera.h, lines 147-156). -/
def Camera.updateCameraVectors (M : MathFns K) (c : Camera K) : Camera K :=
  let front : Vec3 K :=
    ⟨M.cos (M.radians c.Yaw) * M.cos (M.radians c.Pitch),
     M.sin (M.radians c.Pitch),
     M.sin (M.radians c.Yaw) * M.cos (M.radians c.Pitch)⟩
  let c := { c with Front := front.normalize M }
  let c := { c with Right := (c.Front.cross c.WorldUp).normalize M }
  { c with Up := (c.Right.cross c.Front).normalize M }

/-- The constructor `Camera(position, up, yaw, pitch)` (Camera.h, lines 19-31). -/
def Camera.new (M : MathFns K) (position up : Vec3 K) (yaw pitch : K) : Camera K :=
  Camera.updateCameraVectors M
    { currentMode := CameraMode.THIRD_PERSON
      Position := position
      Front := ⟨0.0, 0.0, -1.0⟩
      -- `Up` and `Right` are first written by `updateCameraVectors`
      Up := ⟨0, 0, 0⟩
      Right := ⟨0, 0, 0⟩
      WorldUp := up
      Yaw := yaw
      Pitch := pitch
      MovementSpeed := 2.5
      MouseSensitivity := 0.05
      Zoom := 45.0 }

/-- Method `ProcessKeyboard` (Camera.h, lines 39-54). -/
def Camera.ProcessKeyboard (c : Camera K) (k : Keys) (deltaTime : K) : Camera K :=
  let velocity := c.MovementSpeed * deltaTime
  let c := if k.keyW then { c with Position := c.Position.add (c.Front.smul velocity) } else c
  let c := if k.keyS then { c with Position := c.Position.sub (c.Front.smul velocity) } else c
  let c := if k.keyA then { c with Position := c.Position.sub (c.Right.smul velocity) } else c
  let c := if k.keyD then { c with Position := c.Position.add (c.Right.smul velocity) } else c
  let c := if k.keySpace then { c with Position := c.Position.add (c.WorldUp.smul velocity) }
    else c
  if k.keyLeftShift then { c with Position := c.Position.sub (c.WorldUp.smul velocity) } else c

/-- Method `ProcessMouseMovement` (Camera.h, lines 57-75). -/
def Camera.ProcessMouseMovement (M : MathFns K) (c : Camera K) (xoffset yoffset : K)
    (constrainPitch : Bool) : Camera K :=
  if c.currentMode ≠ CameraMode.THIRD_PERSON then c
  else
    let xoffset := xoffset * c.MouseSensitivity
    let yoffset := yoffset * c.MouseSensitivity
    let c := { c with Yaw := c.Yaw + xoffset }
    let c := { c with Pitch := c.Pitch + yoffset }
    let c := if constrainPitch then { c with Pitch := clamp c.Pitch (-89.0) 89.0 } else c
    c.updateCameraVectors M

/-- Method `ProcessMouseScroll` (Camera.h, lines 78-84). -/
def Camera.ProcessMouseScroll (c : Camera K) (yoffset : K) : Camera K :=
  let c := { c with Zoom := c.Zoom - yoffset }
  let c := if c.Zoom < 1.0 then { c with Zoom := 1.0 } else c
  if c.Zoom > 45.0 then { c with Zoom := 45.0 } else c

/-- Method `ToggleCameraMode` (Camera.h, lines 101-103). -/
def Camera.ToggleCameraMode (c : Camera K) : Camera K :=
  { c with currentMode :=
      if c.currentMode = CameraMode.THIRD_PERSON then CameraMode.FIRST_PERSON
      else CameraMode.THIRD_PERSON }

/-- Method `FollowKart` (Camera.h, lines 106-143). -/
def Camera.FollowKart (M : MathFns K) (c : Camera K) (kartPos : Vec3 K) (kartRotation : K)
    (mode : CameraMode) : Camera K :=
  let c := { c with currentMode := mode }
  if mode = CameraMode.THIRD_PERSON then
    let distance : K := 7.0
    let height : K := 2.0
    let offsetX := distance * M.sin (M.radians (kartRotation + c.Yaw + 180.0))
    let offsetZ := distance * M.cos (M.radians (kartRotation + c.Yaw + 180.0))
    let c := { c with Position := kartPos.add ⟨offsetX, height, offsetZ⟩ }
    let lookAt := kartPos.add
      ⟨M.sin (M.radians (kartRotation + c.Yaw)) * 3.0,
       0.5,
       M.cos (M.radians (kartRotation + c.Yaw)) * 3.0⟩
    let c := { c with Front := (lookAt.sub c.Position).normalize M }
    let c := { c with Right := (c.Front.cross c.WorldUp).normalize M }
    { c with Up := (c.Right.cross c.Front).normalize M }
  else
    let forwardOffset : K := 1.5
    let forwardX := M.sin (M.radians kartRotation) * forwardOffset
    let forwardZ := M.cos (M.radians kartRotation) * forwardOffset
    let c := { c with Position := kartPos.add ⟨forwardX, 0.5, forwardZ⟩ }
    { c with Front := ⟨M.sin (M.radians kartRotation), 0.0, M.cos (M.radians kartRotation)⟩ }

/-! ## The frame loop (main.cpp, lines 445-713) -/

/-- An event delivered by `glfwPollEvents` to `mouse_callback` or `scroll_callback`. -/
inductive Event (K : Type) where
  | mouse (xpos ypos : K)
  | scroll (yoffset : K)

/-- What one iteration of the loop reads from outside: the keys, the three reads of
`glfwGetTime` (lines 447, 523 and 535) and the events polled at line 712. -/
structure FrameInput (K : Type) where
  keys : Keys
  currentFrame : K
  timeAtFinish : K
  timeAtLaunch : K
  events : List (Event K)

/-- The global variables of `main.cpp` read or written by the simulation part of the loop,
with the static locals of `mouse_callback`. -/
structure Game (K : Type) where
  camera : Camera K
  firstMouse : Bool
  lastX : K
  lastY : K
  deltaTime : K
  lastFrame : K
  gameFinished : Bool
  raceStartTime : K
  finishTime : K
  playerFinished : Bool
  ghost1Finished : Bool
  ghost2Finished : Bool
  kartPosition : Vec3 K
  kartRotation : K
  kartSpeed : K
  spacePressed : Bool
  ghostKartsMoving : Bool
  ghostKart1Position : Vec3 K
  ghostKart2Position : Vec3 K
  sideKartRotation : K
  cameraMode : CameraMode
  zPressed : Bool

/-- The values of the globals when `main` enters the loop (lines 190-259). -/
def Game.init (M : MathFns K) : Game K :=
  { camera := Camera.new M ⟨0.0, 1.0, 3.0⟩ ⟨0.0, 1.0, 0.0⟩ (-90.0) 0.0
    firstMouse := true
    lastX := 400
    lastY := 300
    deltaTime := 0.0
    lastFrame := 0.0
    gameFinished := false
    raceStartTime := 0.0
    finishTime := 0.0
    playerFinished := false
    ghost1Finished := false
    ghost2Finished := false
    kartPosition := ⟨0.0, 0.05, -48.0⟩
    kartRotation := 0.0
    kartSpeed := 0.0
    spacePressed := false
    ghostKartsMoving := false
    ghostKart1Position := ⟨0.0, 0.05, -48.0⟩
    ghostKart2Position := ⟨0.0, 0.05, -48.0⟩
    sideKartRotation := 0.0
    cameraMode := CameraMode.THIRD_PERSON
    zPressed := false }

/-- Lines 447-451: frame delta and free camera movement. -/
def clockStep (inp : FrameInput K) (g : Game K) : Game K :=
  let g := { g with deltaTime := inp.currentFrame - g.lastFrame }
  let g := { g with lastFrame := inp.currentFrame }
  { g with camera := g.camera.ProcessKeyboard inp.keys g.deltaTime }

/-- Lines 457-491: speed and heading of the player kart. -/
def driveStep (k : Keys) (g : Game K) : Game K :=
  let g := { g with kartSpeed := accelStep k.keyW g.deltaTime g.kartSpeed }
  let g := { g with kartSpeed := brakeStep k.keyS g.deltaTime g.kartSpeed }
  let g := { g with kartRotation := turnStep k.keyA k.keyD g.deltaTime g.kartSpeed g.kartRotation }
  { g with kartSpeed := decayStep k.keyW k.keyS g.kartSpeed }

/-- Lines 493-499: camera mode toggle on the `Z` key. -/
def zStep (k : Keys) (g : Game K) : Game K :=
  let g :=
    if k.keyZ && !g.zPressed then
      { g with
        cameraMode :=
          if g.cameraMode = CameraMode.THIRD_PERSON then CameraMode.FIRST_PERSON
          else CameraMode.THIRD_PERSON
        zPressed := true }
    else g
  if !k.keyZ then { g with zPressed := false } else g

/-- Lines 501-502: position of the player kart. -/
def moveStep (M : MathFns K) (g : Game K) : Game K :=
  let g := { g with kartPosition := { g.kartPosition with
    x := g.kartPosition.x + g.kartSpeed * M.sin (M.radians g.kartRotation) * g.deltaTime } }
  { g with kartPosition := { g.kartPosition with
    z := g.kartPosition.z + g.kartSpeed * M.cos (M.radians g.kartRotation) * g.deltaTime } }

/-- Lines 506-509: the player kart reaches the finish line. -/
def markPlayer (g : Game K) : Game K :=
  if !g.playerFinished && decide (g.kartPosition.z ≥ FINISH_LINE_Z)
  then { g with playerFinished := true } else g

/-- Lines 511-514: ghost kart 1 reaches the finish line. -/
def markGhost1 (g : Game K) : Game K :=
  if !g.ghost1Finished && decide (g.ghostKart1Position.z ≥ FINISH_LINE_Z)
  then { g with ghost1Finished := true } else g

/-- Lines 516-519: ghost kart 2 reaches the finish line. -/
def markGhost2 (g : Game K) : Game K :=
  if !g.ghost2Finished && decide (g.ghostKart2Position.z ≥ FINISH_LINE_Z)
  then { g with ghost2Finished := true } else g

/-- Lines 521-527: the race is finished when the three karts are; the race time is taken. -/
def latchFinish (inp : FrameInput K) (g : Game K) : Game K :=
  if g.playerFinished && g.ghost1Finished && g.ghost2Finished then
    let g := { g with gameFinished := true }
    { g with finishTime := inp.timeAtFinish - g.raceStartTime }
  else g

/-- Lines 504-528: the finish check. -/
def finishStep (inp : FrameInput K) (g : Game K) : Game K :=
  if !g.gameFinished then latchFinish inp (markGhost2 (markGhost1 (markPlayer g))) else g

/-- Lines 535-549: the launch reset, which starts a race and places the ghost karts on
either side of the player kart. -/
def launchReset (M : MathFns K) (inp : FrameInput K) (g : Game K) : Game K :=
  let g := { g with raceStartTime := inp.timeAtLaunch }
  let g := { g with gameFinished := false }
  let g := { g with playerFinished := false }
  let g := { g with ghost1Finished := false }
  let g := { g with ghost2Finished := false }
  let g := { g with ghostKart1Position := g.kartPosition }
  let g := { g with ghostKart2Position := g.kartPosition }
  let g := { g with ghostKart1Position := { g.ghostKart1Position with
    x := g.ghostKart1Position.x + SIDE_KART_DISTANCE * M.cos (M.radians g.kartRotation) } }
  let g := { g with ghostKart1Position := { g.ghostKart1Position with
    z := g.ghostKart1Position.z - SIDE_KART_DISTANCE * M.sin (M.radians g.kartRotation) } }
  let g := { g with ghostKart2Position := { g.ghostKart2Position with
    x := g.ghostKart2Position.x - SIDE_KART_DISTANCE * M.cos (M.radians g.kartRotation) } }
  let g := { g with ghostKart2Position := { g.ghostKart2Position with
    z := g.ghostKart2Position.z + SIDE_KART_DISTANCE * M.sin (M.radians g.kartRotation) } }
  { g with sideKartRotation := g.kartRotation }

/-- Lines 530-553: a press of the space key toggles the ghost karts, and launches a race
when it starts them. -/
def spacePress (M : MathFns K) (inp : FrameInput K) (g : Game K) : Game K :=
  if inp.keys.keySpace && !g.spacePressed then
    let g := { g with ghostKartsMoving := !g.ghostKartsMoving }
    let g := if g.ghostKartsMoving then launchReset M inp g else g
    { g with spacePressed := true }
  else g

/-- Lines 530-557: the space key, with its release at lines 555-557. -/
def launchStep (M : MathFns K) (inp : FrameInput K) (g : Game K) : Game K :=
  let g := spacePress M inp g
  if !inp.keys.keySpace then { g with spacePressed := false } else g

/-- Lines 559-566: motion of the ghost karts. -/
def ghostStep (M : MathFns K) (g : Game K) : Game K :=
  if g.ghostKartsMoving then
    let g := { g with ghostKart1Position := { g.ghostKart1Position with
      x := g.ghostKart1Position.x
        + SIDE_KART_MAX_SPEED * M.sin (M.radians g.sideKartRotation) * g.deltaTime } }
    let g := { g with ghostKart1Position := { g.ghostKart1Position with
      z := g.ghostKart1Position.z
        + SIDE_KART_MAX_SPEED * M.cos (M.radians g.sideKartRotation) * g.deltaTime } }
    let g := { g with ghostKart2Position := { g.ghostKart2Position with
      x := g.ghostKart2Position.x
        + SIDE_KART2_MAX_SPEED * M.sin (M.radians g.sideKartRotation) * g.deltaTime } }
    { g with ghostKart2Position := { g.ghostKart2Position with
      z := g.ghostKart2Position.z
        + SIDE_KART2_MAX_SPEED * M.cos (M.radians g.sideKartRotation) * g.deltaTime } }
  else g

/-- Line 568: the camera follows the player kart. -/
def followStep (M : MathFns K) (g : Game K) : Game K :=
  { g with camera := g.camera.FollowKart M g.kartPosition g.kartRotation g.cameraMode }

/-- The callbacks `mouse_callback` (lines 795-815) and `scroll_callback` (lines 817-819). -/
def handleEvent (M : MathFns K) (g : Game K) : Event K → Game K
  | Event.mouse xpos ypos =>
    if g.firstMouse then
      { g with lastX := xpos, lastY := ypos, firstMouse := false }
    else
      let xoffset := xpos - g.lastX
      let yoffset := g.lastY - ypos
      let g := { g with lastX := xpos, lastY := ypos }
      { g with camera := g.camera.ProcessMouseMovement M xoffset yoffset true }
  | Event.scroll yoffset =>
    { g with camera := g.camera.ProcessMouseScroll yoffset }

/-- Line 712: `glfwPollEvents` runs the callbacks of the pending events in order. -/
def pollEvents (M : MathFns K) (events : List (Event K)) (g : Game K) : Game K :=
  events.foldl (handleEvent M) g

/-- One iteration of the `while` loop of `main` (the sky box, light and draw calls, which
write none of the fields of `Game`, are left out). -/
def frame (M : MathFns K) (inp : FrameInput K) (g : Game K) : Game K :=
  let g := clockStep inp g
  let g := driveStep inp.keys g
  let g := zStep inp.keys g
  let g := moveStep M g
  let g := finishStep inp g
  let g := launchStep M inp g
  let g := ghostStep M g
  let g := followStep M g
  pollEvents M inp.events g

/-- The loop run on a sequence of frame inputs. -/
def run (M : MathFns K) (inps : List (FrameInput K)) (g : Game K) : Game K :=
  inps.foldl (fun g inp => frame M inp g) g

/-- Frames in which only the accelerate control is held, one per frame delta:
the speed update of each frame applied in turn. -/
def holdAccelerate (dts : List K) (kartSpeed : K) : K :=
  dts.foldl (fun v dt => speedUpdate true false dt v) kartSpeed

/-- A public operation on the camera: a look update (`ProcessMouseMovement` with the default
`constrainPitch`), a follow update, a mode toggle, a scroll update or free movement. -/
inductive CamOp (K : Type) where
  | look (xoffset yoffset : K)
  | follow (kartPos : Vec3 K) (kartRotation : K) (mode : CameraMode)
  | toggle
  | scroll (yoffset : K)
  | keyboard (k : Keys) (deltaTime : K)

/-- The camera after one operation. -/
def Camera.applyOp (M : MathFns K) (c : Camera K) : CamOp K → Camera K
  | CamOp.look xoffset yoffset => c.ProcessMouseMovement M xoffset yoffset true
  | CamOp.follow kartPos kartRotation mode => c.FollowKart M kartPos kartRotation mode
  | CamOp.toggle => c.ToggleCameraMode
  | CamOp.scroll yoffset => c.ProcessMouseScroll yoffset
  | CamOp.keyboard k deltaTime => c.ProcessKeyboard k deltaTime

/-- The camera after a sequence of operations. -/
def Camera.applyOps (M : MathFns K) (ops : List (CamOp K)) (c : Camera K) : Camera K :=
  ops.foldl (Camera.applyOp M) c

/-- The camera after a sequence of scroll updates. -/
def Camera.scrollAll (yoffsets : List K) (c : Camera K) : Camera K :=
  yoffsets.foldl Camera.ProcessMouseScroll c

/-- The pitch of a camera lies in `[-89, 89]`. -/
def Camera.PitchInRange (c : Camera K) : Prop := -89 ≤ c.Pitch ∧ c.Pitch ≤ 89

/-- The race flags are consistent: overall-finished implies the three per-body flags. -/
def Game.FinishedConsistent (g : Game K) : Prop :=
  g.gameFinished = true →
    g.playerFinished = true ∧ g.ghost1Finished = true ∧ g.ghost2Finished = true

/-- The launch reset of lines 533-550 runs in the frame: the space key is pressed, was not
pressed at the end of the previous frame, and the ghost karts were not moving. -/
def launchRuns (inp : FrameInput K) (g : Game K) : Bool :=
  inp.keys.keySpace && !g.spacePressed && !g.ghostKartsMoving

/-- The state at line 504 of a frame: the globals after the clock, drive, camera-mode and
player motion code, before the finish check. -/
def preFinish (M : MathFns K) (inp : FrameInput K) (g : Game K) : Game K :=
  moveStep M (zStep inp.keys (driveStep inp.keys (clockStep inp g)))

/-! ## The translucent pass (main.cpp, lines 685-706) -/

/-- The two ghost meshes, `ghostKart1` and `ghostKart2` (lines 414-415). -/
inductive GhostMesh where
  | ghostKart1
  | ghostKart2
deriving DecidableEq, Repr

/-- One draw request of the translucent pass: the arguments of the `glm::translate`,
`glm::rotate` and `glm::scale` calls that build `ghostModel`, the mesh drawn and its alpha. -/
structure Submission (K : Type) where
  translate : Vec3 K
  angle : K
  axis : Vec3 K
  scale : Vec3 K
  mesh : GhostMesh
  alpha : K

/-- One insertion of the library sort: `x` goes in front of the first entry that the
comparator `a.first > b.first` of line 690 puts it before. -/
def sortInsert (x : K × Vec3 K) : List (K × Vec3 K) → List (K × Vec3 K)
  | [] => [x]
  | y :: ys => if x.1 > y.1 then x :: y :: ys else y :: sortInsert x ys

/-- The library call `std::sort` of lines 689-690, as the insertion sort that the library
runs on a short range: entries are inserted from left to right. -/
def stdSort (l : List (K × Vec3 K)) : List (K × Vec3 K) :=
  l.foldl (fun acc x => sortInsert x acc) []

/-- Lines 685-706: the ghost karts are paired with their distance from the camera, sorted
and submitted in that order; the mesh is chosen by comparing the position with
`ghostKart1Position`. -/
def translucentPass (M : MathFns K) (g : Game K) : List (Submission K) :=
  let transparentObjects : List (K × Vec3 K) :=
    [(Vec3.distance M g.camera.Position g.ghostKart1Position, g.ghostKart1Position),
     (Vec3.distance M g.camera.Position g.ghostKart2Position, g.ghostKart2Position)]
  let transparentObjects := stdSort transparentObjects
  transparentObjects.map fun obj =>
    { translate := obj.2
      angle := M.radians (g.kartRotation + 90.0)
      axis := ⟨0.0, 1.0, 0.0⟩
      scale := ⟨0.009, 0.009, 0.009⟩
      mesh := if obj.2 = g.ghostKart1Position then GhostMesh.ghostKart1
        else GhostMesh.ghostKart2
      alpha := 0.5 }

/-! ## The model matrix of a ghost kart (glm `matrix_transform`) -/

/-- A `glm::vec4`. -/
structure Vec4 (K : Type) where
  x : K
  y : K
  z : K
  w : K
deriving DecidableEq

/-- A `glm::mat4`, stored as the library stores it: the four columns `m[0]` .. `m[3]`. -/
structure Mat4 (K : Type) where
  c0 : Vec4 K
  c1 : Vec4 K
  c2 : Vec4 K
  c3 : Vec4 K
deriving DecidableEq

/-- Component-wise `a + b` of `glm::vec4`. -/
def Vec4.add (a b : Vec4 K) : Vec4 K := ⟨a.x + b.x, a.y + b.y, a.z + b.z, a.w + b.w⟩

/-- The product `v * k` of a `glm::vec4` and a scalar. -/
def Vec4.smul (v : Vec4 K) (k : K) : Vec4 K := ⟨v.x * k, v.y * k, v.z * k, v.w * k⟩

/-- The function `glm::translate(m, v)`: the last column becomes
`m[0] * v[0] + m[1] * v[1] + m[2] * v[2] + m[3]`. -/
def glm.translate (m : Mat4 K) (v : Vec3 K) : Mat4 K :=
  { m with c3 := (((m.c0.smul v.x).add (m.c1.smul v.y)).add (m.c2.smul v.z)).add m.c3 }

/-- The function `glm::scale(m, v)`: the first three columns are scaled by the components
of `v`. -/
def glm.scale (m : Mat4 K) (v : Vec3 K) : Mat4 K :=
  { c0 := m.c0.smul v.x, c1 := m.c1.smul v.y, c2 := m.c2.smul v.z, c3 := m.c3 }

/-- The state at line 685 of a frame: the globals after the simulation code of the frame,
as the draw calls read them. -/
def drawState (M : MathFns K) (inp : FrameInput K) (g : Game K) : Game K :=
  followStep M (ghostStep M (launchStep M inp (finishStep inp (preFinish M inp g))))

/-- No launch reset runs in any frame of the run of the loop on `inps` from `g`. -/
def launchFree (M : MathFns K) : List (FrameInput K) → Game K → Bool
  | [], _ => true
  | inp :: inps, g => !launchRuns inp g && launchFree M inps (frame M inp g)

/-- The expression of line 494: the other camera mode. -/
def toggleMode (m : CameraMode) : CameraMode :=
  if m = CameraMode.THIRD_PERSON then CameraMode.FIRST_PERSON else CameraMode.THIRD_PERSON

/-- The condition of line 493, on the state the code of a frame reaches it with: the camera
mode is toggled in this frame. -/
def zFires (inp : FrameInput K) (g : Game K) : Bool :=
  inp.keys.keyZ && !(driveStep inp.keys (clockStep inp g)).zPressed

/-- The number of camera-mode toggles performed in the run of the loop on `inps` from `g`. -/
def toggleCount (M : MathFns K) : List (FrameInput K) → Game K → Nat
  | [], _ => 0
  | inp :: inps, g => (if zFires inp g then 1 else 0) + toggleCount M inps (frame M inp g)

/-- In the words of the specification: the number of frames in which the control is pressed
and was released in the previous frame, `prev` being its state before the first frame. -/
def risingEdges : Bool → List Bool → Nat
  | _, [] => 0
  | prev, pressed :: rest => (if pressed && !prev then 1 else 0) + risingEdges pressed rest

/-- The basis of the camera is orthonormal and right-handed: `Front`, `Right` and `Up` have
length 1 and are pairwise orthogonal, `Right = normalize(Front x WorldUp)` and
`Up = Right x Front`. -/
def Camera.Orthonormal (M : MathFns K) (c : Camera K) : Prop :=
  c.Front.dot c.Front = 1 ∧ c.Right.dot c.Right = 1 ∧ c.Up.dot c.Up = 1 ∧
    c.Front.dot c.Right = 0 ∧ c.Front.dot c.Up = 0 ∧ c.Right.dot c.Up = 0 ∧
    c.Right = Vec3.normalize M (c.Front.cross c.WorldUp) ∧ c.Up = c.Right.cross c.Front

/-- The conditions of lines 504 and 521 on the state the code of a frame reaches them with:
the assignments of lines 522-523 (`gameFinished = true`, `finishTime = ...`) run in this
frame. -/
def latchRuns (M : MathFns K) (inp : FrameInput K) (g : Game K) : Bool :=
  !(preFinish M inp g).gameFinished &&
    ((markGhost2 (markGhost1 (markPlayer (preFinish M inp g)))).playerFinished &&
      (markGhost2 (markGhost1 (markPlayer (preFinish M inp g)))).ghost1Finished &&
      (markGhost2 (markGhost1 (markPlayer (preFinish M inp g)))).ghost2Finished)

/-- The number of frames of the run of the loop on `inps` from `g` in which the finish
timestamp is written. -/
def latchCount (M : MathFns K) : List (FrameInput K) → Game K → Nat
  | [], _ => 0
  | inp :: inps, g => (if latchRuns M inp g then 1 else 0) + latchCount M inps (frame M inp g)

/-- Frames in which neither the accelerate nor the brake control is held, one per frame
delta: the speed update of each frame applied in turn. -/
def coast (dts : List K) (kartSpeed : K) : K :=
  dts.foldl (fun v dt => speedUpdate false false dt v) kartSpeed

/-! ## The speed update in `float` arithmetic

The same code as `accelStep`, `brakeStep`, `decayStep`, with the rounding of `float`
arithmetic made explicit: `rnd` is applied to the result of every addition, subtraction and
multiplication and to the decimal literals `0.65f` and `0.1f`.  The constants `MAX_SPEED`,
`ACCELERATION` and `-MAX_SPEED / 2` are exact `float` values (9, 4.5 and -4.5).  Comparisons
and `fabs` are exact.  With `rnd = id` these are the definitions above. -/

/-- Lines 457-460 in `float` arithmetic: the `W` branch. -/
def accelStepFl (rnd : K → K) (keyW : Bool) (dt kartSpeed : K) : K :=
  if keyW then
    let kartSpeed := rnd (kartSpeed + rnd (ACCELERATION * dt))
    if kartSpeed > MAX_SPEED then MAX_SPEED else kartSpeed
  else kartSpeed

/-- Lines 461-464 in `float` arithmetic: the `S` branch. -/
def brakeStepFl (rnd : K → K) (keyS : Bool) (dt kartSpeed : K) : K :=
  if keyS then
    let kartSpeed := rnd (kartSpeed - rnd (ACCELERATION * dt))
    if kartSpeed < -MAX_SPEED / 2 then -MAX_SPEED / 2 else kartSpeed
  else kartSpeed

/-- Lines 487-491 in `float` arithmetic: decay when both `W` and `S` are released. -/
def decayStepFl (rnd : K → K) (keyW keyS : Bool) (kartSpeed : K) : K :=
  if !keyW && !keyS then
    let kartSpeed := rnd (kartSpeed * rnd 0.65)
    if |kartSpeed| < rnd 0.1 then 0.0 else kartSpeed
  else kartSpeed

/-- The speed at the end of the speed update of a frame, in `float` arithmetic. -/
def speedUpdateFl (rnd : K → K) (keyW keyS : Bool) (dt kartSpeed : K) : K :=
  decayStepFl rnd keyW keyS (brakeStepFl rnd keyS dt (accelStepFl rnd keyW dt kartSpeed))

/-- Frames in which only the accelerate control is held, one per frame delta, in `float`
arithmetic. -/
def holdAccelerateFl (rnd : K → K) (dts : List K) (kartSpeed : K) : K :=
  dts.foldl (fun v dt => speedUpdateFl rnd true false dt v) kartSpeed

/-- No operation of the accelerate-only frames on `dts` from `kartSpeed` rounds: every
product `ACCELERATION * dt` and every sum `kartSpeed + ACCELERATION * dt` is a value that
`rnd` leaves as it is. -/
def holdExact (rnd : K → K) : List K → K → Prop
  | [], _ => True
  | dt :: dts, kartSpeed =>
    rnd (ACCELERATION * dt) = ACCELERATION * dt ∧
      rnd (kartSpeed + ACCELERATION * dt) = kartSpeed + ACCELERATION * dt ∧
      holdExact rnd dts (speedUpdateFl rnd true false dt kartSpeed)

/-- Rounding to the nearest integer, a tie to the even one. -/
def roundHalfEven (q : ℚ) : ℤ :=
  let f := ⌊q⌋
  if q - f < 1 / 2 then f
  else if 1 / 2 < q - f then f + 1
  else if f % 2 = 0 then f else f + 1

/-- The rounding of IEEE 754 binary32 (`float`), round to nearest, ties to even: `x` is
rounded to the nearest multiple of `2 ^ (e - 23)`, where `2 ^ e ≤ |x| < 2 ^ (e + 1)` (a
significand of 24 bits).  The exponent range is not bounded: overflow to infinity and the
subnormal numbers below `2 ^ (-126)` are not modelled. -/
def binary32 (x : ℚ) : ℚ :=
  if x = 0 then 0
  else roundHalfEven (x / 2 ^ (Int.log 2 |x| - 23)) * 2 ^ (Int.log 2 |x| - 23)

end Defs

/-- The library functions compute the real functions exactly: `sin`, `cos` and `sqrt` are
those of `ℝ`, and `glm::radians` multiplies by `π / 180`. -/
structure MathFns.Exact (M : MathFns ℝ) : Prop where
  sin_eq : ∀ x, M.sin x = Real.sin x
  cos_eq : ∀ x, M.cos x = Real.cos x
  sqrt_eq : ∀ x, M.sqrt x = Real.sqrt x
  radians_eq : ∀ d, M.radians d = d * (Real.pi / 180)


/-! ## Theorems -/

/-- The properties of rounding to nearest that the speed bounds use: it is monotone, it
leaves a rounded value as it is, and 0 is a value. -/
structure IsRounding {K : Type} [LinearOrderedField K] (rnd : K → K) : Prop where
  mono : ∀ x y, x ≤ y → rnd x ≤ rnd y
  idem : ∀ x, rnd (rnd x) = rnd x
  zero : rnd 0 = 0

section Theorems

variable {K : Type} [LinearOrderedField K]

/-! ### Player speed -/

theorem accelStep_le_max (keyW : Bool) (dt v : K) (hv : v ≤ MAX_SPEED) :
    accelStep keyW dt v ≤ MAX_SPEED := by
  unfold accelStep
  dsimp only
  split_ifs with hW hgt
  · exact le_refl _
  · exact not_lt.mp hgt
  · exact hv

theorem accelStep_true_eq_min (dt v : K) :
    accelStep true dt v = min MAX_SPEED (v + ACCELERATION * dt) := by
  unfold accelStep
  simp only [if_true]
  split_ifs with h
  · exact (min_eq_left (le_of_lt h)).symm
  · exact (min_eq_right (not_lt.mp h)).symm

theorem speedUpdate_accel_only (dt v : K) :
    speedUpdate true false dt v = min MAX_SPEED (v + ACCELERATION * dt) := by
  unfold speedUpdate
  simp [decayStep, brakeStep, accelStep_true_eq_min]

/-- C1 (as stated) fails: with accelerate and brake both held for a frame of one second at
speed `MAX_SPEED`, the speed update ends at 4.5, below the speed it started from. -/
theorem C1_counterexample :
    (0 : ℚ) ≤ 1 ∧ (9 : ℚ) ≤ MAX_SPEED ∧ speedUpdate true true (1 : ℚ) 9 = 4.5 ∧
      ¬ ((9 : ℚ) ≤ speedUpdate true true (1 : ℚ) 9) := by
  norm_num [speedUpdate, decayStep, brakeStep, accelStep, MAX_SPEED, ACCELERATION]

/-- C1 (amended): for `dt ≥ 0` and a speed `s ≤ MAX_SPEED`, a frame in which accelerate is
held ends its speed update with a speed `≤ MAX_SPEED`, whatever the other controls; when the
brake control is not held that speed is also `≥ s`. -/
theorem C1_accelerate_bounds (keyS : Bool) (dt s : K) (hdt : 0 ≤ dt) (hs : s ≤ MAX_SPEED) :
    speedUpdate true keyS dt s ≤ MAX_SPEED ∧
      (keyS = false → s ≤ speedUpdate true keyS dt s) := by
  have hA : (0 : K) ≤ ACCELERATION * dt := by
    unfold ACCELERATION
    positivity
  have hM : (0 : K) ≤ MAX_SPEED := by
    unfold MAX_SPEED
    norm_num
  constructor
  · have h1 := accelStep_le_max true dt s hs
    unfold speedUpdate decayStep brakeStep
    cases keyS
    · simpa using h1
    · simp only [Bool.not_true, Bool.and_true, Bool.false_eq_true, if_false, if_true]
      split_ifs <;> linarith
  · intro hS
    subst hS
    rw [speedUpdate_accel_only]
    exact le_min hs (by linarith)

theorem C1_accelerate_bounds_witness :
    (0 : ℚ) ≤ 1 / 2 ∧ (3 : ℚ) ≤ MAX_SPEED ∧
      speedUpdate true false (1 / 2 : ℚ) 3 ≤ MAX_SPEED ∧
      (false = false → (3 : ℚ) ≤ speedUpdate true false (1 / 2 : ℚ) 3) :=
  have h0 : (0 : ℚ) ≤ 1 / 2 := by norm_num
  have h3 : (3 : ℚ) ≤ MAX_SPEED := by norm_num [MAX_SPEED]
  ⟨h0, h3, C1_accelerate_bounds false (1 / 2) 3 h0 h3⟩

/-- In exact arithmetic, for `dt ≥ 0` and a speed `s ≥ -MAX_SPEED/2`, a frame in which the
brake control is held ends its speed update with a speed `≤ s` and `≥ -MAX_SPEED/2`,
whatever the state of the accelerate control. -/
theorem speedUpdate_brake_bounds (keyW : Bool) (dt s : K) (hdt : 0 ≤ dt)
    (hs : -MAX_SPEED / 2 ≤ s) :
    speedUpdate keyW true dt s ≤ s ∧ -MAX_SPEED / 2 ≤ speedUpdate keyW true dt s := by
  have hA : (0 : K) ≤ ACCELERATION * dt := by
    unfold ACCELERATION
    positivity
  unfold speedUpdate decayStep brakeStep accelStep
  cases keyW <;>
    simp only [Bool.not_true, Bool.and_false, Bool.false_and, Bool.false_eq_true, if_false,
      if_true] <;>
    constructor <;> split_ifs <;> linarith

theorem min_max_add_nonneg (m a b : K) (hb : 0 ≤ b) :
    min m (min m a + b) = min m (a + b) := by
  rcases le_total m a with h | h
  · rw [min_eq_left h, min_eq_left (by linarith), min_eq_left (by linarith)]
  · rw [min_eq_right h]

theorem holdAccelerate_cons (dt : K) (dts : List K) (v : K) :
    holdAccelerate (dt :: dts) v = holdAccelerate dts (speedUpdate true false dt v) := rfl

theorem holdAccelerate_eq_min (dts : List K) :
    ∀ s0 : K, s0 ≤ MAX_SPEED → (∀ dt ∈ dts, 0 ≤ dt) →
      holdAccelerate dts s0 = min MAX_SPEED (s0 + ACCELERATION * dts.sum) := by
  induction dts with
  | nil =>
    intro s0 hs0 _
    simp [holdAccelerate, hs0]
  | cons dt dts ih =>
    intro s0 _ hdt
    have hrest : ∀ d ∈ dts, 0 ≤ d := fun d hd => hdt d (List.mem_cons_of_mem _ hd)
    have hsum : 0 ≤ dts.sum := List.sum_nonneg hrest
    have hA : (0 : K) ≤ ACCELERATION := by
      unfold ACCELERATION
      norm_num
    rw [holdAccelerate_cons, speedUpdate_accel_only, ih _ (min_le_left _ _) hrest,
      min_max_add_nonneg _ _ _ (mul_nonneg hA hsum), List.sum_cons, mul_add, add_assoc]

/-- C4: in a frame where neither accelerate nor brake is held, for every speed `s` and every
`dt`, the new speed is 0 when `|0.65 * s| < 0.1` and `0.65 * s` otherwise; hence its
magnitude is at most `|s|`, it is 0 or has the sign of `s`, it is never strictly between 0
and 0.1 in magnitude, and speed 0 is a fixed point. -/
theorem C4_decay (s dt : K) :
    speedUpdate false false dt s = (if |0.65 * s| < 0.1 then 0 else 0.65 * s) ∧
      |speedUpdate false false dt s| ≤ |s| ∧
      (speedUpdate false false dt s = 0 ∨
        (0 < s ∧ 0 < speedUpdate false false dt s) ∨
        (s < 0 ∧ speedUpdate false false dt s < 0)) ∧
      ¬ (0 < |speedUpdate false false dt s| ∧ |speedUpdate false false dt s| < 0.1) ∧
      speedUpdate false false dt (0 : K) = 0 := by
  have hform : speedUpdate false false dt s = (if |0.65 * s| < 0.1 then 0 else 0.65 * s) := by
    simp only [speedUpdate, decayStep, brakeStep, accelStep, Bool.not_false, Bool.and_self,
      Bool.false_eq_true, if_false, if_true, mul_comm s]
    split_ifs <;> norm_num
  have habs : |(0.65 : K) * s| = 0.65 * |s| := by
    rw [abs_mul, abs_of_pos (by norm_num : (0 : K) < 0.65)]
  have hs0 : 0 ≤ |s| := abs_nonneg s
  refine ⟨hform, ?_, ?_, ?_, ?_⟩
  · rw [hform]
    split_ifs
    · simp
    · rw [habs]
      linarith
  · rw [hform]
    split_ifs with h
    · exact Or.inl rfl
    · rcases lt_trichotomy s 0 with hneg | hzero | hpos
      · exact Or.inr (Or.inr ⟨hneg, by linarith⟩)
      · exact Or.inl (by rw [hzero, mul_zero])
      · exact Or.inr (Or.inl ⟨hpos, by linarith⟩)
  · rw [hform]
    split_ifs with h
    · simp
    · intro hcon
      exact h hcon.2
  · norm_num [speedUpdate, decayStep, brakeStep, accelStep]

/-- C5: the turn modifier at speed `s` (the speed after the accelerate and brake steps of
the frame) is `min(1, |s|/MIN_TURN_SPEED)` for `s ≥ 0` and `REVERSE_TURN_MODIFIER` times
that for `s < 0`; it is 1 at `MIN_TURN_SPEED` and 0 at speed 0; the left control adds
`BASE_TURN_RATE * modifier * dt` to the heading, the right control subtracts it, and the
heading does not change at speed 0. -/
theorem C5_turn_modifier (s h dt : K) (k : Keys) (g : Game K) :
    turnModifier s =
        (if 0 ≤ s then min 1 (|s| / MIN_TURN_SPEED)
         else REVERSE_TURN_MODIFIER * min 1 (|s| / MIN_TURN_SPEED)) ∧
      turnModifier (MIN_TURN_SPEED : K) = 1 ∧
      turnModifier (0 : K) = 0 ∧
      turnStep true false dt s h = h + BASE_TURN_RATE * turnModifier s * dt ∧
      turnStep false true dt s h = h - BASE_TURN_RATE * turnModifier s * dt ∧
      turnStep false false dt s h = h ∧
      (∀ keyA keyD : Bool, turnStep keyA keyD dt 0 h = h) ∧
      (driveStep k g).kartRotation =
        turnStep k.keyA k.keyD g.deltaTime
          (brakeStep k.keyS g.deltaTime (accelStep k.keyW g.deltaTime g.kartSpeed))
          g.kartRotation := by
  have h0 : turnModifier (0 : K) = 0 := by
    norm_num [turnModifier, MIN_TURN_SPEED]
  refine ⟨?_, ?_, h0, ?_, ?_, ?_, ?_, rfl⟩
  · unfold turnModifier
    dsimp only
    have h1 : (1.0 : K) = 1 := by norm_num
    rw [h1]
    by_cases hlt : |s| < MIN_TURN_SPEED
    · have hdiv : |s| / MIN_TURN_SPEED ≤ (1 : K) := by
        have : (MIN_TURN_SPEED : K) = 1 := by norm_num [MIN_TURN_SPEED]
        rw [this] at hlt ⊢
        rw [div_one]
        exact le_of_lt hlt
      rw [if_pos hlt, min_eq_right hdiv]
      by_cases hs : 0 ≤ s
      · rw [if_neg (not_lt.mpr hs), if_pos hs]
      · rw [if_pos (not_le.mp hs), if_neg hs, mul_comm]
    · have hdiv : (1 : K) ≤ |s| / MIN_TURN_SPEED := by
        have : (MIN_TURN_SPEED : K) = 1 := by norm_num [MIN_TURN_SPEED]
        rw [this] at hlt ⊢
        rw [div_one]
        exact not_lt.mp hlt
      rw [if_neg hlt, min_eq_left hdiv]
      by_cases hs : 0 ≤ s
      · rw [if_neg (not_lt.mpr hs), if_pos hs]
      · rw [if_pos (not_le.mp hs), if_neg hs, mul_comm]
  · norm_num [turnModifier, MIN_TURN_SPEED]
  · simp [turnStep]
  · simp [turnStep]
  · simp [turnStep]
  · intro keyA keyD
    cases keyA <;> cases keyD <;> simp [turnStep, h0]

/-! ### Fields a step of the frame leaves alone -/

theorem pollEvents_eq (M : MathFns K) (events : List (Event K)) :
    ∀ g : Game K, ∃ c f x y,
      pollEvents M events g = { g with camera := c, firstMouse := f, lastX := x, lastY := y } := by
  induction events with
  | nil => exact fun g => ⟨g.camera, g.firstMouse, g.lastX, g.lastY, rfl⟩
  | cons e events ih =>
    intro g
    have hstep : ∃ c f x y,
        handleEvent M g e = { g with camera := c, firstMouse := f, lastX := x, lastY := y } := by
      cases e with
      | mouse xpos ypos =>
        unfold handleEvent
        split_ifs
        · exact ⟨_, _, _, _, rfl⟩
        · exact ⟨_, _, _, _, rfl⟩
      | scroll yoffset => exact ⟨_, _, _, _, rfl⟩
    obtain ⟨c, f, x, y, h1⟩ := hstep
    obtain ⟨c2, f2, x2, y2, h2⟩ := ih (handleEvent M g e)
    refine ⟨c2, f2, x2, y2, ?_⟩
    show pollEvents M events (handleEvent M g e) = _
    rw [h2, h1]

theorem markPlayer_eq (g : Game K) :
    ∃ p, markPlayer g = { g with playerFinished := p } := by
  unfold markPlayer
  split_ifs
  · exact ⟨_, rfl⟩
  · exact ⟨g.playerFinished, rfl⟩

theorem markGhost1_eq (g : Game K) :
    ∃ p, markGhost1 g = { g with ghost1Finished := p } := by
  unfold markGhost1
  split_ifs
  · exact ⟨_, rfl⟩
  · exact ⟨g.ghost1Finished, rfl⟩

theorem markGhost2_eq (g : Game K) :
    ∃ p, markGhost2 g = { g with ghost2Finished := p } := by
  unfold markGhost2
  split_ifs
  · exact ⟨_, rfl⟩
  · exact ⟨g.ghost2Finished, rfl⟩

theorem latchFinish_eq (inp : FrameInput K) (g : Game K) :
    ∃ f t, latchFinish inp g = { g with gameFinished := f, finishTime := t } := by
  unfold latchFinish
  split_ifs
  · exact ⟨_, _, rfl⟩
  · exact ⟨g.gameFinished, g.finishTime, rfl⟩

/-- The finish check writes the four flags and the finish time, and nothing else. -/
theorem finishStep_eq (inp : FrameInput K) (g : Game K) :
    ∃ p g1 g2 f t, finishStep inp g =
      { g with playerFinished := p, ghost1Finished := g1, ghost2Finished := g2,
               gameFinished := f, finishTime := t } := by
  unfold finishStep
  split_ifs
  · obtain ⟨p, hp⟩ := markPlayer_eq g
    obtain ⟨g1, h1⟩ := markGhost1_eq (markPlayer g)
    obtain ⟨g2, h2⟩ := markGhost2_eq (markGhost1 (markPlayer g))
    obtain ⟨f, t, hl⟩ := latchFinish_eq inp (markGhost2 (markGhost1 (markPlayer g)))
    refine ⟨p, g1, g2, f, t, ?_⟩
    rw [hl, h2, h1, hp]
  · exact ⟨g.playerFinished, g.ghost1Finished, g.ghost2Finished, g.gameFinished,
      g.finishTime, rfl⟩

theorem finishStep_kartPosition (inp : FrameInput K) (g : Game K) :
    (finishStep inp g).kartPosition = g.kartPosition := by
  obtain ⟨p, g1, g2, f, t, h⟩ := finishStep_eq inp g
  rw [h]

/-- The space key writes the race flags, the start time, the ghost karts and its own
latch, and nothing else. -/
theorem launchStep_eq (M : MathFns K) (inp : FrameInput K) (g : Game K) :
    ∃ t f p g1 g2 sp mv p1 p2 r, launchStep M inp g =
      { g with raceStartTime := t, gameFinished := f, playerFinished := p,
               ghost1Finished := g1, ghost2Finished := g2, spacePressed := sp,
               ghostKartsMoving := mv, ghostKart1Position := p1, ghostKart2Position := p2,
               sideKartRotation := r } := by
  unfold launchStep spacePress launchReset
  dsimp only
  cases inp.keys.keySpace <;> cases hs : g.spacePressed <;> cases hm : g.ghostKartsMoving <;>
    simp only [Bool.not_true, Bool.not_false, Bool.and_true, Bool.and_false, Bool.true_and,
      Bool.false_and, Bool.false_eq_true, if_true, if_false] <;>
    exact ⟨_, _, _, _, _, _, _, _, _, _, rfl⟩

theorem launchStep_kartPosition (M : MathFns K) (inp : FrameInput K) (g : Game K) :
    (launchStep M inp g).kartPosition = g.kartPosition := by
  obtain ⟨t, f, p, g1, g2, sp, mv, p1, p2, r, h⟩ := launchStep_eq M inp g
  rw [h]

theorem ghostStep_kartPosition (M : MathFns K) (g : Game K) :
    (ghostStep M g).kartPosition = g.kartPosition := by
  unfold ghostStep
  dsimp only
  split_ifs <;> rfl

theorem zStep_drive (k : Keys) (g : Game K) :
    (zStep k g).kartPosition = g.kartPosition ∧ (zStep k g).kartSpeed = g.kartSpeed ∧
      (zStep k g).kartRotation = g.kartRotation ∧ (zStep k g).deltaTime = g.deltaTime := by
  unfold zStep
  dsimp only
  split_ifs <;> exact ⟨rfl, rfl, rfl, rfl⟩

/-- The position of the player kart at the end of a frame is the one written by lines
501-502 from the speed and heading left by lines 457-491. -/
theorem frame_kartPosition (M : MathFns K) (inp : FrameInput K) (g : Game K) :
    (frame M inp g).kartPosition =
      ⟨g.kartPosition.x
          + (driveStep inp.keys (clockStep inp g)).kartSpeed
            * M.sin (M.radians (driveStep inp.keys (clockStep inp g)).kartRotation)
            * (inp.currentFrame - g.lastFrame),
        g.kartPosition.y,
        g.kartPosition.z
          + (driveStep inp.keys (clockStep inp g)).kartSpeed
            * M.cos (M.radians (driveStep inp.keys (clockStep inp g)).kartRotation)
            * (inp.currentFrame - g.lastFrame)⟩ := by
  obtain ⟨c, f, x, y, hp⟩ := pollEvents_eq M inp.events
    (followStep M (ghostStep M (launchStep M inp (finishStep inp
      (moveStep M (zStep inp.keys (driveStep inp.keys (clockStep inp g))))))))
  obtain ⟨hz1, hz2, hz3, hz4⟩ := zStep_drive inp.keys (driveStep inp.keys (clockStep inp g))
  unfold frame
  dsimp only
  rw [hp]
  show (ghostStep M _).kartPosition = _
  rw [ghostStep_kartPosition, launchStep_kartPosition, finishStep_kartPosition]
  unfold moveStep
  dsimp only
  rw [hz1, hz2, hz3, hz4]
  rfl

theorem run_kartPosition_y (M : MathFns K) (inps : List (FrameInput K)) :
    ∀ g : Game K, (run M inps g).kartPosition.y = g.kartPosition.y := by
  induction inps with
  | nil => exact fun g => rfl
  | cons inp inps ih =>
    intro g
    show (run M inps (frame M inp g)).kartPosition.y = _
    rw [ih, frame_kartPosition]

/-- C6: with the speed `v` and heading `h` left by this frame's speed and turn updates and
the frame delta `dt`, the position update of the player adds `v * sin(rad h) * dt` to `x`
and `v * cos(rad h) * dt` to `z` and leaves `y` unchanged; hence the displacement has length
`|v| * |dt|`, which is `|v| * dt` as the clock is monotonic (`dt ≥ 0`), and the `y`
coordinate of the player is the same after every sequence of frames. -/
theorem C6_player_position (M : MathFns ℝ) (hM : M.Exact) (inp : FrameInput ℝ) (g : Game ℝ) :
    (frame M inp g).kartPosition.x =
        g.kartPosition.x
          + (driveStep inp.keys (clockStep inp g)).kartSpeed
            * Real.sin ((driveStep inp.keys (clockStep inp g)).kartRotation * (Real.pi / 180))
            * (inp.currentFrame - g.lastFrame) ∧
      (frame M inp g).kartPosition.z =
        g.kartPosition.z
          + (driveStep inp.keys (clockStep inp g)).kartSpeed
            * Real.cos ((driveStep inp.keys (clockStep inp g)).kartRotation * (Real.pi / 180))
            * (inp.currentFrame - g.lastFrame) ∧
      (frame M inp g).kartPosition.y = g.kartPosition.y ∧
      Vec3.distance M g.kartPosition (frame M inp g).kartPosition =
        |(driveStep inp.keys (clockStep inp g)).kartSpeed| * |inp.currentFrame - g.lastFrame| ∧
      (g.lastFrame ≤ inp.currentFrame →
        Vec3.distance M g.kartPosition (frame M inp g).kartPosition =
          |(driveStep inp.keys (clockStep inp g)).kartSpeed|
            * (inp.currentFrame - g.lastFrame)) ∧
      ∀ inps : List (FrameInput ℝ), (run M inps g).kartPosition.y = g.kartPosition.y := by
  have hpos := frame_kartPosition M inp g
  have hdist : Vec3.distance M g.kartPosition (frame M inp g).kartPosition =
      |(driveStep inp.keys (clockStep inp g)).kartSpeed| * |inp.currentFrame - g.lastFrame| := by
    rw [hpos]
    unfold Vec3.distance Vec3.sub Vec3.dot
    dsimp only
    rw [hM.sqrt_eq, hM.sin_eq, hM.cos_eq, ← abs_mul, ← Real.sqrt_sq_eq_abs]
    congr 1
    have hpyth := Real.sin_sq_add_cos_sq
      (M.radians (driveStep inp.keys (clockStep inp g)).kartRotation)
    linear_combination
      ((driveStep inp.keys (clockStep inp g)).kartSpeed * (inp.currentFrame - g.lastFrame)) ^ 2
        * hpyth
  refine ⟨?_, ?_, ?_, hdist, ?_, fun inps => run_kartPosition_y M inps g⟩
  · rw [hpos, hM.sin_eq, hM.radians_eq]
  · rw [hpos, hM.cos_eq, hM.radians_eq]
  · rw [hpos]
  · intro hle
    rw [hdist, abs_of_nonneg (sub_nonneg.mpr hle)]

theorem C6_player_position_witness :
    MathFns.Exact ⟨Real.sin, Real.cos, Real.sqrt, fun d => d * (Real.pi / 180)⟩ ∧
      (Game.init ⟨Real.sin, Real.cos, Real.sqrt, fun d => d * (Real.pi / 180)⟩).lastFrame
        ≤ (2 : ℝ) ∧
      (frame ⟨Real.sin, Real.cos, Real.sqrt, fun d => d * (Real.pi / 180)⟩
          ⟨⟨true, false, false, false, false, false, false⟩, 2, 2, 2, []⟩
          (Game.init ⟨Real.sin, Real.cos, Real.sqrt, fun d => d * (Real.pi / 180)⟩)).kartPosition.x
        = 0 ∧
      (frame ⟨Real.sin, Real.cos, Real.sqrt, fun d => d * (Real.pi / 180)⟩
          ⟨⟨true, false, false, false, false, false, false⟩, 2, 2, 2, []⟩
          (Game.init ⟨Real.sin, Real.cos, Real.sqrt, fun d => d * (Real.pi / 180)⟩)).kartPosition.z
        = -30 :=
  have hM : MathFns.Exact ⟨Real.sin, Real.cos, Real.sqrt, fun d => d * (Real.pi / 180)⟩ :=
    ⟨fun _ => rfl, fun _ => rfl, fun _ => rfl, fun _ => rfl⟩
  have h := C6_player_position _ hM
    ⟨⟨true, false, false, false, false, false, false⟩, 2, 2, 2, []⟩
    (Game.init ⟨Real.sin, Real.cos, Real.sqrt, fun d => d * (Real.pi / 180)⟩)
  have hv : (@driveStep ℝ _ ⟨true, false, false, false, false, false, false⟩
      (clockStep ⟨⟨true, false, false, false, false, false, false⟩, 2, 2, 2, []⟩
        (Game.init ⟨Real.sin, Real.cos, Real.sqrt, fun d => d * (Real.pi / 180)⟩))).kartSpeed
      = 9 := by
    norm_num [driveStep, clockStep, Game.init, accelStep, brakeStep, decayStep, MAX_SPEED,
      ACCELERATION]
  have hr : (@driveStep ℝ _ ⟨true, false, false, false, false, false, false⟩
      (clockStep ⟨⟨true, false, false, false, false, false, false⟩, 2, 2, 2, []⟩
        (Game.init ⟨Real.sin, Real.cos, Real.sqrt, fun d => d * (Real.pi / 180)⟩))).kartRotation
      = 0 := by
    norm_num [driveStep, clockStep, Game.init, turnStep]
  ⟨hM, by norm_num [Game.init],
    by rw [h.1, hv, hr]; norm_num [Game.init],
    by rw [h.2.1, hv, hr]; norm_num [Game.init]⟩

/-! ### Camera -/

theorem clamp_bounds (x lo hi : K) (h : lo ≤ hi) : lo ≤ clamp x lo hi ∧ clamp x lo hi ≤ hi :=
  ⟨le_min (le_max_right _ _) h, min_le_right _ _⟩

theorem updateCameraVectors_Pitch (M : MathFns K) (c : Camera K) :
    (c.updateCameraVectors M).Pitch = c.Pitch ∧ (c.updateCameraVectors M).Yaw = c.Yaw :=
  ⟨rfl, rfl⟩

theorem ProcessMouseMovement_third (M : MathFns K) (c : Camera K) (xoffset yoffset : K)
    (hmode : c.currentMode = CameraMode.THIRD_PERSON) :
    (c.ProcessMouseMovement M xoffset yoffset true).Pitch
        = clamp (c.Pitch + yoffset * c.MouseSensitivity) (-89) 89 ∧
      (c.ProcessMouseMovement M xoffset yoffset true).Yaw
        = c.Yaw + xoffset * c.MouseSensitivity := by
  unfold Camera.ProcessMouseMovement
  rw [if_neg (not_not.mpr hmode)]
  dsimp only
  rw [if_pos rfl]
  constructor
  · rw [(updateCameraVectors_Pitch M _).1]
    norm_num
  · rw [(updateCameraVectors_Pitch M _).2]

theorem ProcessMouseMovement_pitch (M : MathFns K) (c : Camera K) (xoffset yoffset : K)
    (hp : c.PitchInRange) : (c.ProcessMouseMovement M xoffset yoffset true).PitchInRange := by
  by_cases hmode : c.currentMode = CameraMode.THIRD_PERSON
  · unfold Camera.PitchInRange
    rw [(ProcessMouseMovement_third M c xoffset yoffset hmode).1]
    exact clamp_bounds _ _ _ (by norm_num)
  · unfold Camera.ProcessMouseMovement
    rw [if_pos hmode]
    exact hp

theorem FollowKart_Pitch (M : MathFns K) (c : Camera K) (kartPos : Vec3 K) (kartRotation : K)
    (mode : CameraMode) : (c.FollowKart M kartPos kartRotation mode).Pitch = c.Pitch := by
  unfold Camera.FollowKart
  dsimp only
  split_ifs <;> rfl

theorem ProcessMouseScroll_Pitch (c : Camera K) (yoffset : K) :
    (c.ProcessMouseScroll yoffset).Pitch = c.Pitch := by
  unfold Camera.ProcessMouseScroll
  dsimp only
  split_ifs <;> rfl

theorem ProcessKeyboard_Pitch (c : Camera K) (k : Keys) (deltaTime : K) :
    (c.ProcessKeyboard k deltaTime).Pitch = c.Pitch := by
  unfold Camera.ProcessKeyboard
  dsimp only
  split_ifs <;> rfl

theorem applyOp_pitch (M : MathFns K) (c : Camera K) (op : CamOp K) (hp : c.PitchInRange) :
    (c.applyOp M op).PitchInRange := by
  cases op with
  | look xoffset yoffset => exact ProcessMouseMovement_pitch M c xoffset yoffset hp
  | follow kartPos kartRotation mode =>
    unfold Camera.PitchInRange Camera.applyOp
    rw [FollowKart_Pitch]
    exact hp
  | toggle => exact hp
  | scroll yoffset =>
    unfold Camera.PitchInRange Camera.applyOp
    rw [ProcessMouseScroll_Pitch]
    exact hp
  | keyboard k deltaTime =>
    unfold Camera.PitchInRange Camera.applyOp
    rw [ProcessKeyboard_Pitch]
    exact hp

theorem applyOps_pitch (M : MathFns K) (ops : List (CamOp K)) :
    ∀ c : Camera K, c.PitchInRange → (c.applyOps M ops).PitchInRange := by
  induction ops with
  | nil => exact fun c hp => hp
  | cons op ops ih => exact fun c hp => ih (c.applyOp M op) (applyOp_pitch M c op hp)

theorem handleEvent_pitch (M : MathFns K) (g : Game K) (e : Event K)
    (hp : g.camera.PitchInRange) : (handleEvent M g e).camera.PitchInRange := by
  cases e with
  | mouse xpos ypos =>
    unfold handleEvent
    split_ifs
    · exact hp
    · exact ProcessMouseMovement_pitch M g.camera _ _ hp
  | scroll yoffset =>
    unfold handleEvent Camera.PitchInRange
    dsimp only
    rw [ProcessMouseScroll_Pitch]
    exact hp

theorem pollEvents_pitch (M : MathFns K) (events : List (Event K)) :
    ∀ g : Game K, g.camera.PitchInRange → (pollEvents M events g).camera.PitchInRange := by
  induction events with
  | nil => exact fun g hp => hp
  | cons e events ih => exact fun g hp => ih (handleEvent M g e) (handleEvent_pitch M g e hp)

theorem finishStep_camera (inp : FrameInput K) (g : Game K) :
    (finishStep inp g).camera = g.camera := by
  obtain ⟨p, g1, g2, f, t, h⟩ := finishStep_eq inp g
  rw [h]

theorem launchStep_camera (M : MathFns K) (inp : FrameInput K) (g : Game K) :
    (launchStep M inp g).camera = g.camera := by
  obtain ⟨t, f, p, g1, g2, sp, mv, p1, p2, r, h⟩ := launchStep_eq M inp g
  rw [h]

theorem ghostStep_camera (M : MathFns K) (g : Game K) :
    (ghostStep M g).camera = g.camera := by
  unfold ghostStep
  dsimp only
  split_ifs <;> rfl

theorem zStep_camera (k : Keys) (g : Game K) : (zStep k g).camera = g.camera := by
  unfold zStep
  dsimp only
  split_ifs <;> rfl

theorem frame_pitch (M : MathFns K) (inp : FrameInput K) (g : Game K)
    (hp : g.camera.PitchInRange) : (frame M inp g).camera.PitchInRange := by
  unfold frame
  dsimp only
  apply pollEvents_pitch
  unfold followStep Camera.PitchInRange
  dsimp only
  rw [FollowKart_Pitch, ghostStep_camera, launchStep_camera, finishStep_camera]
  show -89 ≤ (zStep inp.keys _).camera.Pitch ∧ (zStep inp.keys _).camera.Pitch ≤ 89
  rw [zStep_camera]
  show -89 ≤ (g.camera.ProcessKeyboard inp.keys _).Pitch ∧
    (g.camera.ProcessKeyboard inp.keys _).Pitch ≤ 89
  rw [ProcessKeyboard_Pitch]
  exact hp

theorem run_pitch (M : MathFns K) (inps : List (FrameInput K)) :
    ∀ g : Game K, g.camera.PitchInRange → (run M inps g).camera.PitchInRange := by
  induction inps with
  | nil => exact fun g hp => hp
  | cons inp inps ih => exact fun g hp => ih (frame M inp g) (frame_pitch M inp g hp)

/-- C7: from a camera whose pitch lies in `[-89, 89]`, after every finite sequence of look,
follow, toggle and scroll updates (and free movement), in either camera mode, the pitch lies
in `[-89, 89]`, and so it does after every sequence of frames of the loop; in `THIRD_PERSON`
one look update sets the pitch to `clamp(pitch + dy * sensitivity, -89, 89)` and the yaw to
`yaw + dx * sensitivity`. -/
theorem C7_pitch_in_range (M : MathFns K) (c : Camera K) (xoffset yoffset : K) :
    (c.PitchInRange → ∀ ops : List (CamOp K), (c.applyOps M ops).PitchInRange) ∧
      (∀ g : Game K, g.camera.PitchInRange →
        ∀ inps : List (FrameInput K), (run M inps g).camera.PitchInRange) ∧
      (c.currentMode = CameraMode.THIRD_PERSON →
        (c.ProcessMouseMovement M xoffset yoffset true).Pitch
            = clamp (c.Pitch + yoffset * c.MouseSensitivity) (-89) 89 ∧
          (c.ProcessMouseMovement M xoffset yoffset true).Yaw
            = c.Yaw + xoffset * c.MouseSensitivity) :=
  ⟨fun hp ops => applyOps_pitch M ops c hp,
    fun g hp inps => run_pitch M inps g hp,
    ProcessMouseMovement_third M c xoffset yoffset⟩

theorem Camera_new_fields (M : MathFns K) (position up : Vec3 K) (yaw pitch : K) :
    (Camera.new M position up yaw pitch).Pitch = pitch ∧
      (Camera.new M position up yaw pitch).MouseSensitivity = 0.05 ∧
      (Camera.new M position up yaw pitch).Zoom = 45.0 ∧
      (Camera.new M position up yaw pitch).currentMode = CameraMode.THIRD_PERSON :=
  ⟨rfl, rfl, rfl, rfl⟩

theorem C7_pitch_in_range_witness :
    (Camera.new ⟨Real.sin, Real.cos, Real.sqrt, fun d => d * (Real.pi / 180)⟩
        ⟨0, 1, 3⟩ ⟨0, 1, 0⟩ (-90) 0).PitchInRange ∧
      (Camera.new ⟨Real.sin, Real.cos, Real.sqrt, fun d => d * (Real.pi / 180)⟩
        ⟨0, 1, 3⟩ ⟨0, 1, 0⟩ (-90) 0).currentMode = CameraMode.THIRD_PERSON ∧
      ((Camera.new ⟨Real.sin, Real.cos, Real.sqrt, fun d => d * (Real.pi / 180)⟩
        ⟨0, 1, 3⟩ ⟨0, 1, 0⟩ (-90) 0).applyOps
          ⟨Real.sin, Real.cos, Real.sqrt, fun d => d * (Real.pi / 180)⟩
          [CamOp.look 10 2000, CamOp.toggle, CamOp.scroll 3, CamOp.look 0 (-5000)]).PitchInRange ∧
      ((Camera.new ⟨Real.sin, Real.cos, Real.sqrt, fun d => d * (Real.pi / 180)⟩
        ⟨0, 1, 3⟩ ⟨0, 1, 0⟩ (-90) 0).ProcessMouseMovement
          ⟨Real.sin, Real.cos, Real.sqrt, fun d => d * (Real.pi / 180)⟩ 10 2000 true).Pitch
        = 89 :=
  have hp : (Camera.new ⟨Real.sin, Real.cos, Real.sqrt, fun d => d * (Real.pi / 180)⟩
      ⟨0, 1, 3⟩ ⟨0, 1, 0⟩ (-90) (0 : ℝ)).PitchInRange := by
    unfold Camera.PitchInRange
    rw [(Camera_new_fields _ _ _ _ _).1]
    norm_num
  have h := C7_pitch_in_range ⟨Real.sin, Real.cos, Real.sqrt, fun d => d * (Real.pi / 180)⟩
    (Camera.new ⟨Real.sin, Real.cos, Real.sqrt, fun d => d * (Real.pi / 180)⟩
      ⟨0, 1, 3⟩ ⟨0, 1, 0⟩ (-90) (0 : ℝ)) 10 2000
  ⟨hp, rfl, h.1 hp _, by
    rw [(h.2.2 rfl).1, (Camera_new_fields _ _ _ _ _).1, (Camera_new_fields _ _ _ _ _).2.1]
    norm_num [clamp]⟩

theorem ProcessMouseScroll_eq (c : Camera K) (yoffset : K) :
    c.ProcessMouseScroll yoffset = { c with Zoom := clamp (c.Zoom - yoffset) 1 45 } := by
  have h1 : (1.0 : K) = 1 := by norm_num
  have h45 : (45.0 : K) = 45 := by norm_num
  unfold Camera.ProcessMouseScroll clamp
  dsimp only
  rw [h1, h45]
  by_cases hlo : c.Zoom - yoffset < 1
  · rw [if_pos hlo]
    dsimp only
    rw [if_neg (by norm_num), max_eq_right (le_of_lt hlo), min_eq_left (by norm_num)]
  · rw [if_neg hlo, max_eq_left (not_lt.mp hlo)]
    by_cases hhi : c.Zoom - yoffset > 45
    · rw [if_pos hhi, min_eq_right (le_of_lt hhi)]
    · rw [if_neg hhi, min_eq_left (not_lt.mp hhi)]

theorem scrollAll_others (yoffsets : List K) :
    ∀ c : Camera K, { c.scrollAll yoffsets with Zoom := c.Zoom } = c := by
  induction yoffsets with
  | nil => exact fun c => rfl
  | cons y ys ih =>
    intro c
    have h := ih (c.ProcessMouseScroll y)
    rw [ProcessMouseScroll_eq] at h
    have hrun : c.scrollAll (y :: ys)
        = Camera.scrollAll ys { c with Zoom := clamp (c.Zoom - y) 1 45 } := by
      rw [← ProcessMouseScroll_eq]
      rfl
    rw [hrun]
    generalize Camera.scrollAll ys { c with Zoom := clamp (c.Zoom - y) 1 45 } = r at h ⊢
    rw [Camera.mk.injEq] at h ⊢
    exact ⟨h.1, h.2.1, h.2.2.1, h.2.2.2.1, h.2.2.2.2.1, h.2.2.2.2.2.1, h.2.2.2.2.2.2.1,
      h.2.2.2.2.2.2.2.1, h.2.2.2.2.2.2.2.2.1, h.2.2.2.2.2.2.2.2.2.1, rfl⟩

theorem scrollAll_zoom (yoffsets : List K) :
    ∀ c : Camera K, 1 ≤ c.Zoom ∧ c.Zoom ≤ 45 →
      1 ≤ (c.scrollAll yoffsets).Zoom ∧ (c.scrollAll yoffsets).Zoom ≤ 45 := by
  induction yoffsets with
  | nil => exact fun c h => h
  | cons y ys ih =>
    intro c _
    apply ih (c.ProcessMouseScroll y)
    rw [ProcessMouseScroll_eq]
    exact clamp_bounds _ _ _ (by norm_num)

/-- C8: for every prior zoom `z` and scroll amount `dy`, `ProcessMouseScroll` sets the zoom
to `clamp(z - dy, 1, 45)` and changes no other field of the camera; hence after any
non-empty sequence of scroll updates the zoom lies in `[1, 45]`, and the other fields are
those of the camera before the sequence. -/
theorem C8_zoom_clamped (c : Camera K) (yoffset : K) (yoffsets : List K) :
    c.ProcessMouseScroll yoffset = { c with Zoom := clamp (c.Zoom - yoffset) 1 45 } ∧
      (yoffsets ≠ [] →
        1 ≤ (c.scrollAll yoffsets).Zoom ∧ (c.scrollAll yoffsets).Zoom ≤ 45) ∧
      { c.scrollAll yoffsets with Zoom := c.Zoom } = c := by
  refine ⟨ProcessMouseScroll_eq c yoffset, ?_, scrollAll_others yoffsets c⟩
  intro hne
  cases yoffsets with
  | nil => exact absurd rfl hne
  | cons y ys =>
    apply scrollAll_zoom ys (c.ProcessMouseScroll y)
    rw [ProcessMouseScroll_eq]
    exact clamp_bounds _ _ _ (by norm_num)

theorem C8_zoom_clamped_witness :
    [(-200 : ℝ), 3] ≠ [] ∧
      1 ≤ (Camera.scrollAll [(-200 : ℝ), 3]
        (Camera.new ⟨Real.sin, Real.cos, Real.sqrt, fun d => d * (Real.pi / 180)⟩
          ⟨0, 1, 3⟩ ⟨0, 1, 0⟩ (-90) 0)).Zoom ∧
      (Camera.scrollAll [(-200 : ℝ), 3]
        (Camera.new ⟨Real.sin, Real.cos, Real.sqrt, fun d => d * (Real.pi / 180)⟩
          ⟨0, 1, 3⟩ ⟨0, 1, 0⟩ (-90) 0)).Zoom ≤ 45 :=
  have hne : [(-200 : ℝ), 3] ≠ [] := by simp
  ⟨hne, (C8_zoom_clamped _ 0 _).2.1 hne⟩

/-! ### Race flags -/

theorem latchFinish_flags (inp : FrameInput K) (g : Game K) :
    (latchFinish inp g).playerFinished = g.playerFinished ∧
      (latchFinish inp g).ghost1Finished = g.ghost1Finished ∧
      (latchFinish inp g).ghost2Finished = g.ghost2Finished ∧
      (latchFinish inp g).gameFinished
        = (g.gameFinished || (g.playerFinished && g.ghost1Finished && g.ghost2Finished)) := by
  unfold latchFinish
  dsimp only
  split_ifs with h
  · exact ⟨rfl, rfl, rfl, by rw [h, Bool.or_true]⟩
  · exact ⟨rfl, rfl, rfl, by rw [Bool.not_eq_true] at h; rw [h, Bool.or_false]⟩

theorem markPlayer_flags (g : Game K) :
    (markPlayer g).playerFinished
        = (g.playerFinished || decide (g.kartPosition.z ≥ FINISH_LINE_Z)) ∧
      (markPlayer g).ghost1Finished = g.ghost1Finished ∧
      (markPlayer g).ghost2Finished = g.ghost2Finished ∧
      (markPlayer g).gameFinished = g.gameFinished ∧
      (markPlayer g).ghostKart1Position = g.ghostKart1Position ∧
      (markPlayer g).ghostKart2Position = g.ghostKart2Position := by
  unfold markPlayer
  split_ifs with h
  · refine ⟨?_, rfl, rfl, rfl, rfl, rfl⟩
    rw [Bool.and_eq_true] at h
    rw [h.2, Bool.or_true]
  · refine ⟨?_, rfl, rfl, rfl, rfl, rfl⟩
    cases hp : g.playerFinished
    · rw [hp] at h
      simpa using h
    · rfl

theorem markGhost1_flags (g : Game K) :
    (markGhost1 g).playerFinished = g.playerFinished ∧
      (markGhost1 g).ghost1Finished
        = (g.ghost1Finished || decide (g.ghostKart1Position.z ≥ FINISH_LINE_Z)) ∧
      (markGhost1 g).ghost2Finished = g.ghost2Finished ∧
      (markGhost1 g).gameFinished = g.gameFinished ∧
      (markGhost1 g).ghostKart2Position = g.ghostKart2Position := by
  unfold markGhost1
  split_ifs with h
  · refine ⟨rfl, ?_, rfl, rfl, rfl⟩
    rw [Bool.and_eq_true] at h
    rw [h.2, Bool.or_true]
  · refine ⟨rfl, ?_, rfl, rfl, rfl⟩
    cases hp : g.ghost1Finished
    · rw [hp] at h
      simpa using h
    · rfl

theorem markGhost2_flags (g : Game K) :
    (markGhost2 g).playerFinished = g.playerFinished ∧
      (markGhost2 g).ghost1Finished = g.ghost1Finished ∧
      (markGhost2 g).ghost2Finished
        = (g.ghost2Finished || decide (g.ghostKart2Position.z ≥ FINISH_LINE_Z)) ∧
      (markGhost2 g).gameFinished = g.gameFinished := by
  unfold markGhost2
  split_ifs with h
  · refine ⟨rfl, rfl, ?_, rfl⟩
    rw [Bool.and_eq_true] at h
    rw [h.2, Bool.or_true]
  · refine ⟨rfl, rfl, ?_, rfl⟩
    cases hp : g.ghost2Finished
    · rw [hp] at h
      simpa using h
    · rfl

/-- The flags after the finish check of a frame that starts with the race not finished. -/
theorem finishStep_flags (inp : FrameInput K) (g : Game K) (hnf : g.gameFinished = false) :
    (finishStep inp g).playerFinished
        = (g.playerFinished || decide (g.kartPosition.z ≥ FINISH_LINE_Z)) ∧
      (finishStep inp g).ghost1Finished
        = (g.ghost1Finished || decide (g.ghostKart1Position.z ≥ FINISH_LINE_Z)) ∧
      (finishStep inp g).ghost2Finished
        = (g.ghost2Finished || decide (g.ghostKart2Position.z ≥ FINISH_LINE_Z)) ∧
      (finishStep inp g).gameFinished
        = ((finishStep inp g).playerFinished && (finishStep inp g).ghost1Finished &&
            (finishStep inp g).ghost2Finished) := by
  obtain ⟨l1, l2, l3, l4⟩ := latchFinish_flags inp (markGhost2 (markGhost1 (markPlayer g)))
  obtain ⟨a1, a2, a3, a4⟩ := markGhost2_flags (markGhost1 (markPlayer g))
  obtain ⟨b1, b2, b3, b4, b5⟩ := markGhost1_flags (markPlayer g)
  obtain ⟨c1, c2, c3, c4, c5, c6⟩ := markPlayer_flags g
  unfold finishStep
  rw [hnf]
  simp only [Bool.not_false, if_true]
  rw [l1, l2, l3, l4, a1, a2, a3, a4, b1, b2, b3, b4, b5, c1, c2, c3, c4, c5, c6, hnf,
    Bool.false_or]
  exact ⟨rfl, rfl, rfl, rfl⟩

/-- The finish check does nothing in a frame that starts with the race finished. -/
theorem finishStep_finished (inp : FrameInput K) (g : Game K) (hf : g.gameFinished = true) :
    finishStep inp g = g := by
  unfold finishStep
  rw [hf]
  rfl

theorem launchReset_flags (M : MathFns K) (inp : FrameInput K) (g : Game K) :
    (launchReset M inp g).playerFinished = false ∧
      (launchReset M inp g).ghost1Finished = false ∧
      (launchReset M inp g).ghost2Finished = false ∧
      (launchReset M inp g).gameFinished = false :=
  ⟨rfl, rfl, rfl, rfl⟩

theorem launchStep_flags (M : MathFns K) (inp : FrameInput K) (g : Game K) :
    (launchStep M inp g).playerFinished = (!launchRuns inp g && g.playerFinished) ∧
      (launchStep M inp g).ghost1Finished = (!launchRuns inp g && g.ghost1Finished) ∧
      (launchStep M inp g).ghost2Finished = (!launchRuns inp g && g.ghost2Finished) ∧
      (launchStep M inp g).gameFinished = (!launchRuns inp g && g.gameFinished) := by
  have hsp : (spacePress M inp g).playerFinished = (!launchRuns inp g && g.playerFinished) ∧
      (spacePress M inp g).ghost1Finished = (!launchRuns inp g && g.ghost1Finished) ∧
      (spacePress M inp g).ghost2Finished = (!launchRuns inp g && g.ghost2Finished) ∧
      (spacePress M inp g).gameFinished = (!launchRuns inp g && g.gameFinished) := by
    unfold spacePress launchRuns
    dsimp only
    cases inp.keys.keySpace <;> cases g.spacePressed <;> cases g.ghostKartsMoving <;>
      exact ⟨rfl, rfl, rfl, rfl⟩
  unfold launchStep
  dsimp only
  split_ifs <;> exact hsp

theorem ghostStep_flags (M : MathFns K) (g : Game K) :
    (ghostStep M g).playerFinished = g.playerFinished ∧
      (ghostStep M g).ghost1Finished = g.ghost1Finished ∧
      (ghostStep M g).ghost2Finished = g.ghost2Finished ∧
      (ghostStep M g).gameFinished = g.gameFinished := by
  unfold ghostStep
  dsimp only
  split_ifs <;> exact ⟨rfl, rfl, rfl, rfl⟩

theorem zStep_eq (k : Keys) (g : Game K) :
    ∃ m z, zStep k g = { g with cameraMode := m, zPressed := z } := by
  unfold zStep
  dsimp only
  split_ifs <;> exact ⟨_, _, rfl⟩

/-- What the code before the finish check leaves alone. -/
theorem preFinish_fields (M : MathFns K) (inp : FrameInput K) (g : Game K) :
    (preFinish M inp g).playerFinished = g.playerFinished ∧
      (preFinish M inp g).ghost1Finished = g.ghost1Finished ∧
      (preFinish M inp g).ghost2Finished = g.ghost2Finished ∧
      (preFinish M inp g).gameFinished = g.gameFinished ∧
      (preFinish M inp g).ghostKart1Position = g.ghostKart1Position ∧
      (preFinish M inp g).ghostKart2Position = g.ghostKart2Position ∧
      (preFinish M inp g).spacePressed = g.spacePressed ∧
      (preFinish M inp g).ghostKartsMoving = g.ghostKartsMoving ∧
      (preFinish M inp g).raceStartTime = g.raceStartTime ∧
      (preFinish M inp g).finishTime = g.finishTime ∧
      (preFinish M inp g).sideKartRotation = g.sideKartRotation := by
  obtain ⟨m, z, h⟩ := zStep_eq inp.keys (driveStep inp.keys (clockStep inp g))
  unfold preFinish moveStep
  rw [h]
  exact ⟨rfl, rfl, rfl, rfl, rfl, rfl, rfl, rfl, rfl, rfl, rfl⟩

/-- The race flags at the end of a frame are those left by the space key code. -/
theorem frame_flags (M : MathFns K) (inp : FrameInput K) (g : Game K) :
    (frame M inp g).playerFinished
        = (launchStep M inp (finishStep inp (preFinish M inp g))).playerFinished ∧
      (frame M inp g).ghost1Finished
        = (launchStep M inp (finishStep inp (preFinish M inp g))).ghost1Finished ∧
      (frame M inp g).ghost2Finished
        = (launchStep M inp (finishStep inp (preFinish M inp g))).ghost2Finished ∧
      (frame M inp g).gameFinished
        = (launchStep M inp (finishStep inp (preFinish M inp g))).gameFinished := by
  obtain ⟨c, f, x, y, hp⟩ := pollEvents_eq M inp.events
    (followStep M (ghostStep M (launchStep M inp (finishStep inp (preFinish M inp g)))))
  obtain ⟨h1, h2, h3, h4⟩ :=
    ghostStep_flags M (launchStep M inp (finishStep inp (preFinish M inp g)))
  have hframe : frame M inp g = pollEvents M inp.events
      (followStep M (ghostStep M (launchStep M inp (finishStep inp (preFinish M inp g))))) := rfl
  rw [hframe, hp]
  exact ⟨h1, h2, h3, h4⟩

/-- The position of the player kart at the finish check is its position at the end of the
frame. -/
theorem preFinish_kartPosition (M : MathFns K) (inp : FrameInput K) (g : Game K) :
    (preFinish M inp g).kartPosition = (frame M inp g).kartPosition := by
  obtain ⟨hz1, hz2, hz3, hz4⟩ := zStep_drive inp.keys (driveStep inp.keys (clockStep inp g))
  rw [frame_kartPosition]
  unfold preFinish moveStep
  dsimp only
  rw [hz1, hz2, hz3, hz4]
  rfl

theorem launchRuns_preFinish (M : MathFns K) (inp : FrameInput K) (g : Game K) :
    launchRuns inp (finishStep inp (preFinish M inp g)) = launchRuns inp g := by
  obtain ⟨p, g1, g2, f, t, h⟩ := finishStep_eq inp (preFinish M inp g)
  obtain ⟨-, -, -, -, -, -, hs, hm, -⟩ := preFinish_fields M inp g
  rw [h]
  unfold launchRuns
  dsimp only
  rw [hs, hm]

theorem frame_consistent (M : MathFns K) (inp : FrameInput K) (g : Game K)
    (hg : g.FinishedConsistent) : (frame M inp g).FinishedConsistent := by
  obtain ⟨f1, f2, f3, f4⟩ := frame_flags M inp g
  obtain ⟨l1, l2, l3, l4⟩ := launchStep_flags M inp (finishStep inp (preFinish M inp g))
  obtain ⟨q1, q2, q3, q4, -⟩ := preFinish_fields M inp g
  unfold Game.FinishedConsistent
  rw [f1, f2, f3, f4, l1, l2, l3, l4]
  cases hl : launchRuns inp (finishStep inp (preFinish M inp g))
  · simp only [Bool.not_false, Bool.true_and]
    cases hf : g.gameFinished
    · obtain ⟨-, -, -, s4⟩ := finishStep_flags inp (preFinish M inp g) (q4.trans hf)
      intro hfin
      rw [s4, Bool.and_eq_true, Bool.and_eq_true] at hfin
      exact ⟨hfin.1.1, hfin.1.2, hfin.2⟩
    · rw [finishStep_finished inp _ (q4.trans hf), q1, q2, q3, q4]
      exact hg
  · intro hfin
    simp at hfin

theorem run_consistent (M : MathFns K) (inps : List (FrameInput K)) :
    ∀ g : Game K, g.FinishedConsistent → (run M inps g).FinishedConsistent := by
  induction inps with
  | nil => exact fun g hg => hg
  | cons inp inps ih => exact fun g hg => ih (frame M inp g) (frame_consistent M inp g hg)

/-- C9: in every state the frame loop reaches from the initial state, under any sequence
of frame inputs, `gameFinished` implies `playerFinished`, `ghost1Finished` and
`ghost2Finished`; and a frame that starts with the race not finished and ends with it
finished ends with the three per-body flags true. -/
theorem C9_finished_implies_all (M : MathFns K) (inps : List (FrameInput K))
    (inp : FrameInput K) :
    (run M inps (Game.init M)).FinishedConsistent ∧
      ∀ g : Game K, g.gameFinished = false → (frame M inp g).gameFinished = true →
        (frame M inp g).playerFinished = true ∧ (frame M inp g).ghost1Finished = true ∧
          (frame M inp g).ghost2Finished = true := by
  constructor
  · apply run_consistent
    intro h
    exact absurd h (by simp [Game.init])
  · intro g hnf hfin
    have hg : g.FinishedConsistent := by
      intro h
      rw [hnf] at h
      exact absurd h (by simp)
    exact frame_consistent M inp g hg hfin

theorem C9_finished_implies_all_witness :
    ({ Game.init ⟨Real.sin, Real.cos, Real.sqrt, fun d => d * (Real.pi / 180)⟩ with
        kartPosition := ⟨0, 0.05, 41⟩
        ghostKart1Position := ⟨3, 0.05, 41⟩
        ghostKart2Position := ⟨-3, 0.05, 41⟩ } : Game ℝ).gameFinished = false ∧
      (frame ⟨Real.sin, Real.cos, Real.sqrt, fun d => d * (Real.pi / 180)⟩
        ⟨⟨false, false, false, false, false, false, false⟩, 2, 2, 2, []⟩
        { Game.init ⟨Real.sin, Real.cos, Real.sqrt, fun d => d * (Real.pi / 180)⟩ with
          kartPosition := ⟨0, 0.05, 41⟩
          ghostKart1Position := ⟨3, 0.05, 41⟩
          ghostKart2Position := ⟨-3, 0.05, 41⟩ }).gameFinished = true ∧
      (frame ⟨Real.sin, Real.cos, Real.sqrt, fun d => d * (Real.pi / 180)⟩
        ⟨⟨false, false, false, false, false, false, false⟩, 2, 2, 2, []⟩
        { Game.init ⟨Real.sin, Real.cos, Real.sqrt, fun d => d * (Real.pi / 180)⟩ with
          kartPosition := ⟨0, 0.05, 41⟩
          ghostKart1Position := ⟨3, 0.05, 41⟩
          ghostKart2Position := ⟨-3, 0.05, 41⟩ }).ghost2Finished = true :=
  have hfin : (frame ⟨Real.sin, Real.cos, Real.sqrt, fun d => d * (Real.pi / 180)⟩
      ⟨⟨false, false, false, false, false, false, false⟩, 2, 2, 2, []⟩
      { Game.init ⟨Real.sin, Real.cos, Real.sqrt, fun d => d * (Real.pi / 180)⟩ with
        kartPosition := ⟨0, 0.05, 41⟩
        ghostKart1Position := ⟨3, 0.05, 41⟩
        ghostKart2Position := ⟨-3, 0.05, 41⟩ }).gameFinished = true := by
    simp [frame, pollEvents, followStep, ghostStep, launchStep, spacePress, finishStep,
      latchFinish, markGhost2, markGhost1, markPlayer, moveStep, zStep, driveStep, clockStep,
      Game.init, accelStep, brakeStep, decayStep, turnStep, FINISH_LINE_Z]
    norm_num
  ⟨rfl, hfin,
    ((C9_finished_implies_all ⟨Real.sin, Real.cos, Real.sqrt, fun d => d * (Real.pi / 180)⟩
      [] ⟨⟨false, false, false, false, false, false, false⟩, 2, 2, 2, []⟩).2 _ rfl hfin).2.2⟩

/-- C10 (as stated) fails.  First frame: the ghost karts are moving with heading 0, ghost
kart 1 is at `z = 39.9` and the frame lasts 1/75 s; the motion update of the frame takes it
to `z = 40.1`, but the finish check ran before that update and `ghost1Finished` is still
false at the end of the frame.  Second frame: the player kart crosses the line in a frame in
which the space key launches the ghost karts; the launch reset, which runs after the finish
check, leaves `playerFinished` false at the end of the frame. -/
theorem C10_counterexample :
    (({ Game.init ⟨Real.sin, Real.cos, Real.sqrt, fun d => d * (Real.pi / 180)⟩ with
          lastFrame := 6
          ghostKartsMoving := true
          ghostKart1Position := ⟨3, 0.05, 39.9⟩
          ghostKart2Position := ⟨-3, 0.05, -12⟩ } : Game ℝ).gameFinished = false ∧
      (frame ⟨Real.sin, Real.cos, Real.sqrt, fun d => d * (Real.pi / 180)⟩
        ⟨⟨false, false, false, false, false, false, false⟩, 6 + 1 / 75, 6 + 1 / 75,
          6 + 1 / 75, []⟩
        { Game.init ⟨Real.sin, Real.cos, Real.sqrt, fun d => d * (Real.pi / 180)⟩ with
          lastFrame := 6
          ghostKartsMoving := true
          ghostKart1Position := ⟨3, 0.05, 39.9⟩
          ghostKart2Position := ⟨-3, 0.05, -12⟩ }).ghostKart1Position.z = 40.1 ∧
      (40.1 : ℝ) ≥ FINISH_LINE_Z ∧
      (frame ⟨Real.sin, Real.cos, Real.sqrt, fun d => d * (Real.pi / 180)⟩
        ⟨⟨false, false, false, false, false, false, false⟩, 6 + 1 / 75, 6 + 1 / 75,
          6 + 1 / 75, []⟩
        { Game.init ⟨Real.sin, Real.cos, Real.sqrt, fun d => d * (Real.pi / 180)⟩ with
          lastFrame := 6
          ghostKartsMoving := true
          ghostKart1Position := ⟨3, 0.05, 39.9⟩
          ghostKart2Position := ⟨-3, 0.05, -12⟩ }).ghost1Finished = false) ∧
    (({ Game.init ⟨Real.sin, Real.cos, Real.sqrt, fun d => d * (Real.pi / 180)⟩ with
          lastFrame := 12
          kartPosition := ⟨0, 0.05, 39.9⟩
          kartSpeed := 9 } : Game ℝ).gameFinished = false ∧
      (frame ⟨Real.sin, Real.cos, Real.sqrt, fun d => d * (Real.pi / 180)⟩
        ⟨⟨true, false, false, false, false, true, false⟩, 12 + 1 / 45, 12 + 1 / 45,
          12 + 1 / 45, []⟩
        { Game.init ⟨Real.sin, Real.cos, Real.sqrt, fun d => d * (Real.pi / 180)⟩ with
          lastFrame := 12
          kartPosition := ⟨0, 0.05, 39.9⟩
          kartSpeed := 9 }).kartPosition.z = 40.1 ∧
      (40.1 : ℝ) ≥ FINISH_LINE_Z ∧
      (frame ⟨Real.sin, Real.cos, Real.sqrt, fun d => d * (Real.pi / 180)⟩
        ⟨⟨true, false, false, false, false, true, false⟩, 12 + 1 / 45, 12 + 1 / 45,
          12 + 1 / 45, []⟩
        { Game.init ⟨Real.sin, Real.cos, Real.sqrt, fun d => d * (Real.pi / 180)⟩ with
          lastFrame := 12
          kartPosition := ⟨0, 0.05, 39.9⟩
          kartSpeed := 9 }).playerFinished = false) := by
  refine ⟨⟨rfl, ?_, ?_, ?_⟩, ⟨rfl, ?_, ?_, ?_⟩⟩
  · simp [frame, pollEvents, followStep, ghostStep, launchStep, spacePress, finishStep,
      latchFinish, markGhost2, markGhost1, markPlayer, moveStep, zStep, driveStep, clockStep,
      Game.init, accelStep, brakeStep, decayStep, turnStep, FINISH_LINE_Z, SIDE_KART_MAX_SPEED]
    norm_num
  · norm_num [FINISH_LINE_Z]
  · simp [frame, pollEvents, followStep, ghostStep, launchStep, spacePress, finishStep,
      latchFinish, markGhost2, markGhost1, markPlayer, moveStep, zStep, driveStep, clockStep,
      Game.init, accelStep, brakeStep, decayStep, turnStep, FINISH_LINE_Z, SIDE_KART_MAX_SPEED]
    norm_num
  · simp [frame, pollEvents, followStep, ghostStep, launchStep, spacePress, launchReset,
      finishStep, latchFinish, markGhost2, markGhost1, markPlayer, moveStep, zStep, driveStep,
      clockStep, Game.init, accelStep, brakeStep, decayStep, turnStep, FINISH_LINE_Z,
      MAX_SPEED, ACCELERATION]
    norm_num
  · norm_num [FINISH_LINE_Z]
  · rw [(frame_flags _ _ _).1, (launchStep_flags _ _ _).1, launchRuns_preFinish]
    rfl

/-- C10 (amended): in a frame that starts with the race not finished and in which the
launch reset does not run, a body whose position at the finish check of the frame has
`z ≥ FINISH_LINE_Z` has its finished flag true at the end of that frame; that position is,
for the player, the one after this frame's motion update and, for a ghost kart, the one
before this frame's ghost motion (left by the previous frame). -/
theorem C10_flag_set_same_frame (M : MathFns K) (inp : FrameInput K) (g : Game K)
    (hnf : g.gameFinished = false) (hnl : launchRuns inp g = false) :
    ((frame M inp g).kartPosition.z ≥ FINISH_LINE_Z → (frame M inp g).playerFinished = true) ∧
      (g.ghostKart1Position.z ≥ FINISH_LINE_Z → (frame M inp g).ghost1Finished = true) ∧
      (g.ghostKart2Position.z ≥ FINISH_LINE_Z → (frame M inp g).ghost2Finished = true) := by
  obtain ⟨f1, f2, f3, -⟩ := frame_flags M inp g
  obtain ⟨l1, l2, l3, -⟩ := launchStep_flags M inp (finishStep inp (preFinish M inp g))
  obtain ⟨-, -, -, q4, q5, q6, -⟩ := preFinish_fields M inp g
  obtain ⟨s1, s2, s3, -⟩ := finishStep_flags inp (preFinish M inp g) (q4.trans hnf)
  rw [f1, f2, f3, l1, l2, l3, launchRuns_preFinish, hnl, s1, s2, s3, q5, q6,
    preFinish_kartPosition]
  simp only [Bool.not_false, Bool.true_and, Bool.or_eq_true, decide_eq_true_eq]
  exact ⟨Or.inr, Or.inr, Or.inr⟩

theorem C10_flag_set_same_frame_witness :
    ({ Game.init ⟨Real.sin, Real.cos, Real.sqrt, fun d => d * (Real.pi / 180)⟩ with
          lastFrame := 12
          kartPosition := ⟨0, 0.05, 39.9⟩
          kartSpeed := 9 } : Game ℝ).gameFinished = false ∧
      launchRuns
        ⟨⟨true, false, false, false, false, false, false⟩, 12 + 1 / 45, 12 + 1 / 45,
          12 + 1 / 45, []⟩
        ({ Game.init ⟨Real.sin, Real.cos, Real.sqrt, fun d => d * (Real.pi / 180)⟩ with
          lastFrame := 12
          kartPosition := ⟨0, 0.05, 39.9⟩
          kartSpeed := 9 } : Game ℝ) = false ∧
      (frame ⟨Real.sin, Real.cos, Real.sqrt, fun d => d * (Real.pi / 180)⟩
        ⟨⟨true, false, false, false, false, false, false⟩, 12 + 1 / 45, 12 + 1 / 45,
          12 + 1 / 45, []⟩
        { Game.init ⟨Real.sin, Real.cos, Real.sqrt, fun d => d * (Real.pi / 180)⟩ with
          lastFrame := 12
          kartPosition := ⟨0, 0.05, 39.9⟩
          kartSpeed := 9 }).kartPosition.z ≥ FINISH_LINE_Z ∧
      (frame ⟨Real.sin, Real.cos, Real.sqrt, fun d => d * (Real.pi / 180)⟩
        ⟨⟨true, false, false, false, false, false, false⟩, 12 + 1 / 45, 12 + 1 / 45,
          12 + 1 / 45, []⟩
        { Game.init ⟨Real.sin, Real.cos, Real.sqrt, fun d => d * (Real.pi / 180)⟩ with
          lastFrame := 12
          kartPosition := ⟨0, 0.05, 39.9⟩
          kartSpeed := 9 }).playerFinished = true :=
  have hz : (frame ⟨Real.sin, Real.cos, Real.sqrt, fun d => d * (Real.pi / 180)⟩
      ⟨⟨true, false, false, false, false, false, false⟩, 12 + 1 / 45, 12 + 1 / 45,
        12 + 1 / 45, []⟩
      { Game.init ⟨Real.sin, Real.cos, Real.sqrt, fun d => d * (Real.pi / 180)⟩ with
        lastFrame := 12
        kartPosition := ⟨0, 0.05, 39.9⟩
        kartSpeed := 9 }).kartPosition.z ≥ FINISH_LINE_Z := by
    rw [frame_kartPosition]
    norm_num [driveStep, clockStep, Game.init, accelStep, brakeStep, decayStep, turnStep,
      FINISH_LINE_Z, MAX_SPEED, ACCELERATION]
  ⟨rfl, rfl, hz,
    (C10_flag_set_same_frame ⟨Real.sin, Real.cos, Real.sqrt, fun d => d * (Real.pi / 180)⟩
      ⟨⟨true, false, false, false, false, false, false⟩, 12 + 1 / 45, 12 + 1 / 45,
        12 + 1 / 45, []⟩
      { Game.init ⟨Real.sin, Real.cos, Real.sqrt, fun d => d * (Real.pi / 180)⟩ with
        lastFrame := 12
        kartPosition := ⟨0, 0.05, 39.9⟩
        kartSpeed := 9 } rfl rfl).1 hz⟩

/-! ### The space key and the launch reset -/

/-- The space key code in a frame in which the launch reset runs. -/
theorem launchStep_of_runs (M : MathFns K) (inp : FrameInput K) (g : Game K)
    (h : launchRuns inp g = true) :
    launchStep M inp g =
      { launchReset M inp { g with ghostKartsMoving := true } with spacePressed := true } := by
  unfold launchRuns at h
  rw [Bool.and_eq_true, Bool.and_eq_true, Bool.not_eq_true', Bool.not_eq_true'] at h
  obtain ⟨⟨hk, hs⟩, hm⟩ := h
  unfold launchStep spacePress
  dsimp only
  rw [hk, hs, hm]
  rfl

/-- The space key code in a frame in which the launch reset does not run: only the flag
`ghostKartsMoving` and the latch `spacePressed` can change. -/
theorem launchStep_of_not_runs (M : MathFns K) (inp : FrameInput K) (g : Game K)
    (h : launchRuns inp g = false) :
    launchStep M inp g =
      { g with
        ghostKartsMoving :=
          if inp.keys.keySpace && !g.spacePressed then !g.ghostKartsMoving
          else g.ghostKartsMoving
        spacePressed := inp.keys.keySpace } := by
  rcases g with ⟨cam, fm, lx, ly, dt, lf, gf, rst, ft, pf, g1f, g2f, kp, kr, ks, sp, mv, p1,
    p2, skr, cm, zp⟩
  unfold launchRuns at h
  unfold launchStep spacePress
  dsimp only at h ⊢
  cases hk : inp.keys.keySpace <;> cases sp <;> cases mv <;> rw [hk] at h <;>
    first
      | exact absurd h (by decide)
      | rfl

/-! ### Latching of the race flags -/

theorem ghostStep_eq (M : MathFns K) (g : Game K) :
    ∃ p1 p2, ghostStep M g = { g with ghostKart1Position := p1, ghostKart2Position := p2 } := by
  unfold ghostStep
  dsimp only
  split_ifs
  · exact ⟨_, _, rfl⟩
  · exact ⟨g.ghostKart1Position, g.ghostKart2Position, rfl⟩

/-- The fields written by the space key code are, at the end of the frame, as that code
left them (the ghost positions are then moved by lines 559-566). -/
theorem frame_launch_fields (M : MathFns K) (inp : FrameInput K) (g : Game K) :
    (frame M inp g).raceStartTime
        = (launchStep M inp (finishStep inp (preFinish M inp g))).raceStartTime ∧
      (frame M inp g).sideKartRotation
        = (launchStep M inp (finishStep inp (preFinish M inp g))).sideKartRotation ∧
      (frame M inp g).ghostKartsMoving
        = (launchStep M inp (finishStep inp (preFinish M inp g))).ghostKartsMoving ∧
      (frame M inp g).spacePressed
        = (launchStep M inp (finishStep inp (preFinish M inp g))).spacePressed ∧
      (frame M inp g).kartRotation
        = (launchStep M inp (finishStep inp (preFinish M inp g))).kartRotation ∧
      (frame M inp g).finishTime
        = (launchStep M inp (finishStep inp (preFinish M inp g))).finishTime := by
  obtain ⟨c, f, x, y, hp⟩ := pollEvents_eq M inp.events
    (followStep M (ghostStep M (launchStep M inp (finishStep inp (preFinish M inp g)))))
  obtain ⟨p1, p2, hg⟩ := ghostStep_eq M (launchStep M inp (finishStep inp (preFinish M inp g)))
  have hframe : frame M inp g = pollEvents M inp.events
      (followStep M (ghostStep M (launchStep M inp (finishStep inp (preFinish M inp g))))) := rfl
  rw [hframe, hp]
  unfold followStep
  rw [hg]
  exact ⟨rfl, rfl, rfl, rfl, rfl, rfl⟩

theorem finishStep_keeps (inp : FrameInput K) (g : Game K) :
    (g.playerFinished = true → (finishStep inp g).playerFinished = true) ∧
      (g.ghost1Finished = true → (finishStep inp g).ghost1Finished = true) ∧
      (g.ghost2Finished = true → (finishStep inp g).ghost2Finished = true) ∧
      (g.gameFinished = true → (finishStep inp g).gameFinished = true) := by
  cases hf : g.gameFinished
  · obtain ⟨s1, s2, s3, -⟩ := finishStep_flags inp g hf
    rw [s1, s2, s3]
    refine ⟨fun h => ?_, fun h => ?_, fun h => ?_, fun h => absurd h (by decide)⟩ <;>
      rw [h, Bool.true_or]
  · rw [finishStep_finished inp g hf]
    exact ⟨id, id, id, fun _ => hf⟩

/-- In a frame in which the launch reset does not run, the race flags at the end of the frame
are those left by the finish check. -/
theorem frame_flags_no_launch (M : MathFns K) (inp : FrameInput K) (g : Game K)
    (h : launchRuns inp g = false) :
    (frame M inp g).playerFinished = (finishStep inp (preFinish M inp g)).playerFinished ∧
      (frame M inp g).ghost1Finished = (finishStep inp (preFinish M inp g)).ghost1Finished ∧
      (frame M inp g).ghost2Finished = (finishStep inp (preFinish M inp g)).ghost2Finished ∧
      (frame M inp g).gameFinished = (finishStep inp (preFinish M inp g)).gameFinished := by
  obtain ⟨f1, f2, f3, f4⟩ := frame_flags M inp g
  obtain ⟨l1, l2, l3, l4⟩ := launchStep_flags M inp (finishStep inp (preFinish M inp g))
  rw [f1, f2, f3, f4, l1, l2, l3, l4, launchRuns_preFinish, h]
  exact ⟨rfl, rfl, rfl, rfl⟩

theorem frame_keeps (M : MathFns K) (inp : FrameInput K) (g : Game K)
    (h : launchRuns inp g = false) :
    (g.playerFinished = true → (frame M inp g).playerFinished = true) ∧
      (g.ghost1Finished = true → (frame M inp g).ghost1Finished = true) ∧
      (g.ghost2Finished = true → (frame M inp g).ghost2Finished = true) ∧
      (g.gameFinished = true → (frame M inp g).gameFinished = true) := by
  obtain ⟨f1, f2, f3, f4⟩ := frame_flags_no_launch M inp g h
  obtain ⟨k1, k2, k3, k4⟩ := finishStep_keeps inp (preFinish M inp g)
  obtain ⟨q1, q2, q3, q4, -⟩ := preFinish_fields M inp g
  rw [f1, f2, f3, f4]
  rw [q1] at k1
  rw [q2] at k2
  rw [q3] at k3
  rw [q4] at k4
  exact ⟨k1, k2, k3, k4⟩

theorem run_keeps (M : MathFns K) (inps : List (FrameInput K)) :
    ∀ g : Game K, launchFree M inps g = true →
      (g.playerFinished = true → (run M inps g).playerFinished = true) ∧
        (g.ghost1Finished = true → (run M inps g).ghost1Finished = true) ∧
        (g.ghost2Finished = true → (run M inps g).ghost2Finished = true) := by
  induction inps with
  | nil => exact fun g _ => ⟨id, id, id⟩
  | cons inp inps ih =>
    intro g hfree
    unfold launchFree at hfree
    rw [Bool.and_eq_true, Bool.not_eq_true'] at hfree
    obtain ⟨k1, k2, k3, -⟩ := frame_keeps M inp g hfree.1
    obtain ⟨r1, r2, r3⟩ := ih (frame M inp g) hfree.2
    exact ⟨fun h => r1 (k1 h), fun h => r2 (k2 h), fun h => r3 (k3 h)⟩

/-- C11: a per-body finished flag that is true stays true through every frame in which the
launch reset does not run, whatever the positions of the bodies, and so through every run of
frames without a launch reset; hence a frame that ends with a flag false that was true when
the frame started is a frame in which the launch reset ran. -/
theorem C11_flags_latch (M : MathFns K) (inp : FrameInput K) (inps : List (FrameInput K))
    (g : Game K) :
    (launchRuns inp g = false →
        (g.playerFinished = true → (frame M inp g).playerFinished = true) ∧
          (g.ghost1Finished = true → (frame M inp g).ghost1Finished = true) ∧
          (g.ghost2Finished = true → (frame M inp g).ghost2Finished = true)) ∧
      (launchFree M inps g = true →
        (g.playerFinished = true → (run M inps g).playerFinished = true) ∧
          (g.ghost1Finished = true → (run M inps g).ghost1Finished = true) ∧
          (g.ghost2Finished = true → (run M inps g).ghost2Finished = true)) ∧
      ((g.playerFinished = true ∧ (frame M inp g).playerFinished = false) ∨
          (g.ghost1Finished = true ∧ (frame M inp g).ghost1Finished = false) ∨
          (g.ghost2Finished = true ∧ (frame M inp g).ghost2Finished = false) →
        launchRuns inp g = true) := by
  refine ⟨fun h => ?_, run_keeps M inps g, fun h => ?_⟩
  · obtain ⟨k1, k2, k3, -⟩ := frame_keeps M inp g h
    exact ⟨k1, k2, k3⟩
  · cases hl : launchRuns inp g
    · obtain ⟨k1, k2, k3, -⟩ := frame_keeps M inp g hl
      rcases h with ⟨a, b⟩ | ⟨a, b⟩ | ⟨a, b⟩
      · rw [k1 a] at b
        exact absurd b (by decide)
      · rw [k2 a] at b
        exact absurd b (by decide)
      · rw [k3 a] at b
        exact absurd b (by decide)
    · rfl

theorem C11_flags_latch_witness :
    launchRuns ⟨⟨true, false, false, false, false, false, false⟩, 31, 31, 31, []⟩
        ({ Game.init ⟨Real.sin, Real.cos, Real.sqrt, fun d => d * (Real.pi / 180)⟩ with
          lastFrame := 30
          playerFinished := true
          kartPosition := ⟨0, 0.05, 35⟩ } : Game ℝ) = false ∧
      launchFree ⟨Real.sin, Real.cos, Real.sqrt, fun d => d * (Real.pi / 180)⟩
        [⟨⟨true, false, false, false, false, false, false⟩, 31, 31, 31, []⟩,
          ⟨⟨false, true, false, false, false, false, false⟩, 32, 32, 32, []⟩]
        ({ Game.init ⟨Real.sin, Real.cos, Real.sqrt, fun d => d * (Real.pi / 180)⟩ with
          lastFrame := 30
          playerFinished := true
          kartPosition := ⟨0, 0.05, 35⟩ } : Game ℝ) = true ∧
      (frame ⟨Real.sin, Real.cos, Real.sqrt, fun d => d * (Real.pi / 180)⟩
        ⟨⟨true, false, false, false, false, false, false⟩, 31, 31, 31, []⟩
        { Game.init ⟨Real.sin, Real.cos, Real.sqrt, fun d => d * (Real.pi / 180)⟩ with
          lastFrame := 30
          playerFinished := true
          kartPosition := ⟨0, 0.05, 35⟩ }).playerFinished = true ∧
      (run ⟨Real.sin, Real.cos, Real.sqrt, fun d => d * (Real.pi / 180)⟩
        [⟨⟨true, false, false, false, false, false, false⟩, 31, 31, 31, []⟩,
          ⟨⟨false, true, false, false, false, false, false⟩, 32, 32, 32, []⟩]
        { Game.init ⟨Real.sin, Real.cos, Real.sqrt, fun d => d * (Real.pi / 180)⟩ with
          lastFrame := 30
          playerFinished := true
          kartPosition := ⟨0, 0.05, 35⟩ }).playerFinished = true :=
  have h := C11_flags_latch ⟨Real.sin, Real.cos, Real.sqrt, fun d => d * (Real.pi / 180)⟩
    ⟨⟨true, false, false, false, false, false, false⟩, 31, 31, 31, []⟩
    [⟨⟨true, false, false, false, false, false, false⟩, 31, 31, 31, []⟩,
      ⟨⟨false, true, false, false, false, false, false⟩, 32, 32, 32, []⟩]
    ({ Game.init ⟨Real.sin, Real.cos, Real.sqrt, fun d => d * (Real.pi / 180)⟩ with
      lastFrame := 30
      playerFinished := true
      kartPosition := ⟨0, 0.05, 35⟩ } : Game ℝ)
  ⟨rfl, rfl, (h.1 rfl).1 rfl, (h.2.1 rfl).1 rfl⟩

theorem frame_spacePressed (M : MathFns K) (inp : FrameInput K) (g : Game K) :
    (frame M inp g).spacePressed = inp.keys.keySpace := by
  rw [(frame_launch_fields M inp g).2.2.2.1]
  cases h : launchRuns inp (finishStep inp (preFinish M inp g))
  · rw [launchStep_of_not_runs M inp _ h]
  · rw [launchStep_of_runs M inp _ h]
    unfold launchRuns at h
    rw [Bool.and_eq_true, Bool.and_eq_true] at h
    exact h.1.1.symm

theorem frame_raceStartTime (M : MathFns K) (inp : FrameInput K) (g : Game K) :
    (frame M inp g).raceStartTime
      = if launchRuns inp g then inp.timeAtLaunch else g.raceStartTime := by
  rw [(frame_launch_fields M inp g).1]
  cases h : launchRuns inp g
  · rw [← launchRuns_preFinish M] at h
    rw [launchStep_of_not_runs M inp _ h]
    obtain ⟨p, g1, g2, f, t, hf⟩ := finishStep_eq inp (preFinish M inp g)
    rw [hf]
    exact (preFinish_fields M inp g).2.2.2.2.2.2.2.2.1
  · rw [← launchRuns_preFinish M] at h
    rw [launchStep_of_runs M inp _ h]
    rfl

/-- C12 (as stated) fails: the ghost karts are moving and the player has finished; a press of
the space key (a rising edge) stops the ghost karts and resets nothing: at the end of the
frame `playerFinished` is still true and the race-start timestamp is not the current time. -/
theorem C12_counterexample :
    (⟨⟨false, false, false, false, false, true, false⟩, 31, 31, 31, []⟩
        : FrameInput ℝ).keys.keySpace = true ∧
      ({ Game.init ⟨Real.sin, Real.cos, Real.sqrt, fun d => d * (Real.pi / 180)⟩ with
          lastFrame := 30
          raceStartTime := 5
          ghostKartsMoving := true
          playerFinished := true
          kartPosition := ⟨0, 0.05, 41⟩ } : Game ℝ).spacePressed = false ∧
      (frame ⟨Real.sin, Real.cos, Real.sqrt, fun d => d * (Real.pi / 180)⟩
        ⟨⟨false, false, false, false, false, true, false⟩, 31, 31, 31, []⟩
        { Game.init ⟨Real.sin, Real.cos, Real.sqrt, fun d => d * (Real.pi / 180)⟩ with
          lastFrame := 30
          raceStartTime := 5
          ghostKartsMoving := true
          playerFinished := true
          kartPosition := ⟨0, 0.05, 41⟩ }).playerFinished = true ∧
      (frame ⟨Real.sin, Real.cos, Real.sqrt, fun d => d * (Real.pi / 180)⟩
        ⟨⟨false, false, false, false, false, true, false⟩, 31, 31, 31, []⟩
        { Game.init ⟨Real.sin, Real.cos, Real.sqrt, fun d => d * (Real.pi / 180)⟩ with
          lastFrame := 30
          raceStartTime := 5
          ghostKartsMoving := true
          playerFinished := true
          kartPosition := ⟨0, 0.05, 41⟩ }).raceStartTime = 5 ∧
      (5 : ℝ) ≠ (⟨⟨false, false, false, false, false, true, false⟩, 31, 31, 31, []⟩
        : FrameInput ℝ).timeAtLaunch := by
  refine ⟨rfl, rfl, ?_, ?_, ?_⟩
  · apply (frame_keeps _ _ _ _).1
    · rfl
    · rfl
  · rw [frame_raceStartTime]
    rfl
  · norm_num

/-- C12 (amended): in every frame in which the launch-ghosts control has a rising edge and
the ghost karts were not moving when the frame started, at the end of the frame the three
per-body finished flags and the overall-finished flag are false and the race-start timestamp
is the current time; in every other frame no flag that was true is false at the end of the
frame and the race-start timestamp is unchanged.  (The latch `spacePressed` holds the state
of the control at the end of the previous frame.) -/
theorem C12_launch_reset (M : MathFns K) (inp : FrameInput K) (g : Game K) :
    (frame M inp g).spacePressed = inp.keys.keySpace ∧
      (launchRuns inp g
        = (inp.keys.keySpace && !g.spacePressed && !g.ghostKartsMoving)) ∧
      (launchRuns inp g = true →
        (frame M inp g).playerFinished = false ∧ (frame M inp g).ghost1Finished = false ∧
          (frame M inp g).ghost2Finished = false ∧ (frame M inp g).gameFinished = false ∧
          (frame M inp g).raceStartTime = inp.timeAtLaunch) ∧
      (launchRuns inp g = false →
        (frame M inp g).raceStartTime = g.raceStartTime ∧
          (g.playerFinished = true → (frame M inp g).playerFinished = true) ∧
          (g.ghost1Finished = true → (frame M inp g).ghost1Finished = true) ∧
          (g.ghost2Finished = true → (frame M inp g).ghost2Finished = true) ∧
          (g.gameFinished = true → (frame M inp g).gameFinished = true)) := by
  refine ⟨frame_spacePressed M inp g, rfl, fun h => ?_, fun h => ?_⟩
  · obtain ⟨f1, f2, f3, f4⟩ := frame_flags M inp g
    obtain ⟨l1, l2, l3, l4⟩ := launchStep_flags M inp (finishStep inp (preFinish M inp g))
    rw [f1, f2, f3, f4, l1, l2, l3, l4, launchRuns_preFinish, frame_raceStartTime, h]
    exact ⟨rfl, rfl, rfl, rfl, rfl⟩
  · rw [frame_raceStartTime, h]
    exact ⟨rfl, frame_keeps M inp g h⟩

theorem C12_launch_reset_witness :
    launchRuns ⟨⟨false, false, false, false, false, true, false⟩, 31, 31, 31, []⟩
        ({ Game.init ⟨Real.sin, Real.cos, Real.sqrt, fun d => d * (Real.pi / 180)⟩ with
          lastFrame := 30
          raceStartTime := 5
          playerFinished := true
          kartPosition := ⟨0, 0.05, 41⟩ } : Game ℝ) = true ∧
      (frame ⟨Real.sin, Real.cos, Real.sqrt, fun d => d * (Real.pi / 180)⟩
        ⟨⟨false, false, false, false, false, true, false⟩, 31, 31, 31, []⟩
        { Game.init ⟨Real.sin, Real.cos, Real.sqrt, fun d => d * (Real.pi / 180)⟩ with
          lastFrame := 30
          raceStartTime := 5
          playerFinished := true
          kartPosition := ⟨0, 0.05, 41⟩ }).playerFinished = false ∧
      (frame ⟨Real.sin, Real.cos, Real.sqrt, fun d => d * (Real.pi / 180)⟩
        ⟨⟨false, false, false, false, false, true, false⟩, 31, 31, 31, []⟩
        { Game.init ⟨Real.sin, Real.cos, Real.sqrt, fun d => d * (Real.pi / 180)⟩ with
          lastFrame := 30
          raceStartTime := 5
          playerFinished := true
          kartPosition := ⟨0, 0.05, 41⟩ }).raceStartTime = 31 :=
  have h := (C12_launch_reset ⟨Real.sin, Real.cos, Real.sqrt, fun d => d * (Real.pi / 180)⟩
    ⟨⟨false, false, false, false, false, true, false⟩, 31, 31, 31, []⟩
    ({ Game.init ⟨Real.sin, Real.cos, Real.sqrt, fun d => d * (Real.pi / 180)⟩ with
      lastFrame := 30
      raceStartTime := 5
      playerFinished := true
      kartPosition := ⟨0, 0.05, 41⟩ } : Game ℝ)).2.2.1 rfl
  ⟨rfl, h.1, h.2.2.2.2⟩

/-- The ghost positions and heading written by the launch reset, in any field `K`. -/
theorem launchReset_ghosts (M : MathFns K) (inp : FrameInput K) (g : Game K) :
    (launchReset M inp g).ghostKart1Position =
        ⟨g.kartPosition.x + SIDE_KART_DISTANCE * M.cos (M.radians g.kartRotation),
          g.kartPosition.y,
          g.kartPosition.z - SIDE_KART_DISTANCE * M.sin (M.radians g.kartRotation)⟩ ∧
      (launchReset M inp g).ghostKart2Position =
        ⟨g.kartPosition.x - SIDE_KART_DISTANCE * M.cos (M.radians g.kartRotation),
          g.kartPosition.y,
          g.kartPosition.z + SIDE_KART_DISTANCE * M.sin (M.radians g.kartRotation)⟩ ∧
      (launchReset M inp g).sideKartRotation = g.kartRotation :=
  ⟨rfl, rfl, rfl⟩

theorem frame_kartRotation (M : MathFns K) (inp : FrameInput K) (g : Game K) :
    (frame M inp g).kartRotation = (finishStep inp (preFinish M inp g)).kartRotation := by
  rw [(frame_launch_fields M inp g).2.2.2.2.1]
  obtain ⟨t, f, p, g1, g2, sp, mv, p1, p2, r, h⟩ :=
    launchStep_eq M inp (finishStep inp (preFinish M inp g))
  rw [h]

/-- C13: a launch reset that runs with the player at position `p` and heading `h` sets the
position of ghost kart 1 to `p + SIDE_KART_DISTANCE * (cos(rad h), 0, -sin(rad h))`, that of
ghost kart 2 to `p - SIDE_KART_DISTANCE * (cos(rad h), 0, -sin(rad h))` and the ghost heading
to `h`; the two offsets are perpendicular to the heading direction
`(sin(rad h), 0, cos(rad h))`, the player is the midpoint of the two ghost karts, which are
`2 * SIDE_KART_DISTANCE` apart; and in a frame in which the launch reset runs, `p` and `h` are
the position and heading of the player at the end of that frame. -/
theorem C13_launch_positions (M : MathFns ℝ) (hM : M.Exact) (inp : FrameInput ℝ)
    (g : Game ℝ) :
    (launchReset M inp g).ghostKart1Position =
        ⟨g.kartPosition.x + SIDE_KART_DISTANCE * Real.cos (g.kartRotation * (Real.pi / 180)),
          g.kartPosition.y,
          g.kartPosition.z - SIDE_KART_DISTANCE * Real.sin (g.kartRotation * (Real.pi / 180))⟩ ∧
      (launchReset M inp g).ghostKart2Position =
        ⟨g.kartPosition.x - SIDE_KART_DISTANCE * Real.cos (g.kartRotation * (Real.pi / 180)),
          g.kartPosition.y,
          g.kartPosition.z + SIDE_KART_DISTANCE * Real.sin (g.kartRotation * (Real.pi / 180))⟩ ∧
      (launchReset M inp g).sideKartRotation = g.kartRotation ∧
      Vec3.dot ((launchReset M inp g).ghostKart1Position.sub g.kartPosition)
        ⟨Real.sin (g.kartRotation * (Real.pi / 180)), 0,
          Real.cos (g.kartRotation * (Real.pi / 180))⟩ = 0 ∧
      Vec3.dot ((launchReset M inp g).ghostKart2Position.sub g.kartPosition)
        ⟨Real.sin (g.kartRotation * (Real.pi / 180)), 0,
          Real.cos (g.kartRotation * (Real.pi / 180))⟩ = 0 ∧
      ((launchReset M inp g).ghostKart1Position.add
          (launchReset M inp g).ghostKart2Position).smul (1 / 2) = g.kartPosition ∧
      Vec3.distance M (launchReset M inp g).ghostKart1Position
          (launchReset M inp g).ghostKart2Position = 2 * SIDE_KART_DISTANCE ∧
      (launchRuns inp g = true →
        (launchStep M inp (finishStep inp (preFinish M inp g))).ghostKart1Position =
            ⟨(frame M inp g).kartPosition.x
                + SIDE_KART_DISTANCE * Real.cos ((frame M inp g).kartRotation * (Real.pi / 180)),
              (frame M inp g).kartPosition.y,
              (frame M inp g).kartPosition.z
                - SIDE_KART_DISTANCE
                  * Real.sin ((frame M inp g).kartRotation * (Real.pi / 180))⟩ ∧
          (launchStep M inp (finishStep inp (preFinish M inp g))).ghostKart2Position =
            ⟨(frame M inp g).kartPosition.x
                - SIDE_KART_DISTANCE * Real.cos ((frame M inp g).kartRotation * (Real.pi / 180)),
              (frame M inp g).kartPosition.y,
              (frame M inp g).kartPosition.z
                + SIDE_KART_DISTANCE
                  * Real.sin ((frame M inp g).kartRotation * (Real.pi / 180))⟩ ∧
          (frame M inp g).sideKartRotation = (frame M inp g).kartRotation) := by
  obtain ⟨h1, h2, h3⟩ := launchReset_ghosts M inp g
  have hD : (SIDE_KART_DISTANCE : ℝ) = 3 := by norm_num [SIDE_KART_DISTANCE]
  have hpyth := Real.sin_sq_add_cos_sq (g.kartRotation * (Real.pi / 180))
  rw [h1, h2, h3, hM.sin_eq, hM.cos_eq, hM.radians_eq]
  refine ⟨rfl, rfl, rfl, ?_, ?_, ?_, ?_, ?_⟩
  · unfold Vec3.dot Vec3.sub
    dsimp only
    ring
  · unfold Vec3.dot Vec3.sub
    dsimp only
    ring
  · unfold Vec3.add Vec3.smul
    dsimp only
    rw [Vec3.mk.injEq]
    refine ⟨by ring, by ring, by ring⟩
  · unfold Vec3.distance Vec3.sub Vec3.dot
    dsimp only
    rw [hM.sqrt_eq, hD]
    have hsq : (g.kartPosition.x - 3 * Real.cos (g.kartRotation * (Real.pi / 180))
          - (g.kartPosition.x + 3 * Real.cos (g.kartRotation * (Real.pi / 180))))
          * (g.kartPosition.x - 3 * Real.cos (g.kartRotation * (Real.pi / 180))
          - (g.kartPosition.x + 3 * Real.cos (g.kartRotation * (Real.pi / 180))))
        + (g.kartPosition.y - g.kartPosition.y) * (g.kartPosition.y - g.kartPosition.y)
        + (g.kartPosition.z + 3 * Real.sin (g.kartRotation * (Real.pi / 180))
          - (g.kartPosition.z - 3 * Real.sin (g.kartRotation * (Real.pi / 180))))
          * (g.kartPosition.z + 3 * Real.sin (g.kartRotation * (Real.pi / 180))
          - (g.kartPosition.z - 3 * Real.sin (g.kartRotation * (Real.pi / 180))))
        = (2 * 3) ^ 2 := by
      linear_combination 36 * hpyth
    rw [hsq, Real.sqrt_sq (by norm_num)]
  · intro hrun
    rw [← launchRuns_preFinish M] at hrun
    have hrot := frame_kartRotation M inp g
    have hpos : (finishStep inp (preFinish M inp g)).kartPosition
        = (frame M inp g).kartPosition := by
      rw [finishStep_kartPosition, preFinish_kartPosition]
    rw [(frame_launch_fields M inp g).2.1, launchStep_of_runs M inp _ hrun, hrot, ← hpos]
    obtain ⟨k1, k2, k3⟩ := launchReset_ghosts M inp
      { finishStep inp (preFinish M inp g) with ghostKartsMoving := true }
    refine ⟨?_, ?_, ?_⟩
    · show (launchReset M inp _).ghostKart1Position = _
      rw [k1, hM.sin_eq, hM.cos_eq, hM.radians_eq]
    · show (launchReset M inp _).ghostKart2Position = _
      rw [k2, hM.sin_eq, hM.cos_eq, hM.radians_eq]
    · rfl

theorem C13_launch_positions_witness :
    MathFns.Exact ⟨Real.sin, Real.cos, Real.sqrt, fun d => d * (Real.pi / 180)⟩ ∧
      launchRuns ⟨⟨false, false, false, false, false, true, false⟩, 1, 1, 1, []⟩
        (Game.init ⟨Real.sin, Real.cos, Real.sqrt, fun d => d * (Real.pi / 180)⟩ : Game ℝ)
        = true ∧
      (launchReset ⟨Real.sin, Real.cos, Real.sqrt, fun d => d * (Real.pi / 180)⟩
        ⟨⟨false, false, false, false, false, true, false⟩, 1, 1, 1, []⟩
        (Game.init ⟨Real.sin, Real.cos, Real.sqrt, fun d => d * (Real.pi / 180)⟩
          : Game ℝ)).ghostKart1Position = ⟨3, 0.05, -48⟩ ∧
      (launchReset ⟨Real.sin, Real.cos, Real.sqrt, fun d => d * (Real.pi / 180)⟩
        ⟨⟨false, false, false, false, false, true, false⟩, 1, 1, 1, []⟩
        (Game.init ⟨Real.sin, Real.cos, Real.sqrt, fun d => d * (Real.pi / 180)⟩
          : Game ℝ)).ghostKart2Position = ⟨-3, 0.05, -48⟩ ∧
      (frame ⟨Real.sin, Real.cos, Real.sqrt, fun d => d * (Real.pi / 180)⟩
        ⟨⟨false, false, false, false, false, true, false⟩, 1, 1, 1, []⟩
        (Game.init ⟨Real.sin, Real.cos, Real.sqrt, fun d => d * (Real.pi / 180)⟩
          : Game ℝ)).sideKartRotation =
        (frame ⟨Real.sin, Real.cos, Real.sqrt, fun d => d * (Real.pi / 180)⟩
          ⟨⟨false, false, false, false, false, true, false⟩, 1, 1, 1, []⟩
          (Game.init ⟨Real.sin, Real.cos, Real.sqrt, fun d => d * (Real.pi / 180)⟩
            : Game ℝ)).kartRotation :=
  have hM : MathFns.Exact ⟨Real.sin, Real.cos, Real.sqrt, fun d => d * (Real.pi / 180)⟩ :=
    ⟨fun _ => rfl, fun _ => rfl, fun _ => rfl, fun _ => rfl⟩
  have h := C13_launch_positions _ hM
    ⟨⟨false, false, false, false, false, true, false⟩, 1, 1, 1, []⟩
    (Game.init ⟨Real.sin, Real.cos, Real.sqrt, fun d => d * (Real.pi / 180)⟩ : Game ℝ)
  ⟨hM, rfl, by rw [h.1]; norm_num [Game.init, SIDE_KART_DISTANCE],
    by rw [h.2.1]; norm_num [Game.init, SIDE_KART_DISTANCE], (h.2.2.2.2.2.2.2 rfl).2.2⟩

/-! ### The translucent pass -/

theorem stdSort_pair (a b : K × Vec3 K) :
    stdSort [a, b] = if b.1 > a.1 then [b, a] else [a, b] := by
  unfold stdSort
  simp only [List.foldl_cons, List.foldl_nil, sortInsert]

/-- The positions submitted by the translucent pass, in order. -/
theorem translucentPass_translate (M : MathFns K) (g : Game K) :
    (translucentPass M g).map (fun s => s.translate) =
      if Vec3.distance M g.camera.Position g.ghostKart2Position
          > Vec3.distance M g.camera.Position g.ghostKart1Position
      then [g.ghostKart2Position, g.ghostKart1Position]
      else [g.ghostKart1Position, g.ghostKart2Position] := by
  unfold translucentPass
  dsimp only
  rw [stdSort_pair]
  split_ifs <;> rfl

/-- C14: for every camera position and pair of ghost positions, the positions submitted in
the translucent pass are a permutation of the two ghost positions, in non-increasing order of
distance from the camera; with distances 5 and 12, in either input order, the body at
distance 12 is submitted first. -/
theorem C14_back_to_front (M : MathFns K) (g : Game K) :
    List.Perm ((translucentPass M g).map (fun s => s.translate))
        [g.ghostKart1Position, g.ghostKart2Position] ∧
      List.Pairwise (fun a b => a ≥ b)
        ((translucentPass M g).map
          (fun s => Vec3.distance M g.camera.Position s.translate)) ∧
      (Vec3.distance M g.camera.Position g.ghostKart1Position = 5 →
        Vec3.distance M g.camera.Position g.ghostKart2Position = 12 →
        (translucentPass M g).map (fun s => s.translate)
          = [g.ghostKart2Position, g.ghostKart1Position]) ∧
      (Vec3.distance M g.camera.Position g.ghostKart1Position = 12 →
        Vec3.distance M g.camera.Position g.ghostKart2Position = 5 →
        (translucentPass M g).map (fun s => s.translate)
          = [g.ghostKart1Position, g.ghostKart2Position]) := by
  have hmap : (translucentPass M g).map
        (fun s => Vec3.distance M g.camera.Position s.translate)
      = ((translucentPass M g).map (fun s => s.translate)).map
        (fun p => Vec3.distance M g.camera.Position p) := by
    rw [List.map_map]
    rfl
  rw [hmap, translucentPass_translate]
  refine ⟨?_, ?_, ?_, ?_⟩
  · split_ifs
    · exact List.Perm.swap _ _ _
    · exact List.Perm.refl _
  · split_ifs with h
    · simp only [List.map_cons, List.map_nil, List.pairwise_cons, List.mem_singleton,
        forall_eq, List.not_mem_nil, false_implies, implies_true, List.Pairwise.nil, and_true]
      exact le_of_lt h
    · simp only [List.map_cons, List.map_nil, List.pairwise_cons, List.mem_singleton,
        forall_eq, List.not_mem_nil, false_implies, implies_true, List.Pairwise.nil, and_true]
      exact not_lt.mp h
  · intro h1 h2
    rw [h1, h2, if_pos (by norm_num)]
  · intro h1 h2
    rw [h1, h2, if_neg (by norm_num)]

theorem C14_back_to_front_witness :
    Vec3.distance ⟨Real.sin, Real.cos, Real.sqrt, fun d => d * (Real.pi / 180)⟩
        ({ Game.init ⟨Real.sin, Real.cos, Real.sqrt, fun d => d * (Real.pi / 180)⟩ with
          camera := { (Game.init ⟨Real.sin, Real.cos, Real.sqrt,
            fun d => d * (Real.pi / 180)⟩).camera with Position := ⟨0, 0, 0⟩ }
          ghostKart1Position := ⟨3, 0, 4⟩
          ghostKart2Position := ⟨0, 0, 12⟩ } : Game ℝ).camera.Position
        (⟨3, 0, 4⟩ : Vec3 ℝ) = 5 ∧
      Vec3.distance ⟨Real.sin, Real.cos, Real.sqrt, fun d => d * (Real.pi / 180)⟩
        ({ Game.init ⟨Real.sin, Real.cos, Real.sqrt, fun d => d * (Real.pi / 180)⟩ with
          camera := { (Game.init ⟨Real.sin, Real.cos, Real.sqrt,
            fun d => d * (Real.pi / 180)⟩).camera with Position := ⟨0, 0, 0⟩ }
          ghostKart1Position := ⟨3, 0, 4⟩
          ghostKart2Position := ⟨0, 0, 12⟩ } : Game ℝ).camera.Position
        (⟨0, 0, 12⟩ : Vec3 ℝ) = 12 ∧
      (translucentPass ⟨Real.sin, Real.cos, Real.sqrt, fun d => d * (Real.pi / 180)⟩
        ({ Game.init ⟨Real.sin, Real.cos, Real.sqrt, fun d => d * (Real.pi / 180)⟩ with
          camera := { (Game.init ⟨Real.sin, Real.cos, Real.sqrt,
            fun d => d * (Real.pi / 180)⟩).camera with Position := ⟨0, 0, 0⟩ }
          ghostKart1Position := ⟨3, 0, 4⟩
          ghostKart2Position := ⟨0, 0, 12⟩ } : Game ℝ)).map (fun s => s.translate)
        = [⟨0, 0, 12⟩, ⟨3, 0, 4⟩] :=
  have h5 : Vec3.distance ⟨Real.sin, Real.cos, Real.sqrt, fun d => d * (Real.pi / 180)⟩
      (⟨0, 0, 0⟩ : Vec3 ℝ) ⟨3, 0, 4⟩ = 5 := by
    unfold Vec3.distance Vec3.sub Vec3.dot
    dsimp only
    rw [show ((3 : ℝ) - 0) * (3 - 0) + (0 - 0) * (0 - 0) + (4 - 0) * (4 - 0) = 5 ^ 2 by
      norm_num]
    exact Real.sqrt_sq (by norm_num)
  have h12 : Vec3.distance ⟨Real.sin, Real.cos, Real.sqrt, fun d => d * (Real.pi / 180)⟩
      (⟨0, 0, 0⟩ : Vec3 ℝ) ⟨0, 0, 12⟩ = 12 := by
    unfold Vec3.distance Vec3.sub Vec3.dot
    dsimp only
    rw [show ((0 : ℝ) - 0) * (0 - 0) + (0 - 0) * (0 - 0) + (12 - 0) * (12 - 0) = 12 ^ 2 by
      norm_num]
    exact Real.sqrt_sq (by norm_num)
  ⟨h5, h12,
    (C14_back_to_front ⟨Real.sin, Real.cos, Real.sqrt, fun d => d * (Real.pi / 180)⟩
      ({ Game.init ⟨Real.sin, Real.cos, Real.sqrt, fun d => d * (Real.pi / 180)⟩ with
        camera := { (Game.init ⟨Real.sin, Real.cos, Real.sqrt,
          fun d => d * (Real.pi / 180)⟩).camera with Position := ⟨0, 0, 0⟩ }
        ghostKart1Position := ⟨3, 0, 4⟩
        ghostKart2Position := ⟨0, 0, 12⟩ } : Game ℝ)).2.2.1 h5 h12⟩

/-- The meshes submitted by the translucent pass, in order. -/
theorem translucentPass_mesh (M : MathFns K) (g : Game K) :
    (translucentPass M g).map (fun s => s.mesh) =
      if Vec3.distance M g.camera.Position g.ghostKart2Position
          > Vec3.distance M g.camera.Position g.ghostKart1Position
      then [if g.ghostKart2Position = g.ghostKart1Position then GhostMesh.ghostKart1
              else GhostMesh.ghostKart2, GhostMesh.ghostKart1]
      else [GhostMesh.ghostKart1,
            if g.ghostKart2Position = g.ghostKart1Position then GhostMesh.ghostKart1
              else GhostMesh.ghostKart2] := by
  unfold translucentPass
  dsimp only
  rw [stdSort_pair]
  split_ifs <;> simp_all

/-- When the two ghost karts are at different positions, each mesh is submitted once. -/
theorem translucentPass_mesh_distinct (M : MathFns K) (g : Game K)
    (hne : g.ghostKart1Position ≠ g.ghostKart2Position) :
    List.Perm ((translucentPass M g).map (fun s => s.mesh))
      [GhostMesh.ghostKart1, GhostMesh.ghostKart2] := by
  rw [translucentPass_mesh, if_neg (Ne.symm hne)]
  split_ifs
  · exact List.Perm.swap _ _ _
  · exact List.Perm.refl _

/-- When the two ghost karts are at the same position, the mesh of ghost kart 1 is submitted
twice and that of ghost kart 2 is not submitted. -/
theorem translucentPass_mesh_same (M : MathFns K) (g : Game K)
    (heq : g.ghostKart1Position = g.ghostKart2Position) :
    (translucentPass M g).map (fun s => s.mesh)
      = [GhostMesh.ghostKart1, GhostMesh.ghostKart1] := by
  rw [translucentPass_mesh, if_pos heq.symm]
  split_ifs <;> rfl

/-- While the space key is up and the ghost karts are not moving, the simulation code of a
frame leaves the positions of the ghost karts as they were. -/
theorem drawState_ghosts_idle (M : MathFns K) (inp : FrameInput K) (g : Game K)
    (hk : inp.keys.keySpace = false) (hm : g.ghostKartsMoving = false) :
    (drawState M inp g).ghostKart1Position = g.ghostKart1Position ∧
      (drawState M inp g).ghostKart2Position = g.ghostKart2Position := by
  have hnr : launchRuns inp (finishStep inp (preFinish M inp g)) = false := by
    unfold launchRuns
    rw [hk]
    rfl
  obtain ⟨p, g1, g2, f, t, hf⟩ := finishStep_eq inp (preFinish M inp g)
  obtain ⟨-, -, -, -, q5, q6, -, q8, -⟩ := preFinish_fields M inp g
  unfold drawState followStep ghostStep
  rw [launchStep_of_not_runs M inp _ hnr, hk, hf]
  dsimp only
  rw [q8, hm, q5, q6]
  exact ⟨rfl, rfl⟩

/-- C15 fails on the code: in a frame from the initial state in which the space key is up
(whatever the other keys, clock values and events), the two ghost karts are at the same
position and the translucent pass submits the mesh of ghost kart 1 twice and never the mesh
of ghost kart 2; the same holds in every state in which the two positions are equal. -/
theorem C15_same_position_same_mesh (M : MathFns K) (keyW keyS keyA keyD keyZ keyShift : Bool)
    (t1 t2 t3 : K) (events : List (Event K)) (g : Game K) :
    (translucentPass M
        (drawState M ⟨⟨keyW, keyS, keyA, keyD, keyZ, false, keyShift⟩, t1, t2, t3, events⟩
          (Game.init M))).map (fun s => s.mesh)
        = [GhostMesh.ghostKart1, GhostMesh.ghostKart1] ∧
      (translucentPass M { g with ghostKart2Position := g.ghostKart1Position }).map
          (fun s => s.mesh)
        = [GhostMesh.ghostKart1, GhostMesh.ghostKart1] := by
  constructor
  · apply translucentPass_mesh_same
    obtain ⟨h1, h2⟩ := drawState_ghosts_idle M
      ⟨⟨keyW, keyS, keyA, keyD, keyZ, false, keyShift⟩, t1, t2, t3, events⟩ (Game.init M)
      rfl rfl
    rw [h1, h2]
    rfl
  · exact translucentPass_mesh_same M _ rfl

/-! ### The camera-mode toggle -/

theorem toggleMode_toggleMode (m : CameraMode) : toggleMode (toggleMode m) = m := by
  cases m <;> rfl

/-- The camera mode and the latch of the `Z` key at the end of a frame. -/
theorem frame_zStep (M : MathFns K) (inp : FrameInput K) (g : Game K) :
    (frame M inp g).zPressed = inp.keys.keyZ ∧
      (frame M inp g).cameraMode
        = (if zFires inp g then toggleMode g.cameraMode else g.cameraMode) ∧
      zFires inp g = (inp.keys.keyZ && !g.zPressed) := by
  obtain ⟨c, f, x, y, hp⟩ := pollEvents_eq M inp.events
    (followStep M (ghostStep M (launchStep M inp (finishStep inp (preFinish M inp g)))))
  obtain ⟨p1, p2, hg⟩ := ghostStep_eq M (launchStep M inp (finishStep inp (preFinish M inp g)))
  obtain ⟨t, f', p, g1, g2, sp, mv, q1, q2, r, hl⟩ :=
    launchStep_eq M inp (finishStep inp (preFinish M inp g))
  obtain ⟨a1, a2, a3, a4, a5, hf⟩ := finishStep_eq inp (preFinish M inp g)
  have hframe : frame M inp g = pollEvents M inp.events
      (followStep M (ghostStep M (launchStep M inp (finishStep inp (preFinish M inp g))))) := rfl
  have hz : (preFinish M inp g).zPressed = inp.keys.keyZ ∧
      (preFinish M inp g).cameraMode
        = (if zFires inp g then toggleMode g.cameraMode else g.cameraMode) := by
    unfold preFinish moveStep zStep zFires toggleMode
    dsimp only
    cases inp.keys.keyZ <;> cases hzp : (driveStep inp.keys (clockStep inp g)).zPressed <;>
      simp [hzp] <;> rfl
  rw [hframe, hp]
  unfold followStep
  rw [hg, hl, hf]
  exact ⟨hz.1, hz.2, rfl⟩

theorem toggleCount_cons (M : MathFns K) (inp : FrameInput K) (inps : List (FrameInput K))
    (g : Game K) :
    toggleCount M (inp :: inps) g
      = (if zFires inp g then 1 else 0) + toggleCount M inps (frame M inp g) := rfl

theorem toggleCount_eq_risingEdges (M : MathFns K) (inps : List (FrameInput K)) :
    ∀ g : Game K, toggleCount M inps g
      = risingEdges g.zPressed (inps.map (fun inp => inp.keys.keyZ)) := by
  induction inps with
  | nil => exact fun g => rfl
  | cons inp inps ih =>
    intro g
    obtain ⟨hz, -, hfire⟩ := frame_zStep M inp g
    rw [toggleCount_cons, ih, hz, hfire]
    rfl

theorem run_cameraMode (M : MathFns K) (inps : List (FrameInput K)) :
    ∀ g : Game K, (run M inps g).cameraMode = toggleMode^[toggleCount M inps g] g.cameraMode := by
  induction inps with
  | nil => exact fun g => rfl
  | cons inp inps ih =>
    intro g
    obtain ⟨-, hmode, -⟩ := frame_zStep M inp g
    have hrun : run M (inp :: inps) g = run M inps (frame M inp g) := rfl
    rw [hrun, ih, hmode, toggleCount_cons]
    cases zFires inp g
    · simp
    · simp only [if_true]
      rw [Nat.add_comm, Function.iterate_succ_apply]

theorem risingEdges_held (n : Nat) : risingEdges true (List.replicate n true) = 0 := by
  induction n with
  | zero => rfl
  | succ n ih =>
    rw [List.replicate_succ]
    unfold risingEdges
    rw [ih]
    rfl

/-- C16: for every sequence of frames, the number of camera-mode toggles performed is the
number of frames in which the toggle control is pressed and was released in the previous
frame (released before the first frame of the program); the mode after the run is the
initial mode toggled that many times, so a control held for `n + 1` consecutive frames
toggles the mode exactly once and two toggles give back the original mode. -/
theorem C16_toggle_once_per_press (M : MathFns K) (inps : List (FrameInput K)) (g : Game K)
    (n : Nat) :
    toggleCount M inps (Game.init M) = risingEdges false (inps.map (fun inp => inp.keys.keyZ)) ∧
      toggleCount M inps g = risingEdges g.zPressed (inps.map (fun inp => inp.keys.keyZ)) ∧
      (run M inps g).cameraMode = toggleMode^[toggleCount M inps g] g.cameraMode ∧
      (g.zPressed = false →
        inps.map (fun inp => inp.keys.keyZ) = List.replicate (n + 1) true →
        toggleCount M inps g = 1 ∧ (run M inps g).cameraMode = toggleMode g.cameraMode) ∧
      (toggleCount M inps g = 2 → (run M inps g).cameraMode = g.cameraMode) := by
  have hcount := toggleCount_eq_risingEdges M inps g
  have hmode := run_cameraMode M inps g
  refine ⟨toggleCount_eq_risingEdges M inps (Game.init M), hcount, hmode, ?_, ?_⟩
  · intro hz hheld
    have h1 : toggleCount M inps g = 1 := by
      rw [hcount, hz, hheld, List.replicate_succ]
      unfold risingEdges
      rw [risingEdges_held]
      rfl
    rw [hmode, h1]
    exact ⟨rfl, rfl⟩
  · intro h2
    rw [hmode, h2]
    exact toggleMode_toggleMode g.cameraMode

theorem C16_toggle_once_per_press_witness :
    (toggleCount ⟨Real.sin, Real.cos, Real.sqrt, fun d => d * (Real.pi / 180)⟩
        [⟨⟨false, false, false, false, true, false, false⟩, 1, 1, 1, []⟩,
          ⟨⟨false, false, false, false, true, false, false⟩, 2, 2, 2, []⟩,
          ⟨⟨false, false, false, false, true, false, false⟩, 3, 3, 3, []⟩]
        (Game.init ⟨Real.sin, Real.cos, Real.sqrt, fun d => d * (Real.pi / 180)⟩ : Game ℝ) = 1 ∧
      (run ⟨Real.sin, Real.cos, Real.sqrt, fun d => d * (Real.pi / 180)⟩
        [⟨⟨false, false, false, false, true, false, false⟩, 1, 1, 1, []⟩,
          ⟨⟨false, false, false, false, true, false, false⟩, 2, 2, 2, []⟩,
          ⟨⟨false, false, false, false, true, false, false⟩, 3, 3, 3, []⟩]
        (Game.init ⟨Real.sin, Real.cos, Real.sqrt, fun d => d * (Real.pi / 180)⟩
          : Game ℝ)).cameraMode = CameraMode.FIRST_PERSON) ∧
    (toggleCount ⟨Real.sin, Real.cos, Real.sqrt, fun d => d * (Real.pi / 180)⟩
        [⟨⟨false, false, false, false, true, false, false⟩, 1, 1, 1, []⟩,
          ⟨⟨false, false, false, false, false, false, false⟩, 2, 2, 2, []⟩,
          ⟨⟨false, false, false, false, true, false, false⟩, 3, 3, 3, []⟩]
        (Game.init ⟨Real.sin, Real.cos, Real.sqrt, fun d => d * (Real.pi / 180)⟩ : Game ℝ) = 2 ∧
      (run ⟨Real.sin, Real.cos, Real.sqrt, fun d => d * (Real.pi / 180)⟩
        [⟨⟨false, false, false, false, true, false, false⟩, 1, 1, 1, []⟩,
          ⟨⟨false, false, false, false, false, false, false⟩, 2, 2, 2, []⟩,
          ⟨⟨false, false, false, false, true, false, false⟩, 3, 3, 3, []⟩]
        (Game.init ⟨Real.sin, Real.cos, Real.sqrt, fun d => d * (Real.pi / 180)⟩
          : Game ℝ)).cameraMode = CameraMode.THIRD_PERSON) :=
  have held := C16_toggle_once_per_press
    ⟨Real.sin, Real.cos, Real.sqrt, fun d => d * (Real.pi / 180)⟩
    [⟨⟨false, false, false, false, true, false, false⟩, 1, 1, 1, []⟩,
      ⟨⟨false, false, false, false, true, false, false⟩, 2, 2, 2, []⟩,
      ⟨⟨false, false, false, false, true, false, false⟩, 3, 3, 3, []⟩]
    (Game.init ⟨Real.sin, Real.cos, Real.sqrt, fun d => d * (Real.pi / 180)⟩ : Game ℝ) 2
  have twice := C16_toggle_once_per_press
    ⟨Real.sin, Real.cos, Real.sqrt, fun d => d * (Real.pi / 180)⟩
    [⟨⟨false, false, false, false, true, false, false⟩, 1, 1, 1, []⟩,
      ⟨⟨false, false, false, false, false, false, false⟩, 2, 2, 2, []⟩,
      ⟨⟨false, false, false, false, true, false, false⟩, 3, 3, 3, []⟩]
    (Game.init ⟨Real.sin, Real.cos, Real.sqrt, fun d => d * (Real.pi / 180)⟩ : Game ℝ) 0
  have h2 : toggleCount ⟨Real.sin, Real.cos, Real.sqrt, fun d => d * (Real.pi / 180)⟩
      [⟨⟨false, false, false, false, true, false, false⟩, 1, 1, 1, []⟩,
        ⟨⟨false, false, false, false, false, false, false⟩, 2, 2, 2, []⟩,
        ⟨⟨false, false, false, false, true, false, false⟩, 3, 3, 3, []⟩]
      (Game.init ⟨Real.sin, Real.cos, Real.sqrt, fun d => d * (Real.pi / 180)⟩ : Game ℝ) = 2 :=
    twice.1.trans rfl
  ⟨held.2.2.2.1 rfl rfl, h2, twice.2.2.2.2 h2⟩

/-! ### The follow update -/

/-- The position and basis written by the `THIRD_PERSON` branch of `FollowKart`, in any
field `K`. -/
theorem FollowKart_third (M : MathFns K) (c : Camera K) (p : Vec3 K) (h : K) :
    (c.FollowKart M p h CameraMode.THIRD_PERSON).Position =
        ⟨p.x + 7.0 * M.sin (M.radians (h + c.Yaw + 180.0)), p.y + 2.0,
          p.z + 7.0 * M.cos (M.radians (h + c.Yaw + 180.0))⟩ ∧
      (c.FollowKart M p h CameraMode.THIRD_PERSON).Front =
        Vec3.normalize M
          ((⟨p.x + M.sin (M.radians (h + c.Yaw)) * 3.0, p.y + 0.5,
              p.z + M.cos (M.radians (h + c.Yaw)) * 3.0⟩ : Vec3 K).sub
            (c.FollowKart M p h CameraMode.THIRD_PERSON).Position) ∧
      (c.FollowKart M p h CameraMode.THIRD_PERSON).Right =
        Vec3.normalize M
          ((c.FollowKart M p h CameraMode.THIRD_PERSON).Front.cross c.WorldUp) ∧
      (c.FollowKart M p h CameraMode.THIRD_PERSON).Up =
        Vec3.normalize M
          ((c.FollowKart M p h CameraMode.THIRD_PERSON).Right.cross
            (c.FollowKart M p h CameraMode.THIRD_PERSON).Front) ∧
      (c.FollowKart M p h CameraMode.THIRD_PERSON).WorldUp = c.WorldUp :=
  ⟨rfl, rfl, rfl, rfl, rfl⟩

/-- What the `FIRST_PERSON` branch of `FollowKart` writes, in any field `K`: the mode, the
position and `Front`; `Right` and `Up` keep their previous values. -/
theorem FollowKart_first (M : MathFns K) (c : Camera K) (p : Vec3 K) (h : K) :
    c.FollowKart M p h CameraMode.FIRST_PERSON =
      { c with
        currentMode := CameraMode.FIRST_PERSON
        Position := ⟨p.x + M.sin (M.radians h) * 1.5, p.y + 0.5,
          p.z + M.cos (M.radians h) * 1.5⟩
        Front := ⟨M.sin (M.radians h), 0.0, M.cos (M.radians h)⟩ } :=
  rfl

/-- C17: after a follow update in `THIRD_PERSON` with body position `p`, body heading `h` and
camera yaw `y`, the camera position is
`p + (7 sin(rad(h + y + 180)), 2, 7 cos(rad(h + y + 180)))` for every previous position and
pitch of the camera; it is 2 above the body, at horizontal distance 7 from it, and for
`y = 0` it is `p + (-7 sin(rad h), 2, -7 cos(rad h))`, opposite to the heading. -/
theorem C17_third_person_position (M : MathFns ℝ) (hM : M.Exact) (c : Camera ℝ) (p : Vec3 ℝ)
    (h : ℝ) :
    (c.FollowKart M p h CameraMode.THIRD_PERSON).Position =
        ⟨p.x + 7 * Real.sin ((h + c.Yaw + 180) * (Real.pi / 180)), p.y + 2,
          p.z + 7 * Real.cos ((h + c.Yaw + 180) * (Real.pi / 180))⟩ ∧
      (c.FollowKart M p h CameraMode.THIRD_PERSON).Position.y - p.y = 2 ∧
      Real.sqrt (((c.FollowKart M p h CameraMode.THIRD_PERSON).Position.x - p.x) ^ 2
          + ((c.FollowKart M p h CameraMode.THIRD_PERSON).Position.z - p.z) ^ 2) = 7 ∧
      (c.Yaw = 0 →
        (c.FollowKart M p h CameraMode.THIRD_PERSON).Position =
          ⟨p.x - 7 * Real.sin (h * (Real.pi / 180)), p.y + 2,
            p.z - 7 * Real.cos (h * (Real.pi / 180))⟩) := by
  have hpos : (c.FollowKart M p h CameraMode.THIRD_PERSON).Position =
      ⟨p.x + 7 * Real.sin ((h + c.Yaw + 180) * (Real.pi / 180)), p.y + 2,
        p.z + 7 * Real.cos ((h + c.Yaw + 180) * (Real.pi / 180))⟩ := by
    rw [(FollowKart_third M c p h).1, hM.sin_eq, hM.cos_eq, hM.radians_eq]
    norm_num
  have hpyth := Real.sin_sq_add_cos_sq ((h + c.Yaw + 180) * (Real.pi / 180))
  rw [hpos]
  refine ⟨rfl, by simp, ?_, ?_⟩
  · dsimp only
    rw [show (p.x + 7 * Real.sin ((h + c.Yaw + 180) * (Real.pi / 180)) - p.x) ^ 2
          + (p.z + 7 * Real.cos ((h + c.Yaw + 180) * (Real.pi / 180)) - p.z) ^ 2
        = 7 ^ 2 by linear_combination 49 * hpyth]
    exact Real.sqrt_sq (by norm_num)
  · intro hy
    have hang : (h + c.Yaw + 180) * (Real.pi / 180) = h * (Real.pi / 180) + Real.pi := by
      rw [hy]
      ring
    rw [hang, Real.sin_add_pi, Real.cos_add_pi, Vec3.mk.injEq]
    refine ⟨by ring, rfl, by ring⟩

theorem C17_third_person_position_witness :
    MathFns.Exact ⟨Real.sin, Real.cos, Real.sqrt, fun d => d * (Real.pi / 180)⟩ ∧
      ({ Camera.new ⟨Real.sin, Real.cos, Real.sqrt, fun d => d * (Real.pi / 180)⟩
          ⟨0, 1, 3⟩ ⟨0, 1, 0⟩ (-90) 0 with Yaw := 0 } : Camera ℝ).Yaw = 0 ∧
      (Camera.FollowKart ⟨Real.sin, Real.cos, Real.sqrt, fun d => d * (Real.pi / 180)⟩
        ({ Camera.new ⟨Real.sin, Real.cos, Real.sqrt, fun d => d * (Real.pi / 180)⟩
          ⟨0, 1, 3⟩ ⟨0, 1, 0⟩ (-90) 0 with Yaw := 0 } : Camera ℝ)
        ⟨0, 0.05, -48⟩ 0 CameraMode.THIRD_PERSON).Position = ⟨0, 2.05, -55⟩ :=
  have hM : MathFns.Exact ⟨Real.sin, Real.cos, Real.sqrt, fun d => d * (Real.pi / 180)⟩ :=
    ⟨fun _ => rfl, fun _ => rfl, fun _ => rfl, fun _ => rfl⟩
  ⟨hM, rfl, by
    rw [(C17_third_person_position _ hM _ _ _).2.2.2 rfl]
    norm_num⟩

/-- C19: after a follow update in `FIRST_PERSON` with body position `p` and heading `h`, the
camera position is `p + (1.5 sin(rad h), 0.5, 1.5 cos(rad h))` and the forward vector is
`(sin(rad h), 0, cos(rad h))`, a unit vector with zero vertical component; both are the same
for every yaw, pitch and previous position of the camera. -/
theorem C19_first_person (M : MathFns ℝ) (hM : M.Exact) (c : Camera ℝ) (p : Vec3 ℝ) (h : ℝ) :
    (c.FollowKart M p h CameraMode.FIRST_PERSON).Position =
        ⟨p.x + 1.5 * Real.sin (h * (Real.pi / 180)), p.y + 0.5,
          p.z + 1.5 * Real.cos (h * (Real.pi / 180))⟩ ∧
      (c.FollowKart M p h CameraMode.FIRST_PERSON).Front =
        ⟨Real.sin (h * (Real.pi / 180)), 0, Real.cos (h * (Real.pi / 180))⟩ ∧
      Real.sqrt ((c.FollowKart M p h CameraMode.FIRST_PERSON).Front.dot
        (c.FollowKart M p h CameraMode.FIRST_PERSON).Front) = 1 ∧
      (c.FollowKart M p h CameraMode.FIRST_PERSON).Front.y = 0 ∧
      ∀ c2 : Camera ℝ,
        (c2.FollowKart M p h CameraMode.FIRST_PERSON).Position
            = (c.FollowKart M p h CameraMode.FIRST_PERSON).Position ∧
          (c2.FollowKart M p h CameraMode.FIRST_PERSON).Front
            = (c.FollowKart M p h CameraMode.FIRST_PERSON).Front := by
  have hpyth := Real.sin_sq_add_cos_sq (h * (Real.pi / 180))
  have hfront : (c.FollowKart M p h CameraMode.FIRST_PERSON).Front =
      ⟨Real.sin (h * (Real.pi / 180)), 0, Real.cos (h * (Real.pi / 180))⟩ := by
    rw [FollowKart_first, hM.sin_eq, hM.cos_eq, hM.radians_eq]
    norm_num
  refine ⟨?_, hfront, ?_, ?_, fun c2 => ⟨rfl, rfl⟩⟩
  · rw [FollowKart_first, hM.sin_eq, hM.cos_eq, hM.radians_eq, Vec3.mk.injEq]
    exact ⟨by ring, rfl, by ring⟩
  · rw [hfront]
    unfold Vec3.dot
    dsimp only
    rw [show Real.sin (h * (Real.pi / 180)) * Real.sin (h * (Real.pi / 180)) + 0 * 0
          + Real.cos (h * (Real.pi / 180)) * Real.cos (h * (Real.pi / 180)) = 1 by
        linear_combination hpyth]
    exact Real.sqrt_one
  · rw [hfront]

theorem C19_first_person_witness :
    MathFns.Exact ⟨Real.sin, Real.cos, Real.sqrt, fun d => d * (Real.pi / 180)⟩ ∧
      (Camera.FollowKart ⟨Real.sin, Real.cos, Real.sqrt, fun d => d * (Real.pi / 180)⟩
        (Camera.new ⟨Real.sin, Real.cos, Real.sqrt, fun d => d * (Real.pi / 180)⟩
          ⟨0, 1, 3⟩ ⟨0, 1, 0⟩ (-90) 0)
        ⟨0, 0.05, -48⟩ 0 CameraMode.FIRST_PERSON).Position = ⟨0, 0.55, -46.5⟩ ∧
      (Camera.FollowKart ⟨Real.sin, Real.cos, Real.sqrt, fun d => d * (Real.pi / 180)⟩
        (Camera.new ⟨Real.sin, Real.cos, Real.sqrt, fun d => d * (Real.pi / 180)⟩
          ⟨0, 1, 3⟩ ⟨0, 1, 0⟩ (-90) 0)
        ⟨0, 0.05, -48⟩ 0 CameraMode.FIRST_PERSON).Front = ⟨0, 0, 1⟩ :=
  have hM : MathFns.Exact ⟨Real.sin, Real.cos, Real.sqrt, fun d => d * (Real.pi / 180)⟩ :=
    ⟨fun _ => rfl, fun _ => rfl, fun _ => rfl, fun _ => rfl⟩
  ⟨hM, by rw [(C19_first_person _ hM _ _ _).1]; norm_num,
    by rw [(C19_first_person _ hM _ _ _).2.1]; norm_num⟩

theorem deg90 : (90 : ℝ) * (Real.pi / 180) = Real.pi / 2 := by ring

/-- The position and look-at direction of the default camera after a `THIRD_PERSON` follow
update of a body at `p` with heading 0: the camera is at the side of the body and looks
across it. -/
theorem FollowKart_default_yaw (M : MathFns ℝ) (hM : M.Exact) (position p : Vec3 ℝ) :
    ((Camera.new M position ⟨0, 1, 0⟩ (-90) 0).FollowKart M p 0
        CameraMode.THIRD_PERSON).Position = ⟨p.x + 7, p.y + 2, p.z⟩ ∧
      ((Camera.new M position ⟨0, 1, 0⟩ (-90) 0).FollowKart M p 0
        CameraMode.THIRD_PERSON).Front.z = 0 := by
  have hyaw : (Camera.new M position ⟨0, 1, 0⟩ (-90) 0).Yaw = -90 := rfl
  have h1 : ((0 : ℝ) + -90 + 180.0) * (Real.pi / 180) = Real.pi / 2 := by
    rw [← deg90]
    norm_num
  have h2 : ((0 : ℝ) + -90) * (Real.pi / 180) = -(Real.pi / 2) := by
    rw [← deg90]
    ring
  obtain ⟨hpos, hfront, -⟩ := FollowKart_third M (Camera.new M position ⟨0, 1, 0⟩ (-90) 0) p 0
  have hpos2 : ((Camera.new M position ⟨0, 1, 0⟩ (-90) 0).FollowKart M p 0
      CameraMode.THIRD_PERSON).Position = ⟨p.x + 7, p.y + 2, p.z⟩ := by
    rw [hpos, hyaw, hM.sin_eq, hM.cos_eq, hM.radians_eq, h1, Real.sin_pi_div_two,
      Real.cos_pi_div_two]
    norm_num
  refine ⟨hpos2, ?_⟩
  rw [hfront, hpos2, hyaw, hM.cos_eq, hM.radians_eq, h2, Real.cos_neg, Real.cos_pi_div_two]
  unfold Vec3.normalize Vec3.smul Vec3.sub
  dsimp only
  rw [zero_mul, add_zero, sub_self, zero_mul]

/-- C18 (as stated) fails: for the camera of the program at its default yaw of -90 and a body
at the start position with heading 0, the forward vector after a `THIRD_PERSON` follow update
has `z = 0`, while the normalised direction from the camera to the point 3 ahead of the body
along its heading and 0.5 above it has `z ≠ 0`. -/
theorem C18_counterexample :
    ((Camera.new ⟨Real.sin, Real.cos, Real.sqrt, fun d => d * (Real.pi / 180)⟩
          ⟨0, 1, 3⟩ ⟨0, 1, 0⟩ (-90) 0).FollowKart
        ⟨Real.sin, Real.cos, Real.sqrt, fun d => d * (Real.pi / 180)⟩
        ⟨0, 0.05, -48⟩ 0 CameraMode.THIRD_PERSON).Front ≠
      Vec3.normalize ⟨Real.sin, Real.cos, Real.sqrt, fun d => d * (Real.pi / 180)⟩
        ((⟨0 + 3 * Real.sin (0 * (Real.pi / 180)), 0.05 + 0.5,
            -48 + 3 * Real.cos (0 * (Real.pi / 180))⟩ : Vec3 ℝ).sub
          ((Camera.new ⟨Real.sin, Real.cos, Real.sqrt, fun d => d * (Real.pi / 180)⟩
              ⟨0, 1, 3⟩ ⟨0, 1, 0⟩ (-90) 0).FollowKart
            ⟨Real.sin, Real.cos, Real.sqrt, fun d => d * (Real.pi / 180)⟩
            ⟨0, 0.05, -48⟩ 0 CameraMode.THIRD_PERSON).Position) := by
  have hM : MathFns.Exact ⟨Real.sin, Real.cos, Real.sqrt, fun d => d * (Real.pi / 180)⟩ :=
    ⟨fun _ => rfl, fun _ => rfl, fun _ => rfl, fun _ => rfl⟩
  obtain ⟨hpos, hz⟩ := FollowKart_default_yaw _ hM ⟨0, 1, 3⟩ ⟨0, 0.05, -48⟩
  intro heq
  have hz2 := congrArg Vec3.z heq
  rw [hz, hpos] at hz2
  unfold Vec3.normalize Vec3.smul Vec3.sub Vec3.dot at hz2
  dsimp only at hz2
  rw [zero_mul, Real.sin_zero, Real.cos_zero] at hz2
  have hpos : (0 : ℝ) < Real.sqrt
      ((0 + 3 * 0 - (0 + 7)) * (0 + 3 * 0 - (0 + 7))
        + (0.05 + 0.5 - (0.05 + 2)) * (0.05 + 0.5 - (0.05 + 2))
        + (-48 + 3 * 1 - -48) * (-48 + 3 * 1 - -48)) :=
    Real.sqrt_pos.mpr (by norm_num)
  have hne : (-48 + 3 * 1 - -48 : ℝ) * (1 / Real.sqrt
      ((0 + 3 * 0 - (0 + 7)) * (0 + 3 * 0 - (0 + 7))
        + (0.05 + 0.5 - (0.05 + 2)) * (0.05 + 0.5 - (0.05 + 2))
        + (-48 + 3 * 1 - -48) * (-48 + 3 * 1 - -48))) ≠ 0 :=
    mul_ne_zero (by norm_num) (one_div_ne_zero (ne_of_gt hpos))
  exact hne hz2.symm

/-- C18 (amended): after a follow update in `THIRD_PERSON`, for every body position `p`, body
heading `h` and camera yaw `y`, the forward vector is `normalize(target - cameraPosition)`
with `target = p + (3 sin(rad(h + y)), 0.5, 3 cos(rad(h + y)))`: the point 3 units from the
body in the direction `h + y` and 0.5 above it, which is the point 3 ahead of the body along
its heading when `y = 0`. -/
theorem C18_third_person_forward (M : MathFns ℝ) (hM : M.Exact) (c : Camera ℝ) (p : Vec3 ℝ)
    (h : ℝ) :
    (c.FollowKart M p h CameraMode.THIRD_PERSON).Front =
        Vec3.normalize M
          ((⟨p.x + 3 * Real.sin ((h + c.Yaw) * (Real.pi / 180)), p.y + 0.5,
              p.z + 3 * Real.cos ((h + c.Yaw) * (Real.pi / 180))⟩ : Vec3 ℝ).sub
            (c.FollowKart M p h CameraMode.THIRD_PERSON).Position) ∧
      (c.Yaw = 0 →
        (c.FollowKart M p h CameraMode.THIRD_PERSON).Front =
          Vec3.normalize M
            ((⟨p.x + 3 * Real.sin (h * (Real.pi / 180)), p.y + 0.5,
                p.z + 3 * Real.cos (h * (Real.pi / 180))⟩ : Vec3 ℝ).sub
              (c.FollowKart M p h CameraMode.THIRD_PERSON).Position)) := by
  have hfront : (c.FollowKart M p h CameraMode.THIRD_PERSON).Front =
      Vec3.normalize M
        ((⟨p.x + 3 * Real.sin ((h + c.Yaw) * (Real.pi / 180)), p.y + 0.5,
            p.z + 3 * Real.cos ((h + c.Yaw) * (Real.pi / 180))⟩ : Vec3 ℝ).sub
          (c.FollowKart M p h CameraMode.THIRD_PERSON).Position) := by
    rw [(FollowKart_third M c p h).2.1, hM.sin_eq, hM.cos_eq, hM.radians_eq]
    norm_num [mul_comm]
  refine ⟨hfront, fun hy => ?_⟩
  rw [hfront, hy, add_zero]

theorem C18_third_person_forward_witness :
    MathFns.Exact ⟨Real.sin, Real.cos, Real.sqrt, fun d => d * (Real.pi / 180)⟩ ∧
      ({ Camera.new ⟨Real.sin, Real.cos, Real.sqrt, fun d => d * (Real.pi / 180)⟩
          ⟨0, 1, 3⟩ ⟨0, 1, 0⟩ (-90) 0 with Yaw := 0 } : Camera ℝ).Yaw = 0 ∧
      (Camera.FollowKart ⟨Real.sin, Real.cos, Real.sqrt, fun d => d * (Real.pi / 180)⟩
        ({ Camera.new ⟨Real.sin, Real.cos, Real.sqrt, fun d => d * (Real.pi / 180)⟩
          ⟨0, 1, 3⟩ ⟨0, 1, 0⟩ (-90) 0 with Yaw := 0 } : Camera ℝ)
        ⟨0, 0.05, -48⟩ 0 CameraMode.THIRD_PERSON).Front =
        Vec3.normalize ⟨Real.sin, Real.cos, Real.sqrt, fun d => d * (Real.pi / 180)⟩
          ((⟨0 + 3 * Real.sin (0 * (Real.pi / 180)), 0.05 + 0.5,
              -48 + 3 * Real.cos (0 * (Real.pi / 180))⟩ : Vec3 ℝ).sub
            (Camera.FollowKart ⟨Real.sin, Real.cos, Real.sqrt, fun d => d * (Real.pi / 180)⟩
              ({ Camera.new ⟨Real.sin, Real.cos, Real.sqrt, fun d => d * (Real.pi / 180)⟩
                ⟨0, 1, 3⟩ ⟨0, 1, 0⟩ (-90) 0 with Yaw := 0 } : Camera ℝ)
              ⟨0, 0.05, -48⟩ 0 CameraMode.THIRD_PERSON).Position) :=
  have hM : MathFns.Exact ⟨Real.sin, Real.cos, Real.sqrt, fun d => d * (Real.pi / 180)⟩ :=
    ⟨fun _ => rfl, fun _ => rfl, fun _ => rfl, fun _ => rfl⟩
  ⟨hM, rfl, (C18_third_person_forward _ hM _ ⟨0, 0.05, -48⟩ 0).2 rfl⟩

/-! ### The camera basis -/

/-- The basis of the camera the program constructs (world up `(0, 1, 0)`, yaw -90, pitch 0):
`Front = (0, 0, -1)`, `Right = (1, 0, 0)`, `Up = (0, 1, 0)`. -/
theorem Camera_new_default_basis (M : MathFns ℝ) (hM : M.Exact) (position : Vec3 ℝ) :
    (Camera.new M position ⟨0, 1, 0⟩ (-90) 0).Front = ⟨0, 0, -1⟩ ∧
      (Camera.new M position ⟨0, 1, 0⟩ (-90) 0).Right = ⟨1, 0, 0⟩ ∧
      (Camera.new M position ⟨0, 1, 0⟩ (-90) 0).Up = ⟨0, 1, 0⟩ := by
  have h90 : (-90 : ℝ) * (Real.pi / 180) = -(Real.pi / 2) := by
    rw [← deg90]
    ring
  have hfront : (Camera.new M position ⟨0, 1, 0⟩ (-90) 0).Front = ⟨0, 0, -1⟩ := by
    unfold Camera.new Camera.updateCameraVectors
    dsimp only
    rw [hM.sin_eq, hM.cos_eq, hM.cos_eq, hM.sin_eq, hM.radians_eq, hM.radians_eq, h90,
      zero_mul, Real.cos_neg, Real.sin_neg, Real.cos_pi_div_two, Real.sin_pi_div_two,
      Real.cos_zero, Real.sin_zero]
    unfold Vec3.normalize Vec3.smul Vec3.dot
    dsimp only
    rw [hM.sqrt_eq]
    norm_num
  have hright : (Camera.new M position ⟨0, 1, 0⟩ (-90) 0).Right = ⟨1, 0, 0⟩ := by
    have hr : (Camera.new M position ⟨0, 1, 0⟩ (-90) 0).Right
        = Vec3.normalize M ((Camera.new M position ⟨0, 1, 0⟩ (-90) 0).Front.cross ⟨0, 1, 0⟩) :=
      rfl
    rw [hr, hfront]
    unfold Vec3.normalize Vec3.smul Vec3.dot Vec3.cross
    dsimp only
    rw [hM.sqrt_eq]
    norm_num
  have hup : (Camera.new M position ⟨0, 1, 0⟩ (-90) 0).Up = ⟨0, 1, 0⟩ := by
    have hu : (Camera.new M position ⟨0, 1, 0⟩ (-90) 0).Up
        = Vec3.normalize M ((Camera.new M position ⟨0, 1, 0⟩ (-90) 0).Right.cross
            (Camera.new M position ⟨0, 1, 0⟩ (-90) 0).Front) := rfl
    rw [hu, hright, hfront]
    unfold Vec3.normalize Vec3.smul Vec3.dot Vec3.cross
    dsimp only
    rw [hM.sqrt_eq]
    norm_num
  exact ⟨hfront, hright, hup⟩

/-- C20 fails on the code: the `FIRST_PERSON` branch of `FollowKart` writes `Front` and leaves
`Right` and `Up` as they were, for every camera; for the camera the program constructs, a
`FIRST_PERSON` follow update of a body with heading 90 gives `Front = (1, 0, 0)` with
`Right = (1, 0, 0)` still, so `Front` and `Right` are equal and the basis is not orthonormal.
(After the constructor, a look update and a `THIRD_PERSON` follow update it is: see
`Camera_new_orthonormal`, `ProcessMouseMovement_orthonormal` and
`FollowKart_third_orthonormal`.) -/
theorem C20_first_person_stale_basis :
    (∀ (K : Type) [LinearOrderedField K] (M : MathFns K) (c : Camera K) (p : Vec3 K) (h : K),
        (c.FollowKart M p h CameraMode.FIRST_PERSON).Right = c.Right ∧
          (c.FollowKart M p h CameraMode.FIRST_PERSON).Up = c.Up) ∧
      ((Camera.new ⟨Real.sin, Real.cos, Real.sqrt, fun d => d * (Real.pi / 180)⟩
            ⟨0, 1, 3⟩ ⟨0, 1, 0⟩ (-90) 0).FollowKart
          ⟨Real.sin, Real.cos, Real.sqrt, fun d => d * (Real.pi / 180)⟩
          ⟨0, 0.05, -48⟩ 90 CameraMode.FIRST_PERSON).Front = ⟨1, 0, 0⟩ ∧
      ((Camera.new ⟨Real.sin, Real.cos, Real.sqrt, fun d => d * (Real.pi / 180)⟩
            ⟨0, 1, 3⟩ ⟨0, 1, 0⟩ (-90) 0).FollowKart
          ⟨Real.sin, Real.cos, Real.sqrt, fun d => d * (Real.pi / 180)⟩
          ⟨0, 0.05, -48⟩ 90 CameraMode.FIRST_PERSON).Right = ⟨1, 0, 0⟩ ∧
      Vec3.dot
        ((Camera.new ⟨Real.sin, Real.cos, Real.sqrt, fun d => d * (Real.pi / 180)⟩
            ⟨0, 1, 3⟩ ⟨0, 1, 0⟩ (-90) 0).FollowKart
          ⟨Real.sin, Real.cos, Real.sqrt, fun d => d * (Real.pi / 180)⟩
          ⟨0, 0.05, -48⟩ 90 CameraMode.FIRST_PERSON).Front
        ((Camera.new ⟨Real.sin, Real.cos, Real.sqrt, fun d => d * (Real.pi / 180)⟩
            ⟨0, 1, 3⟩ ⟨0, 1, 0⟩ (-90) 0).FollowKart
          ⟨Real.sin, Real.cos, Real.sqrt, fun d => d * (Real.pi / 180)⟩
          ⟨0, 0.05, -48⟩ 90 CameraMode.FIRST_PERSON).Right = 1 ∧
      ¬ Camera.Orthonormal ⟨Real.sin, Real.cos, Real.sqrt, fun d => d * (Real.pi / 180)⟩
        ((Camera.new ⟨Real.sin, Real.cos, Real.sqrt, fun d => d * (Real.pi / 180)⟩
            ⟨0, 1, 3⟩ ⟨0, 1, 0⟩ (-90) 0).FollowKart
          ⟨Real.sin, Real.cos, Real.sqrt, fun d => d * (Real.pi / 180)⟩
          ⟨0, 0.05, -48⟩ 90 CameraMode.FIRST_PERSON) := by
  have hM : MathFns.Exact ⟨Real.sin, Real.cos, Real.sqrt, fun d => d * (Real.pi / 180)⟩ :=
    ⟨fun _ => rfl, fun _ => rfl, fun _ => rfl, fun _ => rfl⟩
  obtain ⟨-, hright, -⟩ := Camera_new_default_basis _ hM ⟨0, 1, 3⟩
  have hfront : ((Camera.new ⟨Real.sin, Real.cos, Real.sqrt, fun d => d * (Real.pi / 180)⟩
        ⟨0, 1, 3⟩ ⟨0, 1, 0⟩ (-90) 0).FollowKart
      ⟨Real.sin, Real.cos, Real.sqrt, fun d => d * (Real.pi / 180)⟩
      ⟨0, 0.05, -48⟩ 90 CameraMode.FIRST_PERSON).Front = ⟨1, 0, 0⟩ := by
    rw [FollowKart_first]
    show (⟨Real.sin (90 * (Real.pi / 180)), 0.0, Real.cos (90 * (Real.pi / 180))⟩ : Vec3 ℝ)
      = ⟨1, 0, 0⟩
    rw [deg90, Real.sin_pi_div_two, Real.cos_pi_div_two]
    norm_num
  have hstale : ((Camera.new ⟨Real.sin, Real.cos, Real.sqrt, fun d => d * (Real.pi / 180)⟩
        ⟨0, 1, 3⟩ ⟨0, 1, 0⟩ (-90) 0).FollowKart
      ⟨Real.sin, Real.cos, Real.sqrt, fun d => d * (Real.pi / 180)⟩
      ⟨0, 0.05, -48⟩ 90 CameraMode.FIRST_PERSON).Right = ⟨1, 0, 0⟩ := by
    rw [← hright]
    rfl
  refine ⟨fun K _ M c p h => ⟨rfl, rfl⟩, hfront, hstale, ?_, ?_⟩
  · rw [hfront, hstale]
    norm_num [Vec3.dot]
  · intro hortho
    have horth := hortho.2.2.2.1
    rw [hfront, hstale] at horth
    norm_num [Vec3.dot] at horth

/-- The basis that `updateCameraVectors` and the `THIRD_PERSON` branch of `FollowKart` build
from a unit vector `F` that is not vertical, with world up `(0, 1, 0)`. -/
theorem basis_of_front (M : MathFns ℝ) (hM : M.Exact) (F : Vec3 ℝ) (hF : F.dot F = 1)
    (hs : F.x ^ 2 + F.z ^ 2 ≠ 0) :
    (Vec3.normalize M (F.cross ⟨0, 1, 0⟩)).dot (Vec3.normalize M (F.cross ⟨0, 1, 0⟩)) = 1 ∧
      (Vec3.normalize M ((Vec3.normalize M (F.cross ⟨0, 1, 0⟩)).cross F)).dot
        (Vec3.normalize M ((Vec3.normalize M (F.cross ⟨0, 1, 0⟩)).cross F)) = 1 ∧
      F.dot (Vec3.normalize M (F.cross ⟨0, 1, 0⟩)) = 0 ∧
      F.dot (Vec3.normalize M ((Vec3.normalize M (F.cross ⟨0, 1, 0⟩)).cross F)) = 0 ∧
      (Vec3.normalize M (F.cross ⟨0, 1, 0⟩)).dot
        (Vec3.normalize M ((Vec3.normalize M (F.cross ⟨0, 1, 0⟩)).cross F)) = 0 ∧
      Vec3.normalize M ((Vec3.normalize M (F.cross ⟨0, 1, 0⟩)).cross F)
        = (Vec3.normalize M (F.cross ⟨0, 1, 0⟩)).cross F := by
  obtain ⟨x, y, z⟩ := F
  unfold Vec3.dot at hF
  dsimp only at hF hs
  have hspos : 0 < x ^ 2 + z ^ 2 := lt_of_le_of_ne (by positivity) (Ne.symm hs)
  have hr : Real.sqrt (x ^ 2 + z ^ 2) ^ 2 = x ^ 2 + z ^ 2 := Real.sq_sqrt (le_of_lt hspos)
  have hrpos : 0 < Real.sqrt (x ^ 2 + z ^ 2) := Real.sqrt_pos.mpr hspos
  have hR : Vec3.normalize M ((⟨x, y, z⟩ : Vec3 ℝ).cross ⟨0, 1, 0⟩)
      = ⟨-z / Real.sqrt (x ^ 2 + z ^ 2), 0, x / Real.sqrt (x ^ 2 + z ^ 2)⟩ := by
    unfold Vec3.normalize Vec3.smul Vec3.dot Vec3.cross
    dsimp only
    rw [hM.sqrt_eq, Vec3.mk.injEq]
    have harg : (y * 0 - 1 * z) * (y * 0 - 1 * z) + (z * 0 - 0 * x) * (z * 0 - 0 * x)
        + (x * 1 - 0 * y) * (x * 1 - 0 * y) = x ^ 2 + z ^ 2 := by ring
    rw [harg]
    refine ⟨by ring, by ring, by ring⟩
  have hcross : (⟨-z / Real.sqrt (x ^ 2 + z ^ 2), 0, x / Real.sqrt (x ^ 2 + z ^ 2)⟩
        : Vec3 ℝ).cross ⟨x, y, z⟩
      = ⟨-(x * y) / Real.sqrt (x ^ 2 + z ^ 2), Real.sqrt (x ^ 2 + z ^ 2),
          -(y * z) / Real.sqrt (x ^ 2 + z ^ 2)⟩ := by
    unfold Vec3.cross
    dsimp only
    rw [Vec3.mk.injEq]
    refine ⟨by ring, ?_, by ring⟩
    field_simp
    nlinarith [hr]
  have hnorm : (-(x * y) / Real.sqrt (x ^ 2 + z ^ 2)) * (-(x * y) / Real.sqrt (x ^ 2 + z ^ 2))
      + Real.sqrt (x ^ 2 + z ^ 2) * Real.sqrt (x ^ 2 + z ^ 2)
      + (-(y * z) / Real.sqrt (x ^ 2 + z ^ 2)) * (-(y * z) / Real.sqrt (x ^ 2 + z ^ 2)) = 1 := by
    field_simp
    nlinarith [hr, hF]
  have hU : Vec3.normalize M ((⟨-z / Real.sqrt (x ^ 2 + z ^ 2), 0,
        x / Real.sqrt (x ^ 2 + z ^ 2)⟩ : Vec3 ℝ).cross ⟨x, y, z⟩)
      = ⟨-(x * y) / Real.sqrt (x ^ 2 + z ^ 2), Real.sqrt (x ^ 2 + z ^ 2),
          -(y * z) / Real.sqrt (x ^ 2 + z ^ 2)⟩ := by
    rw [hcross]
    unfold Vec3.normalize Vec3.smul Vec3.dot
    dsimp only
    rw [hM.sqrt_eq, hnorm, Real.sqrt_one, Vec3.mk.injEq]
    refine ⟨by ring, by ring, by ring⟩
  rw [hR, hU]
  refine ⟨?_, ?_, ?_, ?_, ?_, hcross.symm⟩
  · unfold Vec3.dot
    dsimp only
    field_simp
    nlinarith [hr]
  · unfold Vec3.dot
    dsimp only
    exact hnorm
  · unfold Vec3.dot
    dsimp only
    ring
  · unfold Vec3.dot
    dsimp only
    field_simp
    linear_combination y * hr
  · unfold Vec3.dot
    dsimp only
    ring

theorem normalize_unit (M : MathFns ℝ) (hM : M.Exact) (d : Vec3 ℝ) (hd : 0 < d.dot d) :
    (Vec3.normalize M d).dot (Vec3.normalize M d) = 1 ∧
      (Vec3.normalize M d).x ^ 2 + (Vec3.normalize M d).z ^ 2
        = (d.x ^ 2 + d.z ^ 2) / d.dot d := by
  have hr : Real.sqrt (d.dot d) ^ 2 = d.dot d := Real.sq_sqrt (le_of_lt hd)
  have hrpos : 0 < Real.sqrt (d.dot d) := Real.sqrt_pos.mpr hd
  have hdd : d.dot d = d.x * d.x + d.y * d.y + d.z * d.z := rfl
  unfold Vec3.normalize Vec3.smul
  rw [hM.sqrt_eq]
  constructor
  · unfold Vec3.dot
    dsimp only
    rw [← hdd]
    field_simp
    exact hdd.symm
  · dsimp only
    field_simp

/-- With world up `(0, 1, 0)` and a pitch whose cosine is not 0, `updateCameraVectors` (run by
the constructor and by a look update) leaves an orthonormal right-handed basis. -/
theorem updateCameraVectors_orthonormal (M : MathFns ℝ) (hM : M.Exact) (c : Camera ℝ)
    (hW : c.WorldUp = ⟨0, 1, 0⟩) (hp : Real.cos (c.Pitch * (Real.pi / 180)) ≠ 0) :
    (c.updateCameraVectors M).Orthonormal M := by
  have hpy := Real.sin_sq_add_cos_sq (c.Yaw * (Real.pi / 180))
  have hpp := Real.sin_sq_add_cos_sq (c.Pitch * (Real.pi / 180))
  have hfront : (c.updateCameraVectors M).Front =
      ⟨Real.cos (c.Yaw * (Real.pi / 180)) * Real.cos (c.Pitch * (Real.pi / 180)),
        Real.sin (c.Pitch * (Real.pi / 180)),
        Real.sin (c.Yaw * (Real.pi / 180)) * Real.cos (c.Pitch * (Real.pi / 180))⟩ := by
    unfold Camera.updateCameraVectors
    dsimp only
    rw [hM.sin_eq, hM.sin_eq, hM.cos_eq, hM.cos_eq, hM.radians_eq, hM.radians_eq]
    unfold Vec3.normalize Vec3.smul Vec3.dot
    dsimp only
    rw [hM.sqrt_eq]
    have hone : Real.cos (c.Yaw * (Real.pi / 180)) * Real.cos (c.Pitch * (Real.pi / 180))
          * (Real.cos (c.Yaw * (Real.pi / 180)) * Real.cos (c.Pitch * (Real.pi / 180)))
        + Real.sin (c.Pitch * (Real.pi / 180)) * Real.sin (c.Pitch * (Real.pi / 180))
        + Real.sin (c.Yaw * (Real.pi / 180)) * Real.cos (c.Pitch * (Real.pi / 180))
          * (Real.sin (c.Yaw * (Real.pi / 180)) * Real.cos (c.Pitch * (Real.pi / 180))) = 1 := by
      linear_combination Real.cos (c.Pitch * (Real.pi / 180)) ^ 2 * hpy + hpp
    rw [hone, Real.sqrt_one, Vec3.mk.injEq]
    refine ⟨by ring, by ring, by ring⟩
  have hright : (c.updateCameraVectors M).Right
      = Vec3.normalize M ((c.updateCameraVectors M).Front.cross ⟨0, 1, 0⟩) := by
    rw [← hW]
    rfl
  have hup : (c.updateCameraVectors M).Up
      = Vec3.normalize M ((c.updateCameraVectors M).Right.cross
          (c.updateCameraVectors M).Front) := rfl
  have hworld : (c.updateCameraVectors M).WorldUp = ⟨0, 1, 0⟩ := hW
  have hunit : (c.updateCameraVectors M).Front.dot (c.updateCameraVectors M).Front = 1 := by
    rw [hfront]
    unfold Vec3.dot
    dsimp only
    linear_combination Real.cos (c.Pitch * (Real.pi / 180)) ^ 2 * hpy + hpp
  have hflat : (c.updateCameraVectors M).Front.x ^ 2 + (c.updateCameraVectors M).Front.z ^ 2
      ≠ 0 := by
    rw [hfront]
    dsimp only
    have : (Real.cos (c.Yaw * (Real.pi / 180)) * Real.cos (c.Pitch * (Real.pi / 180))) ^ 2
        + (Real.sin (c.Yaw * (Real.pi / 180)) * Real.cos (c.Pitch * (Real.pi / 180))) ^ 2
        = Real.cos (c.Pitch * (Real.pi / 180)) ^ 2 := by
      linear_combination Real.cos (c.Pitch * (Real.pi / 180)) ^ 2 * hpy
    rw [this]
    exact pow_ne_zero 2 hp
  obtain ⟨b1, b2, b3, b4, b5, b6⟩ := basis_of_front M hM _ hunit hflat
  unfold Camera.Orthonormal
  rw [hup, hright, hworld]
  exact ⟨hunit, b1, b2, b3, b4, b5, rfl, b6⟩

/-- With world up `(0, 1, 0)`, the `THIRD_PERSON` branch of `FollowKart` leaves an orthonormal
right-handed basis. -/
theorem FollowKart_third_orthonormal (M : MathFns ℝ) (hM : M.Exact) (c : Camera ℝ)
    (p : Vec3 ℝ) (h : ℝ) (hW : c.WorldUp = ⟨0, 1, 0⟩) :
    (c.FollowKart M p h CameraMode.THIRD_PERSON).Orthonormal M := by
  obtain ⟨hpos, hfront, hright, hup, hworld⟩ := FollowKart_third M c p h
  have hpyth := Real.sin_sq_add_cos_sq ((h + c.Yaw) * (Real.pi / 180))
  have hang : (h + c.Yaw + 180.0) * (Real.pi / 180) = (h + c.Yaw) * (Real.pi / 180) + Real.pi := by
    norm_num
    ring
  have hd : ((⟨p.x + M.sin (M.radians (h + c.Yaw)) * 3.0, p.y + 0.5,
        p.z + M.cos (M.radians (h + c.Yaw)) * 3.0⟩ : Vec3 ℝ).sub
      (c.FollowKart M p h CameraMode.THIRD_PERSON).Position)
      = ⟨10 * Real.sin ((h + c.Yaw) * (Real.pi / 180)), -1.5,
          10 * Real.cos ((h + c.Yaw) * (Real.pi / 180))⟩ := by
    rw [hpos, hM.sin_eq, hM.sin_eq, hM.cos_eq, hM.cos_eq, hM.radians_eq, hM.radians_eq, hang,
      Real.sin_add_pi, Real.cos_add_pi]
    unfold Vec3.sub
    dsimp only
    rw [Vec3.mk.injEq]
    refine ⟨by norm_num; ring, by norm_num, by norm_num; ring⟩
  have hdd : (⟨10 * Real.sin ((h + c.Yaw) * (Real.pi / 180)), -1.5,
        10 * Real.cos ((h + c.Yaw) * (Real.pi / 180))⟩ : Vec3 ℝ).dot
      ⟨10 * Real.sin ((h + c.Yaw) * (Real.pi / 180)), -1.5,
        10 * Real.cos ((h + c.Yaw) * (Real.pi / 180))⟩ = 102.25 := by
    unfold Vec3.dot
    dsimp only
    norm_num
    linear_combination 100 * hpyth
  rw [hd] at hfront
  obtain ⟨hunit, hflat⟩ := normalize_unit M hM _ (by rw [hdd]; norm_num)
  rw [← hfront] at hunit hflat
  have hflat2 : (c.FollowKart M p h CameraMode.THIRD_PERSON).Front.x ^ 2
      + (c.FollowKart M p h CameraMode.THIRD_PERSON).Front.z ^ 2 ≠ 0 := by
    rw [hflat, hdd]
    dsimp only
    have : (10 * Real.sin ((h + c.Yaw) * (Real.pi / 180))) ^ 2
        + (10 * Real.cos ((h + c.Yaw) * (Real.pi / 180))) ^ 2 = 100 := by
      linear_combination 100 * hpyth
    rw [this]
    norm_num
  obtain ⟨b1, b2, b3, b4, b5, b6⟩ := basis_of_front M hM _ hunit hflat2
  unfold Camera.Orthonormal
  rw [hup, hright, hworld, hW]
  exact ⟨hunit, b1, b2, b3, b4, b5, rfl, b6⟩

theorem cos_pitch_pos (pitch : ℝ) (h : -89 ≤ pitch ∧ pitch ≤ 89) :
    0 < Real.cos (pitch * (Real.pi / 180)) := by
  apply Real.cos_pos_of_mem_Ioo
  constructor
  · nlinarith [Real.pi_pos, h.1]
  · nlinarith [Real.pi_pos, h.2]

/-- The camera the constructor builds with world up `(0, 1, 0)` and a pitch in `[-89, 89]` has
an orthonormal right-handed basis. -/
theorem Camera_new_orthonormal (M : MathFns ℝ) (hM : M.Exact) (position : Vec3 ℝ)
    (yaw pitch : ℝ) (hp : -89 ≤ pitch ∧ pitch ≤ 89) :
    (Camera.new M position ⟨0, 1, 0⟩ yaw pitch).Orthonormal M := by
  unfold Camera.new
  exact updateCameraVectors_orthonormal M hM _ rfl (ne_of_gt (cos_pitch_pos pitch hp))

/-- A look update in `THIRD_PERSON` of a camera with world up `(0, 1, 0)` leaves an
orthonormal right-handed basis. -/
theorem ProcessMouseMovement_orthonormal (M : MathFns ℝ) (hM : M.Exact) (c : Camera ℝ)
    (xoffset yoffset : ℝ) (hW : c.WorldUp = ⟨0, 1, 0⟩)
    (hmode : c.currentMode = CameraMode.THIRD_PERSON) :
    (c.ProcessMouseMovement M xoffset yoffset true).Orthonormal M := by
  unfold Camera.ProcessMouseMovement
  rw [if_neg (not_not.mpr hmode)]
  dsimp only
  rw [if_pos rfl]
  refine updateCameraVectors_orthonormal M hM _ hW (ne_of_gt (cos_pitch_pos _ ?_))
  have hb := clamp_bounds (c.Pitch + yoffset * c.MouseSensitivity) (-89 : ℝ) 89 (by norm_num)
  dsimp only
  norm_num
  exact hb

/-! ### The finish timestamp -/

theorem latchFinish_finishTime (inp : FrameInput K) (g : Game K) :
    (latchFinish inp g).finishTime =
      if g.playerFinished && g.ghost1Finished && g.ghost2Finished
      then inp.timeAtFinish - g.raceStartTime else g.finishTime := by
  unfold latchFinish
  dsimp only
  split_ifs <;> rfl

theorem marks_times (g : Game K) :
    (markGhost2 (markGhost1 (markPlayer g))).raceStartTime = g.raceStartTime ∧
      (markGhost2 (markGhost1 (markPlayer g))).finishTime = g.finishTime := by
  obtain ⟨p, hp⟩ := markPlayer_eq g
  obtain ⟨g1, h1⟩ := markGhost1_eq (markPlayer g)
  obtain ⟨g2, h2⟩ := markGhost2_eq (markGhost1 (markPlayer g))
  rw [h2, h1, hp]
  exact ⟨rfl, rfl⟩

/-- The finish timestamp at the end of a frame: written by line 523 when `latchRuns`, and
otherwise the one the frame started with. -/
theorem frame_finishTime (M : MathFns K) (inp : FrameInput K) (g : Game K) :
    (frame M inp g).finishTime =
      if latchRuns M inp g then inp.timeAtFinish - g.raceStartTime else g.finishTime := by
  obtain ⟨t, f, p, g1, g2, sp, mv, p1, p2, r, hl⟩ :=
    launchStep_eq M inp (finishStep inp (preFinish M inp g))
  obtain ⟨-, -, -, -, -, -, -, -, q9, q10, -⟩ := preFinish_fields M inp g
  obtain ⟨m1, m2⟩ := marks_times (preFinish M inp g)
  rw [(frame_launch_fields M inp g).2.2.2.2.2, hl]
  show (finishStep inp (preFinish M inp g)).finishTime = _
  unfold finishStep latchRuns
  cases hgf : (preFinish M inp g).gameFinished
  · simp only [Bool.not_false, if_true, Bool.true_and]
    rw [latchFinish_finishTime, m1, m2, q9, q10]
  · simp only [Bool.not_true, Bool.false_eq_true, if_false, Bool.false_and]
    exact q10

/-- In a frame in which the finish timestamp is written, the race was not finished when the
frame started and is finished after the finish check. -/
theorem latchRuns_finishes (M : MathFns K) (inp : FrameInput K) (g : Game K)
    (h : latchRuns M inp g = true) :
    g.gameFinished = false ∧ (finishStep inp (preFinish M inp g)).gameFinished = true := by
  obtain ⟨-, -, -, q4, -⟩ := preFinish_fields M inp g
  unfold latchRuns at h
  rw [Bool.and_eq_true, Bool.not_eq_true'] at h
  obtain ⟨hgf, hall⟩ := h
  refine ⟨q4.symm.trans hgf, ?_⟩
  obtain ⟨l1, l2, l3, l4⟩ := latchFinish_flags inp (markGhost2 (markGhost1 (markPlayer
    (preFinish M inp g))))
  unfold finishStep
  rw [hgf]
  simp only [Bool.not_false, if_true]
  rw [l4, hall, Bool.or_true]

theorem latchRuns_of_finished (M : MathFns K) (inp : FrameInput K) (g : Game K)
    (h : g.gameFinished = true) : latchRuns M inp g = false := by
  obtain ⟨-, -, -, q4, -⟩ := preFinish_fields M inp g
  unfold latchRuns
  rw [q4, h]
  rfl

theorem latchCount_cons (M : MathFns K) (inp : FrameInput K) (inps : List (FrameInput K))
    (g : Game K) :
    latchCount M (inp :: inps) g
      = (if latchRuns M inp g then 1 else 0) + latchCount M inps (frame M inp g) := rfl

theorem launchFree_cons (M : MathFns K) (inp : FrameInput K) (inps : List (FrameInput K))
    (g : Game K) :
    launchFree M (inp :: inps) g = (!launchRuns inp g && launchFree M inps (frame M inp g)) :=
  rfl

/-- Once the race is finished the finish timestamp is not written again before a launch
reset. -/
theorem latchCount_finished (M : MathFns K) (inp : FrameInput K)
    (inps : List (FrameInput K)) :
    ∀ g : Game K, g.gameFinished = true → launchFree M inps g = true →
      latchCount M (inps ++ [inp]) g = 0 := by
  induction inps with
  | nil =>
    intro g hg _
    rw [List.nil_append, latchCount_cons, latchRuns_of_finished M inp g hg]
    rfl
  | cons i inps ih =>
    intro g hg hfree
    rw [launchFree_cons, Bool.and_eq_true, Bool.not_eq_true'] at hfree
    rw [List.cons_append, latchCount_cons, latchRuns_of_finished M i g hg,
      ih (frame M i g) ((frame_keeps M i g hfree.1).2.2.2 hg) hfree.2]
    rfl

theorem latchCount_le_one (M : MathFns K) (inp : FrameInput K) (inps : List (FrameInput K)) :
    ∀ g : Game K, launchFree M inps g = true → latchCount M (inps ++ [inp]) g ≤ 1 := by
  induction inps with
  | nil =>
    intro g _
    rw [List.nil_append, latchCount_cons]
    split_ifs <;> simp [latchCount]
  | cons i inps ih =>
    intro g hfree
    rw [launchFree_cons, Bool.and_eq_true, Bool.not_eq_true'] at hfree
    rw [List.cons_append, latchCount_cons]
    cases hl : latchRuns M i g
    · simp only [Bool.false_eq_true, if_false, Nat.zero_add]
      exact ih (frame M i g) hfree.2
    · have hfin : (frame M i g).gameFinished = true := by
        rw [(frame_flags_no_launch M i g hfree.1).2.2.2]
        exact (latchRuns_finishes M i g hl).2
      rw [latchCount_finished M inp inps (frame M i g) hfin hfree.2]
      simp

/-- C21: the finish timestamp is written only in a frame that starts with the race not
finished and in which the finish check sets `gameFinished` (the frame ends with it true
unless the launch reset runs in the same frame), and the value written is the current time
minus the race-start timestamp; a frame that starts with `gameFinished` true leaves the
finish timestamp unchanged; so in a run of frames in which the launch reset runs in no frame
but possibly the last, it is written at most once. -/
theorem C21_finish_time_latch (M : MathFns K) (inp : FrameInput K)
    (inps : List (FrameInput K)) (g : Game K) :
    (frame M inp g).finishTime =
        (if latchRuns M inp g then inp.timeAtFinish - g.raceStartTime else g.finishTime) ∧
      (latchRuns M inp g = true →
        g.gameFinished = false ∧ (finishStep inp (preFinish M inp g)).gameFinished = true ∧
          (launchRuns inp g = false → (frame M inp g).gameFinished = true)) ∧
      (g.gameFinished = true →
        latchRuns M inp g = false ∧ (frame M inp g).finishTime = g.finishTime) ∧
      (launchFree M inps g = true → latchCount M (inps ++ [inp]) g ≤ 1) := by
  refine ⟨frame_finishTime M inp g, fun h => ?_, fun h => ?_, latchCount_le_one M inp inps g⟩
  · obtain ⟨h1, h2⟩ := latchRuns_finishes M inp g h
    refine ⟨h1, h2, fun hnl => ?_⟩
    rw [(frame_flags_no_launch M inp g hnl).2.2.2]
    exact h2
  · have hl := latchRuns_of_finished M inp g h
    refine ⟨hl, ?_⟩
    rw [frame_finishTime, hl]
    rfl

theorem C21_finish_time_latch_witness :
    latchRuns ⟨Real.sin, Real.cos, Real.sqrt, fun d => d * (Real.pi / 180)⟩
        ⟨⟨false, false, false, false, false, false, false⟩, 31, 31, 31, []⟩
        ({ Game.init ⟨Real.sin, Real.cos, Real.sqrt, fun d => d * (Real.pi / 180)⟩ with
          lastFrame := 30
          raceStartTime := 5
          kartPosition := ⟨0, 0.05, 41⟩
          ghostKart1Position := ⟨3, 0.05, 41⟩
          ghostKart2Position := ⟨-3, 0.05, 41⟩ } : Game ℝ) = true ∧
      (frame ⟨Real.sin, Real.cos, Real.sqrt, fun d => d * (Real.pi / 180)⟩
        ⟨⟨false, false, false, false, false, false, false⟩, 31, 31, 31, []⟩
        ({ Game.init ⟨Real.sin, Real.cos, Real.sqrt, fun d => d * (Real.pi / 180)⟩ with
          lastFrame := 30
          raceStartTime := 5
          kartPosition := ⟨0, 0.05, 41⟩
          ghostKart1Position := ⟨3, 0.05, 41⟩
          ghostKart2Position := ⟨-3, 0.05, 41⟩ } : Game ℝ)).finishTime = 26 ∧
      (frame ⟨Real.sin, Real.cos, Real.sqrt, fun d => d * (Real.pi / 180)⟩
        ⟨⟨false, false, false, false, false, false, false⟩, 31, 31, 31, []⟩
        ({ Game.init ⟨Real.sin, Real.cos, Real.sqrt, fun d => d * (Real.pi / 180)⟩ with
          lastFrame := 30
          raceStartTime := 5
          kartPosition := ⟨0, 0.05, 41⟩
          ghostKart1Position := ⟨3, 0.05, 41⟩
          ghostKart2Position := ⟨-3, 0.05, 41⟩ } : Game ℝ)).gameFinished = true ∧
      latchCount ⟨Real.sin, Real.cos, Real.sqrt, fun d => d * (Real.pi / 180)⟩
        ([⟨⟨false, false, false, false, false, false, false⟩, 31, 31, 31, []⟩] ++
          [⟨⟨false, false, false, false, false, false, false⟩, 32, 32, 32, []⟩])
        ({ Game.init ⟨Real.sin, Real.cos, Real.sqrt, fun d => d * (Real.pi / 180)⟩ with
          lastFrame := 30
          raceStartTime := 5
          kartPosition := ⟨0, 0.05, 41⟩
          ghostKart1Position := ⟨3, 0.05, 41⟩
          ghostKart2Position := ⟨-3, 0.05, 41⟩ } : Game ℝ) ≤ 1 ∧
      (frame ⟨Real.sin, Real.cos, Real.sqrt, fun d => d * (Real.pi / 180)⟩
        ⟨⟨false, false, false, false, false, false, false⟩, 31, 31, 31, []⟩
        ({ Game.init ⟨Real.sin, Real.cos, Real.sqrt, fun d => d * (Real.pi / 180)⟩ with
          lastFrame := 30
          gameFinished := true
          finishTime := 7 } : Game ℝ)).finishTime = 7 :=
  have hrun : latchRuns ⟨Real.sin, Real.cos, Real.sqrt, fun d => d * (Real.pi / 180)⟩
      ⟨⟨false, false, false, false, false, false, false⟩, 31, 31, 31, []⟩
      ({ Game.init ⟨Real.sin, Real.cos, Real.sqrt, fun d => d * (Real.pi / 180)⟩ with
          lastFrame := 30
          raceStartTime := 5
          kartPosition := ⟨0, 0.05, 41⟩
          ghostKart1Position := ⟨3, 0.05, 41⟩
          ghostKart2Position := ⟨-3, 0.05, 41⟩ } : Game ℝ) = true := by
    simp [latchRuns, preFinish, markGhost2, markGhost1, markPlayer, moveStep, zStep, driveStep,
      clockStep, Game.init, accelStep, brakeStep, decayStep, turnStep, FINISH_LINE_Z]
    norm_num
  have h := C21_finish_time_latch ⟨Real.sin, Real.cos, Real.sqrt, fun d => d * (Real.pi / 180)⟩
    ⟨⟨false, false, false, false, false, false, false⟩, 32, 32, 32, []⟩
    [⟨⟨false, false, false, false, false, false, false⟩, 31, 31, 31, []⟩]
    ({ Game.init ⟨Real.sin, Real.cos, Real.sqrt, fun d => d * (Real.pi / 180)⟩ with
          lastFrame := 30
          raceStartTime := 5
          kartPosition := ⟨0, 0.05, 41⟩
          ghostKart1Position := ⟨3, 0.05, 41⟩
          ghostKart2Position := ⟨-3, 0.05, 41⟩ } : Game ℝ)
  have h1 := C21_finish_time_latch ⟨Real.sin, Real.cos, Real.sqrt, fun d => d * (Real.pi / 180)⟩
    ⟨⟨false, false, false, false, false, false, false⟩, 31, 31, 31, []⟩
    []
    ({ Game.init ⟨Real.sin, Real.cos, Real.sqrt, fun d => d * (Real.pi / 180)⟩ with
          lastFrame := 30
          raceStartTime := 5
          kartPosition := ⟨0, 0.05, 41⟩
          ghostKart1Position := ⟨3, 0.05, 41⟩
          ghostKart2Position := ⟨-3, 0.05, 41⟩ } : Game ℝ)
  have h2 := C21_finish_time_latch ⟨Real.sin, Real.cos, Real.sqrt, fun d => d * (Real.pi / 180)⟩
    ⟨⟨false, false, false, false, false, false, false⟩, 31, 31, 31, []⟩
    []
    ({ Game.init ⟨Real.sin, Real.cos, Real.sqrt, fun d => d * (Real.pi / 180)⟩ with
          lastFrame := 30
          gameFinished := true
          finishTime := 7 } : Game ℝ)
  ⟨hrun, by rw [h1.1, hrun]; norm_num, (h1.2.1 hrun).2.2 rfl, h.2.2.2 rfl,
    (h2.2.2.1 rfl).2⟩

/-! ### Motion of the ghost karts -/

theorem ghostStep_positions (M : MathFns K) (g : Game K) :
    (ghostStep M g).ghostKart1Position =
        (if g.ghostKartsMoving then
          ⟨g.ghostKart1Position.x
              + SIDE_KART_MAX_SPEED * M.sin (M.radians g.sideKartRotation) * g.deltaTime,
            g.ghostKart1Position.y,
            g.ghostKart1Position.z
              + SIDE_KART_MAX_SPEED * M.cos (M.radians g.sideKartRotation) * g.deltaTime⟩
        else g.ghostKart1Position) ∧
      (ghostStep M g).ghostKart2Position =
        (if g.ghostKartsMoving then
          ⟨g.ghostKart2Position.x
              + SIDE_KART2_MAX_SPEED * M.sin (M.radians g.sideKartRotation) * g.deltaTime,
            g.ghostKart2Position.y,
            g.ghostKart2Position.z
              + SIDE_KART2_MAX_SPEED * M.cos (M.radians g.sideKartRotation) * g.deltaTime⟩
        else g.ghostKart2Position) := by
  unfold ghostStep
  dsimp only
  split_ifs <;> exact ⟨rfl, rfl⟩

theorem preFinish_deltaTime (M : MathFns K) (inp : FrameInput K) (g : Game K) :
    (preFinish M inp g).deltaTime = inp.currentFrame - g.lastFrame := by
  obtain ⟨m, z, h⟩ := zStep_eq inp.keys (driveStep inp.keys (clockStep inp g))
  unfold preFinish moveStep
  rw [h]
  rfl

/-- The ghost karts at the end of a frame in which the launch reset does not run: the heading
is the one the frame started with, the flag `ghostKartsMoving` is toggled by a press of the
space key, and the positions are moved by lines 559-566 when the flag is then true. -/
theorem frame_ghosts_no_launch (M : MathFns K) (inp : FrameInput K) (g : Game K)
    (hnl : launchRuns inp g = false) :
    (frame M inp g).sideKartRotation = g.sideKartRotation ∧
      (frame M inp g).ghostKartsMoving =
        (if inp.keys.keySpace && !g.spacePressed then !g.ghostKartsMoving
         else g.ghostKartsMoving) ∧
      (frame M inp g).ghostKart1Position =
        (if (frame M inp g).ghostKartsMoving then
          ⟨g.ghostKart1Position.x
              + SIDE_KART_MAX_SPEED * M.sin (M.radians g.sideKartRotation)
                * (inp.currentFrame - g.lastFrame),
            g.ghostKart1Position.y,
            g.ghostKart1Position.z
              + SIDE_KART_MAX_SPEED * M.cos (M.radians g.sideKartRotation)
                * (inp.currentFrame - g.lastFrame)⟩
        else g.ghostKart1Position) ∧
      (frame M inp g).ghostKart2Position =
        (if (frame M inp g).ghostKartsMoving then
          ⟨g.ghostKart2Position.x
              + SIDE_KART2_MAX_SPEED * M.sin (M.radians g.sideKartRotation)
                * (inp.currentFrame - g.lastFrame),
            g.ghostKart2Position.y,
            g.ghostKart2Position.z
              + SIDE_KART2_MAX_SPEED * M.cos (M.radians g.sideKartRotation)
                * (inp.currentFrame - g.lastFrame)⟩
        else g.ghostKart2Position) := by
  obtain ⟨c, f, x, y, hp⟩ := pollEvents_eq M inp.events
    (followStep M (ghostStep M (launchStep M inp (finishStep inp (preFinish M inp g)))))
  obtain ⟨a1, a2, a3, a4, a5, hf⟩ := finishStep_eq inp (preFinish M inp g)
  obtain ⟨-, -, -, -, q5, q6, q7, q8, -, -, q11⟩ := preFinish_fields M inp g
  have hdt := preFinish_deltaTime M inp g
  have hnl2 : launchRuns inp (finishStep inp (preFinish M inp g)) = false := by
    rw [launchRuns_preFinish]
    exact hnl
  obtain ⟨s1, s2⟩ := ghostStep_positions M (launchStep M inp (finishStep inp (preFinish M inp g)))
  obtain ⟨l1, l2, l3, -⟩ := frame_launch_fields M inp g
  have hframe : frame M inp g = pollEvents M inp.events
      (followStep M (ghostStep M (launchStep M inp (finishStep inp (preFinish M inp g))))) := rfl
  have hg1 : (frame M inp g).ghostKart1Position
      = (ghostStep M (launchStep M inp (finishStep inp (preFinish M inp g)))).ghostKart1Position := by
    rw [hframe, hp]
    rfl
  have hg2 : (frame M inp g).ghostKart2Position
      = (ghostStep M (launchStep M inp (finishStep inp (preFinish M inp g)))).ghostKart2Position := by
    rw [hframe, hp]
    rfl
  rw [hg1, hg2, s1, s2, l2, l3, launchStep_of_not_runs M inp _ hnl2, hf]
  dsimp only
  rw [q5, q6, q7, q8, q11, hdt]
  exact ⟨rfl, rfl, rfl, rfl⟩

/-- C22: in every frame in which the launch reset does not run, whatever the controls and the
heading of the player, the ghost heading `H` is unchanged; when the ghost karts are moving
(the flag `ghostKartsMoving` as the motion code of the frame reads it) the position of ghost
kart 1 changes by `SIDE_KART_MAX_SPEED * (sin(rad H), 0, cos(rad H)) * dt` and that of ghost
kart 2 by `SIDE_KART2_MAX_SPEED * (sin(rad H), 0, cos(rad H)) * dt`, and when they are not
moving the two positions are unchanged. -/
theorem C22_ghost_motion (M : MathFns ℝ) (hM : M.Exact) (inp : FrameInput ℝ) (g : Game ℝ)
    (hnl : launchRuns inp g = false) :
    (frame M inp g).sideKartRotation = g.sideKartRotation ∧
      (frame M inp g).ghostKartsMoving =
        (if inp.keys.keySpace && !g.spacePressed then !g.ghostKartsMoving
         else g.ghostKartsMoving) ∧
      ((frame M inp g).ghostKartsMoving = true →
        (frame M inp g).ghostKart1Position.sub g.ghostKart1Position =
            (⟨Real.sin (g.sideKartRotation * (Real.pi / 180)), 0,
              Real.cos (g.sideKartRotation * (Real.pi / 180))⟩ : Vec3 ℝ).smul
              (SIDE_KART_MAX_SPEED * (inp.currentFrame - g.lastFrame)) ∧
          (frame M inp g).ghostKart2Position.sub g.ghostKart2Position =
            (⟨Real.sin (g.sideKartRotation * (Real.pi / 180)), 0,
              Real.cos (g.sideKartRotation * (Real.pi / 180))⟩ : Vec3 ℝ).smul
              (SIDE_KART2_MAX_SPEED * (inp.currentFrame - g.lastFrame))) ∧
      ((frame M inp g).ghostKartsMoving = false →
        (frame M inp g).ghostKart1Position = g.ghostKart1Position ∧
          (frame M inp g).ghostKart2Position = g.ghostKart2Position) := by
  obtain ⟨h1, h2, h3, h4⟩ := frame_ghosts_no_launch M inp g hnl
  refine ⟨h1, h2, fun hm => ?_, fun hm => ?_⟩
  · rw [h3, h4, hm, hM.sin_eq, hM.cos_eq, hM.radians_eq]
    simp only [if_true]
    unfold Vec3.sub Vec3.smul
    dsimp only
    rw [Vec3.mk.injEq, Vec3.mk.injEq]
    refine ⟨⟨by ring, by ring, by ring⟩, ⟨by ring, by ring, by ring⟩⟩
  · rw [h3, h4, hm]
    exact ⟨rfl, rfl⟩

theorem C22_ghost_motion_witness :
    MathFns.Exact ⟨Real.sin, Real.cos, Real.sqrt, fun d => d * (Real.pi / 180)⟩ ∧
      launchRuns ⟨⟨true, false, true, false, false, false, false⟩, 7, 7, 7, []⟩
        ({ Game.init ⟨Real.sin, Real.cos, Real.sqrt, fun d => d * (Real.pi / 180)⟩ with
          lastFrame := 6
          ghostKartsMoving := true
          ghostKart1Position := ⟨3, 0.05, 0⟩
          ghostKart2Position := ⟨-3, 0.05, -30⟩ } : Game ℝ) = false ∧
      (frame ⟨Real.sin, Real.cos, Real.sqrt, fun d => d * (Real.pi / 180)⟩
        ⟨⟨true, false, true, false, false, false, false⟩, 7, 7, 7, []⟩
        ({ Game.init ⟨Real.sin, Real.cos, Real.sqrt, fun d => d * (Real.pi / 180)⟩ with
          lastFrame := 6
          ghostKartsMoving := true
          ghostKart1Position := ⟨3, 0.05, 0⟩
          ghostKart2Position := ⟨-3, 0.05, -30⟩ } : Game ℝ)).ghostKartsMoving = true ∧
      (frame ⟨Real.sin, Real.cos, Real.sqrt, fun d => d * (Real.pi / 180)⟩
        ⟨⟨true, false, true, false, false, false, false⟩, 7, 7, 7, []⟩
        ({ Game.init ⟨Real.sin, Real.cos, Real.sqrt, fun d => d * (Real.pi / 180)⟩ with
          lastFrame := 6
          ghostKartsMoving := true
          ghostKart1Position := ⟨3, 0.05, 0⟩
          ghostKart2Position := ⟨-3, 0.05, -30⟩ } : Game ℝ)).ghostKart1Position.sub ⟨3, 0.05, 0⟩ = ⟨0, 0, 15⟩ ∧
      (frame ⟨Real.sin, Real.cos, Real.sqrt, fun d => d * (Real.pi / 180)⟩
        ⟨⟨true, false, true, false, false, false, false⟩, 7, 7, 7, []⟩
        ({ Game.init ⟨Real.sin, Real.cos, Real.sqrt, fun d => d * (Real.pi / 180)⟩ with
          lastFrame := 6
          ghostKartsMoving := true
          ghostKart1Position := ⟨3, 0.05, 0⟩
          ghostKart2Position := ⟨-3, 0.05, -30⟩ } : Game ℝ)).ghostKart2Position.sub ⟨-3, 0.05, -30⟩ = ⟨0, 0, 6⟩ :=
  have hM : MathFns.Exact ⟨Real.sin, Real.cos, Real.sqrt, fun d => d * (Real.pi / 180)⟩ :=
    ⟨fun _ => rfl, fun _ => rfl, fun _ => rfl, fun _ => rfl⟩
  have h := C22_ghost_motion ⟨Real.sin, Real.cos, Real.sqrt, fun d => d * (Real.pi / 180)⟩ hM
    ⟨⟨true, false, true, false, false, false, false⟩, 7, 7, 7, []⟩
    ({ Game.init ⟨Real.sin, Real.cos, Real.sqrt, fun d => d * (Real.pi / 180)⟩ with
          lastFrame := 6
          ghostKartsMoving := true
          ghostKart1Position := ⟨3, 0.05, 0⟩
          ghostKart2Position := ⟨-3, 0.05, -30⟩ } : Game ℝ) rfl
  have hmv : (frame ⟨Real.sin, Real.cos, Real.sqrt, fun d => d * (Real.pi / 180)⟩
      ⟨⟨true, false, true, false, false, false, false⟩, 7, 7, 7, []⟩
      ({ Game.init ⟨Real.sin, Real.cos, Real.sqrt, fun d => d * (Real.pi / 180)⟩ with
          lastFrame := 6
          ghostKartsMoving := true
          ghostKart1Position := ⟨3, 0.05, 0⟩
          ghostKart2Position := ⟨-3, 0.05, -30⟩ } : Game ℝ)).ghostKartsMoving = true := h.2.1.trans rfl
  ⟨hM, rfl, hmv,
    (h.2.2.1 hmv).1.trans (by
      norm_num [Vec3.smul, SIDE_KART_MAX_SPEED, Game.init]),
    (h.2.2.1 hmv).2.trans (by
      norm_num [Vec3.smul, SIDE_KART2_MAX_SPEED, Game.init])⟩

/-! ### Coasting to a stop -/

theorem speedUpdate_coast (dt s : K) :
    speedUpdate false false dt s = if |0.65 * s| < 0.1 then 0 else 0.65 * s := by
  simp only [speedUpdate, decayStep, brakeStep, accelStep, Bool.not_false, Bool.and_self,
    Bool.false_eq_true, if_false, if_true, mul_comm s]
  split_ifs <;> norm_num

theorem coast_cons (dt : K) (dts : List K) (s : K) :
    coast (dt :: dts) s = coast dts (speedUpdate false false dt s) := rfl

theorem coast_append (as bs : List K) (s : K) : coast (as ++ bs) s = coast bs (coast as s) := by
  unfold coast
  rw [List.foldl_append]

theorem coast_zero (dts : List K) : coast dts (0 : K) = 0 := by
  induction dts with
  | nil => rfl
  | cons dt dts ih =>
    rw [coast_cons, speedUpdate_coast, mul_zero, if_pos (by norm_num)]
    exact ih

theorem speedUpdate_coast_abs (dt s : K) : |speedUpdate false false dt s| ≤ 0.65 * |s| := by
  have habs : |(0.65 : K) * s| = 0.65 * |s| := by
    rw [abs_mul, abs_of_pos (by norm_num : (0 : K) < 0.65)]
  rw [speedUpdate_coast]
  split_ifs
  · rw [abs_zero, ← habs]
    exact abs_nonneg _
  · exact le_of_eq habs

theorem coast_abs_le (dts : List K) : ∀ s : K, |coast dts s| ≤ 0.65 ^ dts.length * |s| := by
  induction dts with
  | nil =>
    intro s
    simp [coast]
  | cons dt dts ih =>
    intro s
    rw [coast_cons, List.length_cons, pow_succ, mul_assoc]
    exact le_trans (ih _)
      (mul_le_mul_of_nonneg_left (speedUpdate_coast_abs dt s) (by positivity))

/-- While the decayed magnitude stays at or above the snap threshold, coasting multiplies the
speed by 0.65 per frame. -/
theorem coast_exact (dts : List K) :
    ∀ s : K, 0.1 ≤ 0.65 ^ dts.length * |s| → coast dts s = 0.65 ^ dts.length * s := by
  induction dts with
  | nil =>
    intro s _
    simp [coast]
  | cons dt dts ih =>
    intro s hs
    have habs : |(0.65 : K) * s| = 0.65 * |s| := by
      rw [abs_mul, abs_of_pos (by norm_num : (0 : K) < 0.65)]
    rw [List.length_cons, pow_succ, mul_assoc] at hs
    have hpow : (0.65 : K) ^ dts.length ≤ 1 := pow_le_one₀ (by norm_num) (by norm_num)
    have hnn : (0 : K) ≤ 0.65 * |s| := by positivity
    have hstep : ¬ |(0.65 : K) * s| < 0.1 := by
      rw [habs, not_lt]
      calc (0.1 : K) ≤ 0.65 ^ dts.length * (0.65 * |s|) := hs
        _ ≤ 1 * (0.65 * |s|) := mul_le_mul_of_nonneg_right hpow hnn
        _ = 0.65 * |s| := one_mul _
    rw [coast_cons, speedUpdate_coast, if_neg hstep, ih _ (by rw [habs]; exact hs),
      List.length_cons, pow_succ, mul_assoc]

/-- C23: from any speed `s` with `-MAX_SPEED/2 ≤ s ≤ MAX_SPEED` (`MAX_SPEED = 9`), after 11
consecutive frames in which neither accelerate nor brake is held, and after any more such
frames, the speed is exactly 0, whatever the frame deltas; from `s = 9` the speed after 10
such frames is `9 * 0.65 ^ 10`, which is not 0. -/
theorem C23_coast_stops (dts : List K) (s : K) (hlo : -MAX_SPEED / 2 ≤ s)
    (hhi : s ≤ MAX_SPEED) :
    (MAX_SPEED : K) = 9 ∧
      (11 ≤ dts.length → coast dts s = 0) ∧
      (dts.length = 10 →
        coast dts MAX_SPEED = 9 * 0.65 ^ 10 ∧ coast dts (MAX_SPEED : K) ≠ 0) := by
  have h9 : (MAX_SPEED : K) = 9 := by norm_num [MAX_SPEED]
  rw [h9] at hlo hhi ⊢
  refine ⟨rfl, fun hlen => ?_, fun hlen => ?_⟩
  · have habs : |s| ≤ 9 := abs_le.mpr ⟨by linarith, hhi⟩
    have hsplit : dts = dts.take 10 ++ dts.drop 10 := (List.take_append_drop 10 dts).symm
    have hdrop : (dts.drop 10).length = dts.length - 10 := List.length_drop 10 dts
    have htake : (dts.take 10).length = 10 := by
      rw [List.length_take]
      omega
    cases hd : dts.drop 10 with
    | nil =>
      rw [hd] at hdrop
      simp only [List.length_nil] at hdrop
      omega
    | cons x rest =>
      have hten := coast_abs_le (dts.take 10) s
      rw [htake] at hten
      have hsmall : |(0.65 : K) * coast (dts.take 10) s| < 0.1 := by
        rw [abs_mul, abs_of_pos (by norm_num : (0 : K) < 0.65)]
        have h1 : (0.65 : K) ^ 10 * |s| ≤ 0.65 ^ 10 * 9 :=
          mul_le_mul_of_nonneg_left habs (by positivity)
        have h2 : (0.65 : K) * (0.65 ^ 10 * 9) < 0.1 := by norm_num
        nlinarith [hten, h1, h2]
      rw [hsplit, coast_append, hd, coast_cons, speedUpdate_coast, if_pos hsmall]
      exact coast_zero rest
  · have hval : coast dts (9 : K) = 0.65 ^ dts.length * 9 := by
      apply coast_exact
      rw [hlen, abs_of_pos (by norm_num : (0 : K) < 9)]
      norm_num
    rw [hval, hlen]
    constructor
    · ring
    · positivity

theorem C23_coast_stops_witness :
    -MAX_SPEED / 2 ≤ (-4 : ℚ) ∧ (-4 : ℚ) ≤ MAX_SPEED ∧
      coast [(1 : ℚ), 0.02, 0.5, 0.016, 0.016, 0.016, 0.1, 0.3, 0.016, 0.016, 0.016] (-4) = 0 ∧
      coast [(1 : ℚ), 0.02, 0.5, 0.016, 0.016, 0.016, 0.1, 0.3, 0.016, 0.016] MAX_SPEED ≠ 0 :=
  have hlo : -MAX_SPEED / 2 ≤ (-4 : ℚ) := by norm_num [MAX_SPEED]
  have hhi : (-4 : ℚ) ≤ MAX_SPEED := by norm_num [MAX_SPEED]
  ⟨hlo, hhi,
    (C23_coast_stops [(1 : ℚ), 0.02, 0.5, 0.016, 0.016, 0.016, 0.1, 0.3, 0.016, 0.016, 0.016]
      (-4) hlo hhi).2.1 (by simp),
    ((C23_coast_stops [(1 : ℚ), 0.02, 0.5, 0.016, 0.016, 0.016, 0.1, 0.3, 0.016, 0.016]
      (-4) hlo hhi).2.2 (by simp)).2⟩

/-! ### The model transform of the ghost karts -/

/-- The translucent pass does not read `sideKartRotation`. -/
theorem translucentPass_sideKartRotation (M : MathFns K) (g : Game K) (r : K) :
    translucentPass M { g with sideKartRotation := r } = translucentPass M g := rfl

theorem roundHalfEven_floor_le (q : ℚ) : ⌊q⌋ ≤ roundHalfEven q := by
  unfold roundHalfEven
  dsimp only
  split_ifs <;> omega

theorem roundHalfEven_le_floor (q : ℚ) : roundHalfEven q ≤ ⌊q⌋ + 1 := by
  unfold roundHalfEven
  dsimp only
  split_ifs <;> omega

theorem roundHalfEven_intCast (n : ℤ) : roundHalfEven (n : ℚ) = n := by
  unfold roundHalfEven
  dsimp only
  rw [Int.floor_intCast, sub_self, if_pos (by norm_num)]

theorem roundHalfEven_mono (p q : ℚ) (h : p ≤ q) : roundHalfEven p ≤ roundHalfEven q := by
  have hf : ⌊p⌋ ≤ ⌊q⌋ := Int.floor_mono h
  rcases hf.lt_or_eq with hlt | heq
  · calc roundHalfEven p ≤ ⌊p⌋ + 1 := roundHalfEven_le_floor p
      _ ≤ ⌊q⌋ := hlt
      _ ≤ roundHalfEven q := roundHalfEven_floor_le q
  · unfold roundHalfEven
    dsimp only
    rw [heq]
    split_ifs <;> first | omega | linarith

theorem roundHalfEven_neg (q : ℚ) : roundHalfEven (-q) = -roundHalfEven q := by
  by_cases hq : (⌊q⌋ : ℚ) = q
  · rw [← hq, ← Int.cast_neg, roundHalfEven_intCast, roundHalfEven_intCast]
  · have hlt : (⌊q⌋ : ℚ) < q := lt_of_le_of_ne (Int.floor_le q) hq
    have hlt2 : q < ⌊q⌋ + 1 := Int.lt_floor_add_one q
    have hfl : ⌊-q⌋ = -⌊q⌋ - 1 := by
      rw [Int.floor_eq_iff]
      push_cast
      constructor <;> linarith
    unfold roundHalfEven
    dsimp only
    rw [hfl]
    push_cast
    split_ifs <;> first | omega | linarith

theorem roundHalfEven_eq_of_lt (q : ℚ) (n : ℤ) (h1 : (n : ℚ) - 1 / 2 < q)
    (h2 : q < n + 1 / 2) : roundHalfEven q = n := by
  rcases le_or_lt (n : ℚ) q with hq | hq
  · have hfl : ⌊q⌋ = n := by
      rw [Int.floor_eq_iff]
      constructor <;> linarith
    unfold roundHalfEven
    dsimp only
    rw [hfl, if_pos (by linarith)]
  · have hfl : ⌊q⌋ = n - 1 := by
      rw [Int.floor_eq_iff]
      push_cast
      constructor <;> linarith
    unfold roundHalfEven
    dsimp only
    rw [hfl]
    push_cast
    rw [if_neg (by linarith), if_pos (by linarith)]
    ring

theorem binary32_zero : binary32 0 = 0 := by
  unfold binary32
  rw [if_pos rfl]

theorem two_zpow_lo (e : ℤ) : (2 : ℚ) ^ e = 8388608 * 2 ^ (e - 23) := by
  have h : (2 : ℚ) ^ e = 2 ^ (23 : ℤ) * 2 ^ (e - 23) := by
    rw [← zpow_add₀ (by norm_num : (2 : ℚ) ≠ 0)]
    congr 1
    ring
  rw [h]
  norm_num

theorem two_zpow_hi (e : ℤ) : (2 : ℚ) ^ (e + 1) = 16777216 * 2 ^ (e - 23) := by
  have h : (2 : ℚ) ^ (e + 1) = 2 ^ (24 : ℤ) * 2 ^ (e - 23) := by
    rw [← zpow_add₀ (by norm_num : (2 : ℚ) ≠ 0)]
    congr 1
    ring
  rw [h]
  norm_num

/-- The value of `binary32` on the binade `[2 ^ e, 2 ^ (e + 1))`: `x` is rounded to a
multiple of `2 ^ (e - 23)`. -/
theorem binary32_of_binade (x : ℚ) (e : ℤ) (hlo : (2 : ℚ) ^ e ≤ |x|)
    (hhi : |x| < 2 ^ (e + 1)) :
    binary32 x = roundHalfEven (x / 2 ^ (e - 23)) * 2 ^ (e - 23) := by
  have hpos : 0 < |x| := lt_of_lt_of_le (by positivity) hlo
  have hx : x ≠ 0 := abs_pos.mp hpos
  have hlog : Int.log 2 |x| = e := by
    apply le_antisymm
    · have h := (Int.lt_zpow_iff_log_lt (by norm_num : 1 < 2) hpos).mp
        (by exact_mod_cast hhi : |x| < ((2 : ℕ) : ℚ) ^ (e + 1))
      omega
    · exact (Int.zpow_le_iff_le_log (by norm_num : 1 < 2) hpos).mp
        (by exact_mod_cast hlo : ((2 : ℕ) : ℚ) ^ e ≤ |x|)
  unfold binary32
  rw [if_neg hx, hlog]

/-- Every `x` other than 0 lies in the binade of its logarithm. -/
theorem binade_log (x : ℚ) (hx : x ≠ 0) :
    (2 : ℚ) ^ Int.log 2 |x| ≤ |x| ∧ |x| < 2 ^ (Int.log 2 |x| + 1) := by
  have hpos : 0 < |x| := abs_pos.mpr hx
  constructor
  · exact_mod_cast Int.zpow_log_le_self (by norm_num : 1 < 2) hpos
  · exact_mod_cast Int.lt_zpow_succ_log_self (by norm_num : 1 < 2) |x|

theorem binary32_neg (x : ℚ) : binary32 (-x) = -binary32 x := by
  unfold binary32
  by_cases hx : x = 0
  · rw [if_pos hx, if_pos (by rw [hx, neg_zero]), neg_zero]
  · rw [if_neg hx, if_neg (neg_ne_zero.mpr hx), abs_neg, neg_div, roundHalfEven_neg]
    push_cast
    ring

/-- A positive `x` of the binade `[2 ^ e, 2 ^ (e + 1))` is rounded into `[2 ^ e, 2 ^ (e + 1)]`,
to an integer multiple `n * 2 ^ (e - 23)` with `2 ^ 23 ≤ n ≤ 2 ^ 24`. -/
theorem binary32_pos_binade (x : ℚ) (e : ℤ) (hlo : (2 : ℚ) ^ e ≤ x) (hhi : x < 2 ^ (e + 1)) :
    ∃ n : ℤ, 8388608 ≤ n ∧ n ≤ 16777216 ∧ binary32 x = n * 2 ^ (e - 23) := by
  have hu : (0 : ℚ) < 2 ^ (e - 23) := by positivity
  have hx : 0 < x := lt_of_lt_of_le (by positivity) hlo
  have hb := binary32_of_binade x e (by rwa [abs_of_pos hx]) (by rwa [abs_of_pos hx])
  refine ⟨roundHalfEven (x / 2 ^ (e - 23)), ?_, ?_, hb⟩
  · have h1 : ((8388608 : ℤ) : ℚ) ≤ x / 2 ^ (e - 23) := by
      rw [le_div_iff₀ hu]
      push_cast
      rw [← two_zpow_lo]
      exact hlo
    have h2 := roundHalfEven_mono _ _ h1
    rwa [roundHalfEven_intCast] at h2
  · have h1 : x / 2 ^ (e - 23) ≤ ((16777216 : ℤ) : ℚ) := by
      rw [div_le_iff₀ hu]
      push_cast
      rw [← two_zpow_hi]
      exact hhi.le
    have h2 := roundHalfEven_mono _ _ h1
    rwa [roundHalfEven_intCast] at h2

/-- The multiples `n * 2 ^ k` with `2 ^ 23 ≤ n ≤ 2 ^ 24` are `float` values: rounding leaves
them as they are. -/
theorem binary32_rep (n k : ℤ) (h1 : 8388608 ≤ n) (h2 : n ≤ 16777216) :
    binary32 (n * 2 ^ k) = n * 2 ^ k := by
  have hu : (0 : ℚ) < 2 ^ k := by positivity
  have hn1 : (8388608 : ℚ) ≤ n := by exact_mod_cast h1
  have hn2 : (n : ℚ) ≤ 16777216 := by exact_mod_cast h2
  have hnpos : (0 : ℚ) < n := by linarith
  have hk : k = (k + 23) - 23 := by ring
  rcases h2.lt_or_eq with hlt | heq
  · have hn3 : (n : ℚ) < 16777216 := by exact_mod_cast hlt
    have hb := binary32_of_binade (n * 2 ^ k) (k + 23)
      (by
        rw [abs_of_pos (mul_pos hnpos hu), two_zpow_lo (k + 23), ← hk]
        exact mul_le_mul_of_nonneg_right hn1 hu.le)
      (by
        rw [abs_of_pos (mul_pos hnpos hu), two_zpow_hi (k + 23), ← hk]
        exact mul_lt_mul_of_pos_right hn3 hu)
    rw [← hk] at hb
    rw [hb, mul_div_cancel_right₀ _ hu.ne', roundHalfEven_intCast]
  · have hk2 : k + 1 = (k + 24) - 23 := by ring
    have hval : (n : ℚ) * 2 ^ k = ((8388608 : ℤ) : ℚ) * 2 ^ (k + 1) := by
      rw [heq, zpow_add₀ (by norm_num : (2 : ℚ) ≠ 0)]
      push_cast
      ring
    have hu2 : (0 : ℚ) < 2 ^ (k + 1) := by positivity
    have hb := binary32_of_binade (((8388608 : ℤ) : ℚ) * 2 ^ (k + 1)) (k + 24)
      (by
        rw [abs_of_pos (mul_pos (by norm_num) hu2), two_zpow_lo (k + 24), ← hk2]
        push_cast
        exact le_refl _)
      (by
        rw [abs_of_pos (mul_pos (by norm_num) hu2), two_zpow_hi (k + 24), ← hk2]
        push_cast
        exact mul_lt_mul_of_pos_right (by norm_num) hu2)
    rw [← hk2] at hb
    rw [hval, hb, mul_div_cancel_right₀ _ hu2.ne', roundHalfEven_intCast]

theorem binary32_idem_pos (x : ℚ) (hx : 0 < x) : binary32 (binary32 x) = binary32 x := by
  have hb := binade_log x hx.ne'
  rw [abs_of_pos hx] at hb
  obtain ⟨n, h1, h2, hn⟩ := binary32_pos_binade x _ hb.1 hb.2
  rw [hn, binary32_rep n _ h1 h2]

theorem binary32_idem (x : ℚ) : binary32 (binary32 x) = binary32 x := by
  rcases lt_trichotomy x 0 with hx | hx | hx
  · have h := binary32_idem_pos (-x) (neg_pos.mpr hx)
    rw [binary32_neg, binary32_neg] at h
    exact neg_injective h
  · rw [hx, binary32_zero, binary32_zero]
  · exact binary32_idem_pos x hx

theorem binary32_pos (x : ℚ) (hx : 0 < x) : 0 < binary32 x := by
  have hb := binade_log x hx.ne'
  rw [abs_of_pos hx] at hb
  obtain ⟨n, h1, h2, hn⟩ := binary32_pos_binade x _ hb.1 hb.2
  rw [hn]
  have hn1 : (0 : ℚ) < n := by exact_mod_cast (by omega : (0 : ℤ) < n)
  positivity

theorem binary32_mono_pos (x y : ℚ) (hx : 0 < x) (hxy : x ≤ y) : binary32 x ≤ binary32 y := by
  have hy : 0 < y := lt_of_lt_of_le hx hxy
  have hbx := binade_log x hx.ne'
  have hby := binade_log y hy.ne'
  rw [abs_of_pos hx] at hbx
  rw [abs_of_pos hy] at hby
  have hlog : Int.log 2 x ≤ Int.log 2 y := Int.log_mono_right hx hxy
  rcases hlog.lt_or_eq with hlt | heq
  · obtain ⟨n, -, h2, hn⟩ := binary32_pos_binade x _ hbx.1 hbx.2
    obtain ⟨m, h1, -, hm⟩ := binary32_pos_binade y _ hby.1 hby.2
    have hux : (0 : ℚ) < 2 ^ (Int.log 2 x - 23) := by positivity
    have huy : (0 : ℚ) < 2 ^ (Int.log 2 y - 23) := by positivity
    have hn2 : (n : ℚ) ≤ 16777216 := by exact_mod_cast h2
    have hm1 : (8388608 : ℚ) ≤ m := by exact_mod_cast h1
    calc binary32 x = n * 2 ^ (Int.log 2 x - 23) := hn
      _ ≤ 16777216 * 2 ^ (Int.log 2 x - 23) := mul_le_mul_of_nonneg_right hn2 hux.le
      _ = 2 ^ (Int.log 2 x + 1) := (two_zpow_hi _).symm
      _ ≤ 2 ^ Int.log 2 y := zpow_le_zpow_right₀ (by norm_num) (by omega)
      _ = 8388608 * 2 ^ (Int.log 2 y - 23) := two_zpow_lo _
      _ ≤ m * 2 ^ (Int.log 2 y - 23) := mul_le_mul_of_nonneg_right hm1 huy.le
      _ = binary32 y := hm.symm
  · have hu : (0 : ℚ) < 2 ^ (Int.log 2 y - 23) := by positivity
    rw [binary32_of_binade x (Int.log 2 y) (by rw [abs_of_pos hx, ← heq]; exact hbx.1)
        (by rw [abs_of_pos hx, ← heq]; exact hbx.2),
      binary32_of_binade y (Int.log 2 y) (by rw [abs_of_pos hy]; exact hby.1)
        (by rw [abs_of_pos hy]; exact hby.2)]
    apply mul_le_mul_of_nonneg_right _ hu.le
    exact_mod_cast roundHalfEven_mono _ _ (div_le_div_of_nonneg_right hxy hu.le)

theorem binary32_mono (x y : ℚ) (hxy : x ≤ y) : binary32 x ≤ binary32 y := by
  rcases lt_trichotomy x 0 with hx | hx | hx
  · rcases lt_trichotomy y 0 with hy | hy | hy
    · have h := binary32_mono_pos (-y) (-x) (neg_pos.mpr hy) (neg_le_neg hxy)
      rw [binary32_neg, binary32_neg] at h
      exact neg_le_neg_iff.mp h
    · have h := binary32_pos (-x) (neg_pos.mpr hx)
      rw [binary32_neg] at h
      rw [hy, binary32_zero]
      linarith
    · have h := binary32_pos (-x) (neg_pos.mpr hx)
      rw [binary32_neg] at h
      have h2 := binary32_pos y hy
      linarith
  · rcases hxy.lt_or_eq with hy | hy
    · rw [hx, binary32_zero]
      exact (binary32_pos y (hx ▸ hy)).le
    · rw [← hy]
  · exact binary32_mono_pos x y hx hxy

/-- Evaluation of `binary32` at a positive `x`: the binade `e` and the nearest multiple
`n * 2 ^ (e - 23)`, when `x` is not half-way between two multiples. -/
theorem binary32_eval_mul (x : ℚ) (e n : ℤ) (hlo : (2 : ℚ) ^ e ≤ x) (hhi : x < 2 ^ (e + 1))
    (h1 : ((n : ℚ) - 1 / 2) * 2 ^ (e - 23) < x) (h2 : x < ((n : ℚ) + 1 / 2) * 2 ^ (e - 23)) :
    binary32 x = n * 2 ^ (e - 23) := by
  have hu : (0 : ℚ) < 2 ^ (e - 23) := by positivity
  have hx : 0 < x := lt_of_lt_of_le (by positivity) hlo
  rw [binary32_of_binade x e (by rwa [abs_of_pos hx]) (by rwa [abs_of_pos hx]),
    roundHalfEven_eq_of_lt _ n (by rwa [lt_div_iff₀ hu]) (by rwa [div_lt_iff₀ hu])]

/-- The rounding of `float` is monotone, idempotent and fixes 0. -/
theorem binary32_isRounding : IsRounding binary32 :=
  ⟨binary32_mono, binary32_idem, binary32_zero⟩

/-- Exact arithmetic is the rounding that changes nothing. -/
theorem id_isRounding : IsRounding (id : K → K) :=
  ⟨fun _ _ h => h, fun _ => rfl, rfl⟩

theorem binary32_rep_eq (x : ℚ) (n k : ℤ) (h1 : 8388608 ≤ n) (h2 : n ≤ 16777216)
    (hx : x = n * 2 ^ k) : binary32 x = x := by
  rw [hx]
  exact binary32_rep n k h1 h2

theorem speedUpdateFl_id (keyW keyS : Bool) (dt s : K) :
    speedUpdateFl id keyW keyS dt s = speedUpdate keyW keyS dt s := rfl

theorem holdAccelerateFl_id (dts : List K) (s : K) :
    holdAccelerateFl id dts s = holdAccelerate dts s := rfl

theorem speedUpdateFl_accel_only (rnd : K → K) (dt s : K) :
    speedUpdateFl rnd true false dt s = accelStepFl rnd true dt s := rfl

theorem speedUpdateFl_brake (rnd : K → K) (keyW : Bool) (dt s : K) :
    speedUpdateFl rnd keyW true dt s = brakeStepFl rnd true dt (accelStepFl rnd keyW dt s) := by
  cases keyW <;> rfl

theorem rnd_accel_nonneg (rnd : K → K) (hr : IsRounding rnd) (dt : K) (hdt : 0 ≤ dt) :
    0 ≤ rnd (ACCELERATION * dt) := by
  have h := hr.mono 0 (ACCELERATION * dt) (mul_nonneg (by norm_num [ACCELERATION]) hdt)
  rwa [hr.zero] at h

/-- The `S` branch in `float` arithmetic, from a speed `v`: the result is at least
`-MAX_SPEED / 2`, and at most a `float` value `s ≥ -MAX_SPEED / 2` when `v` minus the
rounded decrement is at most `s`. -/
theorem brakeStepFl_bounds (rnd : K → K) (hr : IsRounding rnd) (dt v s : K)
    (hs : -MAX_SPEED / 2 ≤ s) (hrep : rnd s = s) (hv : v - rnd (ACCELERATION * dt) ≤ s) :
    -MAX_SPEED / 2 ≤ brakeStepFl rnd true dt v ∧ brakeStepFl rnd true dt v ≤ s := by
  have h := hr.mono _ _ hv
  rw [hrep] at h
  unfold brakeStepFl
  dsimp only
  rw [if_pos rfl]
  split_ifs with hc
  · exact ⟨le_refl _, hs⟩
  · exact ⟨not_lt.mp hc, h⟩

theorem brakeStepFl_lower (rnd : K → K) (dt v : K) :
    -MAX_SPEED / 2 ≤ brakeStepFl rnd true dt v := by
  unfold brakeStepFl
  dsimp only
  rw [if_pos rfl]
  split_ifs with hc
  · exact le_refl _
  · exact not_lt.mp hc

/-- The `W` branch in `float` arithmetic, from a `float` value `s ≤ MAX_SPEED`: the result
is a `float` value between `s` and `MAX_SPEED`. -/
theorem accelStepFl_bounds (rnd : K → K) (hr : IsRounding rnd)
    (hmax : rnd MAX_SPEED = MAX_SPEED) (dt s : K) (hdt : 0 ≤ dt) (hs : s ≤ MAX_SPEED)
    (hrep : rnd s = s) :
    s ≤ accelStepFl rnd true dt s ∧ accelStepFl rnd true dt s ≤ MAX_SPEED ∧
      rnd (accelStepFl rnd true dt s) = accelStepFl rnd true dt s := by
  have hp := rnd_accel_nonneg rnd hr dt hdt
  have h := hr.mono s (s + rnd (ACCELERATION * dt)) (by linarith)
  rw [hrep] at h
  unfold accelStepFl
  dsimp only
  rw [if_pos rfl]
  split_ifs with hc
  · exact ⟨hs, le_refl _, hmax⟩
  · exact ⟨h, not_lt.mp hc, hr.idem _⟩

theorem holdAccelerateFl_cons (rnd : K → K) (dt : K) (dts : List K) (s : K) :
    holdAccelerateFl rnd (dt :: dts) s
      = holdAccelerateFl rnd dts (accelStepFl rnd true dt s) := rfl

theorem holdAccelerateFl_bounds (rnd : K → K) (hr : IsRounding rnd)
    (hmax : rnd MAX_SPEED = MAX_SPEED) (dts : List K) :
    ∀ s : K, (∀ dt ∈ dts, 0 ≤ dt) → s ≤ MAX_SPEED → rnd s = s →
      s ≤ holdAccelerateFl rnd dts s ∧ holdAccelerateFl rnd dts s ≤ MAX_SPEED := by
  induction dts with
  | nil =>
    intro s _ hs _
    exact ⟨le_refl _, hs⟩
  | cons dt dts ih =>
    intro s hdt hs hrep
    obtain ⟨h1, h2, h3⟩ := accelStepFl_bounds rnd hr hmax dt s
      (hdt dt (List.mem_cons_self _ _)) hs hrep
    obtain ⟨h4, h5⟩ := ih _ (fun d hd => hdt d (List.mem_cons_of_mem _ hd)) h2 h3
    rw [holdAccelerateFl_cons]
    exact ⟨le_trans h1 h4, h5⟩

/-- When no operation rounds, the `float` run is the exact run. -/
theorem holdAccelerateFl_exact (rnd : K → K) (dts : List K) :
    ∀ s : K, holdExact rnd dts s → holdAccelerateFl rnd dts s = holdAccelerate dts s := by
  induction dts with
  | nil =>
    intro s _
    rfl
  | cons dt dts ih =>
    intro s hex
    obtain ⟨h1, h2, h3⟩ := hex
    have hstep : speedUpdateFl rnd true false dt s = speedUpdate true false dt s := by
      show accelStepFl rnd true dt s = accelStep true dt s
      unfold accelStepFl accelStep
      dsimp only
      rw [h1, h2]
    rw [hstep] at h3
    have h := ih _ h3
    rw [holdAccelerateFl_cons]
    show holdAccelerateFl rnd dts (speedUpdateFl rnd true false dt s) = _
    rw [hstep, h]
    rfl

/-- Evaluation of `binary32` at a positive `x`, with the value written as `r`. -/
theorem binary32_eval (x r : ℚ) (e n : ℤ) (hlo : (2 : ℚ) ^ e ≤ x) (hhi : x < 2 ^ (e + 1))
    (h1 : ((n : ℚ) - 1 / 2) * 2 ^ (e - 23) < x) (h2 : x < ((n : ℚ) + 1 / 2) * 2 ^ (e - 23))
    (hr : r = n * 2 ^ (e - 23)) : binary32 x = r := by
  rw [hr]
  exact binary32_eval_mul x e n hlo hhi h1 h2

/-- One accelerate-only frame in `float` arithmetic, from the rounded product `p` and the
rounded sum `r`, when the sum does not exceed `MAX_SPEED`. -/
theorem accelStepFl_eval (rnd : K → K) (dt s p r : K) (hp : rnd (ACCELERATION * dt) = p)
    (hr : rnd (s + p) = r) (hle : ¬ r > MAX_SPEED) : accelStepFl rnd true dt s = r := by
  unfold accelStepFl
  dsimp only
  rw [if_pos rfl, hp, hr, if_neg hle]

/-- One accelerate-only frame in `float` arithmetic in which no operation rounds is the
frame of exact arithmetic. -/
theorem accelStepFl_exact (rnd : K → K) (dt s : K)
    (h1 : rnd (ACCELERATION * dt) = ACCELERATION * dt)
    (h2 : rnd (s + ACCELERATION * dt) = s + ACCELERATION * dt) :
    accelStepFl rnd true dt s = accelStep true dt s := by
  unfold accelStepFl accelStep
  dsimp only
  rw [h1, h2]

/-- C2, as stated, fails in `float` arithmetic when accelerate is held too: from the `float`
speed `0.3f = 5033165 / 16777216` with `dt = 1`, the `W` branch rounds
`0.3f + 4.5` up to `5033165 / 1048576` and the `S` branch subtracts 4.5 again, which
leaves `314573 / 1048576 > 0.3f`. -/
theorem C2_counterexample :
    IsRounding binary32 ∧ binary32 0.3 = 5033165 / 16777216 ∧ (0 : ℚ) ≤ 1 ∧
      -MAX_SPEED / 2 ≤ (5033165 / 16777216 : ℚ) ∧
      speedUpdateFl binary32 true true 1 (5033165 / 16777216) = 314573 / 1048576 ∧
      ¬ speedUpdateFl binary32 true true 1 (5033165 / 16777216) ≤ 5033165 / 16777216 := by
  have hp : binary32 (ACCELERATION * 1) = 9 / 2 :=
    binary32_eval _ _ 2 9437184 (by norm_num [ACCELERATION]) (by norm_num [ACCELERATION])
      (by norm_num [ACCELERATION]) (by norm_num [ACCELERATION]) (by norm_num)
  have hv : binary32 ((5033165 / 16777216 : ℚ) + 9 / 2) = 5033165 / 1048576 :=
    binary32_eval _ _ 2 10066330 (by norm_num) (by norm_num) (by norm_num) (by norm_num)
      (by norm_num)
  have hw : binary32 ((5033165 / 1048576 : ℚ) - 9 / 2) = 314573 / 1048576 :=
    binary32_eval _ _ (-2) 10066336 (by norm_num) (by norm_num) (by norm_num) (by norm_num)
      (by norm_num)
  have hval : speedUpdateFl binary32 true true 1 (5033165 / 16777216) = 314573 / 1048576 := by
    rw [speedUpdateFl_brake, accelStepFl_eval binary32 1 _ _ _ hp hv (by norm_num [MAX_SPEED])]
    unfold brakeStepFl
    dsimp only
    rw [if_pos rfl, hp, hw, if_neg (by norm_num [MAX_SPEED])]
  refine ⟨binary32_isRounding, ?_, by norm_num, by norm_num [MAX_SPEED], hval, ?_⟩
  · exact binary32_eval _ _ (-2) 10066330 (by norm_num) (by norm_num) (by norm_num) (by norm_num)
      (by norm_num)
  · rw [hval]
    norm_num

/-- C2 (amended): for `dt ≥ 0` and a `float` speed `s ≥ -MAX_SPEED/2`, a frame in which the
brake control is held ends its speed update with a speed `≥ -MAX_SPEED/2`, whatever the
state of the accelerate control; that speed is `≤ s` when accelerate is not held, and also
when it is held and the addition `s + ACCELERATION * dt` of the `W` branch does not round.
In exact arithmetic it is `≤ s` in every case. -/
theorem C2_brake_bounds (rnd : K → K) (hr : IsRounding rnd) (keyW : Bool) (dt s : K)
    (hdt : 0 ≤ dt) (hs : -MAX_SPEED / 2 ≤ s) (hrep : rnd s = s) :
    -MAX_SPEED / 2 ≤ speedUpdateFl rnd keyW true dt s ∧
      (keyW = false → speedUpdateFl rnd keyW true dt s ≤ s) ∧
      (rnd (s + rnd (ACCELERATION * dt)) = s + rnd (ACCELERATION * dt) →
        speedUpdateFl rnd keyW true dt s ≤ s) ∧
      speedUpdate keyW true dt s ≤ s ∧ -MAX_SPEED / 2 ≤ speedUpdate keyW true dt s := by
  have hp := rnd_accel_nonneg rnd hr dt hdt
  refine ⟨?_, fun hW => ?_, fun hex => ?_, speedUpdate_brake_bounds keyW dt s hdt hs⟩
  · rw [speedUpdateFl_brake]
    exact brakeStepFl_lower rnd dt _
  · subst hW
    rw [speedUpdateFl_brake]
    exact (brakeStepFl_bounds rnd hr dt _ s hs hrep
      (by
        show s - rnd (ACCELERATION * dt) ≤ s
        linarith)).2
  · rw [speedUpdateFl_brake]
    apply (brakeStepFl_bounds rnd hr dt _ s hs hrep _).2
    cases keyW
    · show s - rnd (ACCELERATION * dt) ≤ s
      linarith
    · unfold accelStepFl
      dsimp only
      rw [if_pos rfl, hex]
      split_ifs with hc
      · have hc2 : MAX_SPEED < s + rnd (ACCELERATION * dt) := hc
        linarith
      · linarith

theorem C2_brake_bounds_witness :
    IsRounding binary32 ∧ (0 : ℚ) ≤ 1 / 2 ∧ -MAX_SPEED / 2 ≤ (3 : ℚ) ∧ binary32 3 = 3 ∧
      -MAX_SPEED / 2 ≤ speedUpdateFl binary32 false true (1 / 2) 3 ∧
      speedUpdateFl binary32 false true (1 / 2) 3 ≤ 3 :=
  have h0 : (0 : ℚ) ≤ 1 / 2 := by norm_num
  have h3 : -MAX_SPEED / 2 ≤ (3 : ℚ) := by norm_num [MAX_SPEED]
  have hrep : binary32 3 = 3 :=
    binary32_rep_eq 3 12582912 (-22) (by norm_num) (by norm_num) (by norm_num)
  have h := C2_brake_bounds binary32 binary32_isRounding false (1 / 2) 3 h0 h3 hrep
  ⟨binary32_isRounding, h0, h3, hrep, h.1, h.2.1 rfl⟩

/-- C3, as stated, fails in `float` arithmetic: 20 accelerate-only frames of `0.1f` seconds
(a total of 2.00000003 s) from speed 0 end with the speed `4718591 / 524288`
(8.999998), which is neither 9 nor `min(MAX_SPEED, ACCELERATION * sum dt_i)`. -/
theorem C3_counterexample :
    binary32 0.1 = 13421773 / 134217728 ∧
      (∀ dt ∈ List.replicate 20 (13421773 / 134217728 : ℚ), 0 ≤ dt) ∧
      (0 : ℚ) ≤ MAX_SPEED ∧
      2 ≤ (List.replicate 20 (13421773 / 134217728 : ℚ)).sum ∧
      holdAccelerateFl binary32 (List.replicate 20 (13421773 / 134217728 : ℚ)) 0 = 4718591 / 524288 ∧
      holdAccelerateFl binary32 (List.replicate 20 (13421773 / 134217728 : ℚ)) 0 ≠ 9 ∧
      holdAccelerateFl binary32 (List.replicate 20 (13421773 / 134217728 : ℚ)) 0
        ≠ min MAX_SPEED (0 + ACCELERATION * (List.replicate 20 (13421773 / 134217728 : ℚ)).sum) := by
  have hp : binary32 (ACCELERATION * (13421773 / 134217728)) = 15099495 / 33554432 :=
    binary32_eval _ _ (-2) 15099495 (by norm_num [ACCELERATION]) (by norm_num [ACCELERATION])
      (by norm_num [ACCELERATION]) (by norm_num [ACCELERATION]) (by norm_num)
  have h0 : accelStepFl binary32 true (13421773 / 134217728) (0) = 15099495 / 33554432 := by
    apply accelStepFl_eval _ _ _ _ _ hp
    · exact binary32_eval _ _ (-2) 15099495 (by norm_num) (by norm_num) (by norm_num)
        (by norm_num) (by norm_num)
    · norm_num [MAX_SPEED]
  have h1 : accelStepFl binary32 true (13421773 / 134217728) (15099495 / 33554432) = 15099495 / 16777216 := by
    apply accelStepFl_eval _ _ _ _ _ hp
    · exact binary32_eval _ _ (-1) 15099495 (by norm_num) (by norm_num) (by norm_num)
        (by norm_num) (by norm_num)
    · norm_num [MAX_SPEED]
  have h2 : accelStepFl binary32 true (13421773 / 134217728) (15099495 / 16777216) = 11324621 / 8388608 := by
    apply accelStepFl_eval _ _ _ _ _ hp
    · exact binary32_eval _ _ 0 11324621 (by norm_num) (by norm_num) (by norm_num)
        (by norm_num) (by norm_num)
    · norm_num [MAX_SPEED]
  have h3 : accelStepFl binary32 true (13421773 / 134217728) (11324621 / 8388608) = 15099495 / 8388608 := by
    apply accelStepFl_eval _ _ _ _ _ hp
    · exact binary32_eval _ _ 0 15099495 (by norm_num) (by norm_num) (by norm_num)
        (by norm_num) (by norm_num)
    · norm_num [MAX_SPEED]
  have h4 : accelStepFl binary32 true (13421773 / 134217728) (15099495 / 8388608) = 9 / 4 := by
    apply accelStepFl_eval _ _ _ _ _ hp
    · exact binary32_eval _ _ 1 9437184 (by norm_num) (by norm_num) (by norm_num)
        (by norm_num) (by norm_num)
    · norm_num [MAX_SPEED]
  have h5 : accelStepFl binary32 true (13421773 / 134217728) (9 / 4) = 11324621 / 4194304 := by
    apply accelStepFl_eval _ _ _ _ _ hp
    · exact binary32_eval _ _ 1 11324621 (by norm_num) (by norm_num) (by norm_num)
        (by norm_num) (by norm_num)
    · norm_num [MAX_SPEED]
  have h6 : accelStepFl binary32 true (13421773 / 134217728) (11324621 / 4194304) = 6606029 / 2097152 := by
    apply accelStepFl_eval _ _ _ _ _ hp
    · exact binary32_eval _ _ 1 13212058 (by norm_num) (by norm_num) (by norm_num)
        (by norm_num) (by norm_num)
    · norm_num [MAX_SPEED]
  have h7 : accelStepFl binary32 true (13421773 / 134217728) (6606029 / 2097152) = 15099495 / 4194304 := by
    apply accelStepFl_eval _ _ _ _ _ hp
    · exact binary32_eval _ _ 1 15099495 (by norm_num) (by norm_num) (by norm_num)
        (by norm_num) (by norm_num)
    · norm_num [MAX_SPEED]
  have h8 : accelStepFl binary32 true (13421773 / 134217728) (15099495 / 4194304) = 4246733 / 1048576 := by
    apply accelStepFl_eval _ _ _ _ _ hp
    · exact binary32_eval _ _ 2 8493466 (by norm_num) (by norm_num) (by norm_num)
        (by norm_num) (by norm_num)
    · norm_num [MAX_SPEED]
  have h9 : accelStepFl binary32 true (13421773 / 134217728) (4246733 / 1048576) = 9 / 2 := by
    apply accelStepFl_eval _ _ _ _ _ hp
    · exact binary32_eval _ _ 2 9437184 (by norm_num) (by norm_num) (by norm_num)
        (by norm_num) (by norm_num)
    · norm_num [MAX_SPEED]
  have h10 : accelStepFl binary32 true (13421773 / 134217728) (9 / 2) = 5190451 / 1048576 := by
    apply accelStepFl_eval _ _ _ _ _ hp
    · exact binary32_eval _ _ 2 10380902 (by norm_num) (by norm_num) (by norm_num)
        (by norm_num) (by norm_num)
    · norm_num [MAX_SPEED]
  have h11 : accelStepFl binary32 true (13421773 / 134217728) (5190451 / 1048576) = 2831155 / 524288 := by
    apply accelStepFl_eval _ _ _ _ _ hp
    · exact binary32_eval _ _ 2 11324620 (by norm_num) (by norm_num) (by norm_num)
        (by norm_num) (by norm_num)
    · norm_num [MAX_SPEED]
  have h12 : accelStepFl binary32 true (13421773 / 134217728) (2831155 / 524288) = 6134169 / 1048576 := by
    apply accelStepFl_eval _ _ _ _ _ hp
    · exact binary32_eval _ _ 2 12268338 (by norm_num) (by norm_num) (by norm_num)
        (by norm_num) (by norm_num)
    · norm_num [MAX_SPEED]
  have h13 : accelStepFl binary32 true (13421773 / 134217728) (6134169 / 1048576) = 1651507 / 262144 := by
    apply accelStepFl_eval _ _ _ _ _ hp
    · exact binary32_eval _ _ 2 13212056 (by norm_num) (by norm_num) (by norm_num)
        (by norm_num) (by norm_num)
    · norm_num [MAX_SPEED]
  have h14 : accelStepFl binary32 true (13421773 / 134217728) (1651507 / 262144) = 7077887 / 1048576 := by
    apply accelStepFl_eval _ _ _ _ _ hp
    · exact binary32_eval _ _ 2 14155774 (by norm_num) (by norm_num) (by norm_num)
        (by norm_num) (by norm_num)
    · norm_num [MAX_SPEED]
  have h15 : accelStepFl binary32 true (13421773 / 134217728) (7077887 / 1048576) = 3774873 / 524288 := by
    apply accelStepFl_eval _ _ _ _ _ hp
    · exact binary32_eval _ _ 2 15099492 (by norm_num) (by norm_num) (by norm_num)
        (by norm_num) (by norm_num)
    · norm_num [MAX_SPEED]
  have h16 : accelStepFl binary32 true (13421773 / 134217728) (3774873 / 524288) = 8021605 / 1048576 := by
    apply accelStepFl_eval _ _ _ _ _ hp
    · exact binary32_eval _ _ 2 16043210 (by norm_num) (by norm_num) (by norm_num)
        (by norm_num) (by norm_num)
    · norm_num [MAX_SPEED]
  have h17 : accelStepFl binary32 true (13421773 / 134217728) (8021605 / 1048576) = 1061683 / 131072 := by
    apply accelStepFl_eval _ _ _ _ _ hp
    · exact binary32_eval _ _ 3 8493464 (by norm_num) (by norm_num) (by norm_num)
        (by norm_num) (by norm_num)
    · norm_num [MAX_SPEED]
  have h18 : accelStepFl binary32 true (13421773 / 134217728) (1061683 / 131072) = 8965323 / 1048576 := by
    apply accelStepFl_eval _ _ _ _ _ hp
    · exact binary32_eval _ _ 3 8965323 (by norm_num) (by norm_num) (by norm_num)
        (by norm_num) (by norm_num)
    · norm_num [MAX_SPEED]
  have h19 : accelStepFl binary32 true (13421773 / 134217728) (8965323 / 1048576) = 4718591 / 524288 := by
    apply accelStepFl_eval _ _ _ _ _ hp
    · exact binary32_eval _ _ 3 9437182 (by norm_num) (by norm_num) (by norm_num)
        (by norm_num) (by norm_num)
    · norm_num [MAX_SPEED]
  have hval : holdAccelerateFl binary32 (List.replicate 20 (13421773 / 134217728 : ℚ)) 0 = 4718591 / 524288 := by
    show holdAccelerateFl binary32 [13421773 / 134217728, 13421773 / 134217728, 13421773 / 134217728, 13421773 / 134217728, 13421773 / 134217728, 13421773 / 134217728, 13421773 / 134217728, 13421773 / 134217728, 13421773 / 134217728, 13421773 / 134217728, 13421773 / 134217728, 13421773 / 134217728, 13421773 / 134217728, 13421773 / 134217728, 13421773 / 134217728, 13421773 / 134217728, 13421773 / 134217728, 13421773 / 134217728, 13421773 / 134217728, 13421773 / 134217728] 0 = _
    rw [holdAccelerateFl_cons, h0, holdAccelerateFl_cons, h1, holdAccelerateFl_cons, h2, holdAccelerateFl_cons, h3, holdAccelerateFl_cons, h4, holdAccelerateFl_cons, h5, holdAccelerateFl_cons, h6, holdAccelerateFl_cons, h7, holdAccelerateFl_cons, h8, holdAccelerateFl_cons, h9, holdAccelerateFl_cons, h10, holdAccelerateFl_cons, h11, holdAccelerateFl_cons, h12, holdAccelerateFl_cons, h13, holdAccelerateFl_cons, h14, holdAccelerateFl_cons, h15, holdAccelerateFl_cons, h16, holdAccelerateFl_cons, h17, holdAccelerateFl_cons, h18, holdAccelerateFl_cons, h19]
    rfl
  have hsum : (List.replicate 20 (13421773 / 134217728 : ℚ)).sum = 67108865 / 33554432 := by
    rw [List.sum_replicate]
    norm_num
  refine ⟨?_, ?_, by norm_num [MAX_SPEED], ?_, hval, ?_, ?_⟩
  · exact binary32_eval _ _ (-4) 13421773 (by norm_num) (by norm_num) (by norm_num) (by norm_num)
      (by norm_num)
  · intro d hd
    rw [List.eq_of_mem_replicate hd]
    norm_num
  · rw [hsum]
    norm_num
  · rw [hval]
    norm_num
  · rw [hval, hsum, min_eq_left (by norm_num [MAX_SPEED, ACCELERATION])]
    norm_num [MAX_SPEED]

/-- C3 (amended): over any finite sequence of frames with deltas `dt_i ≥ 0` in which only
accelerate is held, from a `float` speed `s0 ≤ MAX_SPEED`, the final speed is at least `s0`
and at most `MAX_SPEED`; when no product `ACCELERATION * dt_i` and no sum of the updates
rounds, and in exact arithmetic, it is `min(MAX_SPEED, s0 + ACCELERATION * sum dt_i)`, and
then, with `MAX_SPEED = 9` and `ACCELERATION = 4.5`, from speed 0 a total of at least
2 seconds gives exactly 9. -/
theorem C3_hold_accelerate (rnd : K → K) (hr : IsRounding rnd)
    (hmax : rnd MAX_SPEED = MAX_SPEED) (dts : List K) (s0 : K) (hdt : ∀ dt ∈ dts, 0 ≤ dt)
    (hs0 : s0 ≤ MAX_SPEED) (hrep : rnd s0 = s0) :
    s0 ≤ holdAccelerateFl rnd dts s0 ∧ holdAccelerateFl rnd dts s0 ≤ MAX_SPEED ∧
      (holdExact rnd dts s0 →
        holdAccelerateFl rnd dts s0 = min MAX_SPEED (s0 + ACCELERATION * dts.sum) ∧
          (s0 = 0 → 2 ≤ dts.sum → holdAccelerateFl rnd dts s0 = 9)) ∧
      holdAccelerate dts s0 = min MAX_SPEED (s0 + ACCELERATION * dts.sum) ∧
      (MAX_SPEED : K) = 9 ∧ (ACCELERATION : K) = 4.5 ∧
      (s0 = 0 → 2 ≤ dts.sum → holdAccelerate dts s0 = 9) := by
  have h := holdAccelerate_eq_min dts s0 hs0 hdt
  have hb := holdAccelerateFl_bounds rnd hr hmax dts s0 hdt hs0 hrep
  have h9 : (MAX_SPEED : K) = 9 := by norm_num [MAX_SPEED]
  have hA : (ACCELERATION : K) = 9 / 2 := by norm_num [ACCELERATION]
  have hnine : s0 = 0 → 2 ≤ dts.sum → holdAccelerate dts s0 = 9 := by
    intro h0 h2
    rw [h, h0, h9, hA]
    exact min_eq_left (by linarith)
  refine ⟨hb.1, hb.2, fun hex => ?_, h, h9, rfl, hnine⟩
  have he := holdAccelerateFl_exact rnd dts s0 hex
  rw [he]
  exact ⟨h, hnine⟩

theorem C3_hold_accelerate_witness :
    IsRounding binary32 ∧ binary32 MAX_SPEED = MAX_SPEED ∧
      (∀ dt ∈ [(1 : ℚ), 0.75, 0.5], 0 ≤ dt) ∧ (0 : ℚ) ≤ MAX_SPEED ∧ binary32 0 = 0 ∧
      holdExact binary32 [(1 : ℚ), 0.75, 0.5] 0 ∧
      holdAccelerateFl binary32 [(1 : ℚ), 0.75, 0.5] 0 = 9 :=
  have hmax : binary32 MAX_SPEED = MAX_SPEED :=
    binary32_rep_eq _ 9437184 (-20) (by norm_num) (by norm_num) (by norm_num [MAX_SPEED])
  have hdt : ∀ dt ∈ [(1 : ℚ), 0.75, 0.5], 0 ≤ dt := by
    intro dt h
    simp only [List.mem_cons, List.mem_singleton, List.not_mem_nil, or_false] at h
    rcases h with h | h | h <;> rw [h] <;> norm_num
  have hs0 : (0 : ℚ) ≤ MAX_SPEED := by norm_num [MAX_SPEED]
  have hex : holdExact binary32 [(1 : ℚ), 0.75, 0.5] 0 := by
    have a1 : binary32 (ACCELERATION * 1) = ACCELERATION * 1 :=
      binary32_rep_eq _ 9437184 (-21) (by norm_num) (by norm_num) (by norm_num [ACCELERATION])
    have b1 : binary32 (0 + ACCELERATION * 1) = 0 + ACCELERATION * 1 :=
      binary32_rep_eq _ 9437184 (-21) (by norm_num) (by norm_num) (by norm_num [ACCELERATION])
    have s1 : speedUpdateFl binary32 true false 1 0 = 9 / 2 := by
      rw [speedUpdateFl_accel_only, accelStepFl_exact binary32 1 0 a1 b1]
      norm_num [accelStep, ACCELERATION, MAX_SPEED]
    have a2 : binary32 (ACCELERATION * 0.75) = ACCELERATION * 0.75 :=
      binary32_rep_eq _ 14155776 (-22) (by norm_num) (by norm_num) (by norm_num [ACCELERATION])
    have b2 : binary32 (9 / 2 + ACCELERATION * 0.75) = 9 / 2 + ACCELERATION * 0.75 :=
      binary32_rep_eq _ 16515072 (-21) (by norm_num) (by norm_num) (by norm_num [ACCELERATION])
    have s2 : speedUpdateFl binary32 true false 0.75 (9 / 2) = 63 / 8 := by
      rw [speedUpdateFl_accel_only, accelStepFl_exact binary32 0.75 (9 / 2) a2 b2]
      norm_num [accelStep, ACCELERATION, MAX_SPEED]
    have a3 : binary32 (ACCELERATION * 0.5) = ACCELERATION * 0.5 :=
      binary32_rep_eq _ 9437184 (-22) (by norm_num) (by norm_num) (by norm_num [ACCELERATION])
    have b3 : binary32 (63 / 8 + ACCELERATION * 0.5) = 63 / 8 + ACCELERATION * 0.5 :=
      binary32_rep_eq _ 10616832 (-20) (by norm_num) (by norm_num) (by norm_num [ACCELERATION])
    refine ⟨a1, b1, ?_⟩
    rw [s1]
    refine ⟨a2, b2, ?_⟩
    rw [s2]
    exact ⟨a3, b3, trivial⟩
  ⟨binary32_isRounding, hmax, hdt, hs0, binary32_zero, hex,
    ((C3_hold_accelerate binary32 binary32_isRounding hmax [(1 : ℚ), 0.75, 0.5] 0 hdt hs0
      binary32_zero).2.2.1 hex).2 rfl (by norm_num)⟩

end Theorems

end KartRace
